import Mathlib

/-!
Runtime dependency publisher: property path parser, value extractor, fan-out and resolver.

A shallow embedding of
`pkg/dashboard/dashboardexecute/runtime_dependency_publisher_base.go`
(`getWithValue`, `columnValuesFromRows`, `SubscribeToRuntimeDependency`,
`PublishRuntimeDependencyValue`, `ProvidesRuntimeDependency`, `WalkUpPublishers`,
`resolveRuntimeDependencies`, `FindRuntimeDependencyForParent`, `populateData`,
`setWithValue`) and of
`pkg/steampipeconfig/modconfig/parsed_property_path.go`
(`ParseResourcePropertyPath`, `PropertyPathString`), together with the data types these
functions read.

Conventions of the embedding:

* a Go value of static type `any` is a `GoAny`;
* a Go `map[string]any` is an association list, read with `Row.index`
  (Go `m[k]`) and `Row.lookup` (Go `v, ok := m[k]`);
* a Go function returning `(T, error)` that may also panic returns a
  `GoResult T`; an `error` is represented by its message;
* Go `int` is the 64 bit signed integer;
* Go code that may panic or block returns a `GoExec`;
* a pointer to a node of the dashboard tree is the position of the node in the chain of
  its ancestors (`ParentChain`), a pointer to a channel its position in the list of the
  channels made so far.
-/

namespace Steampipe

/-! ## Data model -/

/-- Column definition of a query result (`queryresult.ColumnDef`): the fields
read by the publisher. -/
structure ColumnDef where
  Name : String
  DataType : String
deriving DecidableEq, Repr

/-- A dynamically typed Go value (`any`).  `leafData` is a `*dashboardtypes.LeafData`
stored in an interface value; `slice` is a `[]any`; `nan` is the `float64` value NaN,
the one float the embedding names (`encoding/json` refuses to encode it). -/
inductive GoAny where
  | nil : GoAny
  | bool (b : Bool) : GoAny
  | int (i : Int) : GoAny
  | str (s : String) : GoAny
  | slice (xs : List GoAny) : GoAny
  | leafData (columns : List ColumnDef) (rows : List (List (String × GoAny))) : GoAny
  | nan : GoAny

/-- One result row, `map[string]any`. -/
abbrev Row := List (String × GoAny)

/-- Go `v, ok := row[column]`. -/
def Row.lookup (row : Row) (column : String) : Option GoAny :=
  List.lookup column row

/-- Go `row[column]`: the zero value `nil` when the key is absent. -/
def Row.index (row : Row) (column : String) : GoAny :=
  (row.lookup column).getD GoAny.nil

/-- Tabular result of a leaf run (`dashboardtypes.LeafData`). -/
structure LeafData where
  Columns : List ColumnDef
  Rows : List Row

/-- A `*LeafData` stored in an `any`. -/
def LeafData.toAny (d : LeafData) : GoAny :=
  GoAny.leafData d.Columns d.Rows

/-- Parsed property path (`modconfig.ParsedPropertyPath`). -/
structure ParsedPropertyPath where
  Mod : String
  ItemType : String
  Name : String
  PropertyPath : List String
  Scope : String
  Original : String
deriving DecidableEq, Repr

/-- Outcome of a Go call with result type `(T, error)`: a value with a nil
error, a non-nil error (its message) with a nil value, or a runtime panic. -/
inductive GoResult (α : Type) where
  | ok (v : α) : GoResult α
  | error (msg : String) : GoResult α
  | panic (msg : String) : GoResult α

/-! ## `strconv.Atoi` -/

/-- Decimal digits of `strconv.Atoi`: `n = n*10 + int(ch - '0')`, failing on
the first byte that is not a digit. -/
def atoiDigits : Nat → List Char → Option Nat
  | n, [] => some n
  | n, ch :: rest =>
    if ch.isDigit then atoiDigits (n * 10 + (ch.toNat - 48)) rest else none

/-- Unsigned part of `strconv.Atoi`: at least one digit is required. -/
def atoiUnsigned (s : List Char) : Option Nat :=
  match s with
  | [] => none
  | _ :: _ => atoiDigits 0 s

/-- Go `strconv.Atoi` for the 64 bit `int`: an optional sign followed by one or
more decimal digits, with a range error outside `[-2^63, 2^63 - 1]`.
`none` stands for a non-nil error. -/
def Atoi (s : String) : Option Int :=
  match s.toList with
  | '-' :: rest =>
    match atoiUnsigned rest with
    | some n => if n ≤ 2 ^ 63 then some (-(n : Int)) else none
    | none => none
  | '+' :: rest =>
    match atoiUnsigned rest with
    | some n => if n < 2 ^ 63 then some (n : Int) else none
    | none => none
  | rest =>
    match atoiUnsigned rest with
    | some n => if n < 2 ^ 63 then some (n : Int) else none
    | none => none

/-! ## Value extractor -/

/-- Loop of `columnValuesFromRows`: `res[i], ok = row[column]`, returning the
error at the first row without the column. -/
def columnValuesLoop (column : String) : List Row → Except String (List GoAny)
  | [] => Except.ok []
  | row :: rest =>
    match row.lookup column with
    | none => Except.error ("column " ++ column ++ " does not exist")
    | some v =>
      match columnValuesLoop column rest with
      | Except.ok res => Except.ok (v :: res)
      | Except.error e => Except.error e

/-- Go `columnValuesFromRows(column, rows)`. -/
def columnValuesFromRows (column : String) (rows : List Row) : GoResult GoAny :=
  if column == "" then
    GoResult.error "columnValuesFromRows failed - no column specified"
  else
    match columnValuesLoop column rows with
    | Except.ok res => GoResult.ok (GoAny.slice res)
    | Except.error e => GoResult.error e

/-- Lines 240-255 of `getWithValue`: the row selection once `rowIdxStr` and
`column` are known.  `Pluralize` is `utils.Pluralize`. -/
def getWithValueRows (Pluralize : String → Int → String) (name : String)
    (rows : List Row) (path : ParsedPropertyPath) (rowIdxStr column : String) :
    GoResult GoAny :=
  if rowIdxStr == "*" then
    columnValuesFromRows column rows
  else
    match Atoi rowIdxStr with
    | none =>
      GoResult.error ("reference to with '" ++ name ++ "' has invalid property path '"
        ++ path.Original ++ "' - cannot parse row idx '" ++ rowIdxStr ++ "'")
    | some rowIdx =>
      let rowCount : Int := rows.length
      if rowIdx ≥ rowCount then
        GoResult.error ("reference to with '" ++ name ++ "' has invalid row index '"
          ++ toString rowIdx ++ "' - " ++ toString rowCount ++ " "
          ++ Pluralize "row" rowCount ++ " were returned")
      else if rowIdx < 0 then
        GoResult.panic ("runtime error: index out of range [" ++ toString rowIdx ++ "]")
      else
        match rows[rowIdx.toNat]? with
        | some row => GoResult.ok (row.index column)
        | none => GoResult.panic ("runtime error: index out of range [" ++ toString rowIdx ++ "]")

/-- Go `getWithValue(name, result, path)`.  `Pluralize` is `utils.Pluralize`,
which is used only to build the text of the row index error. -/
def getWithValue (Pluralize : String → Int → String) (name : String)
    (result : LeafData) (path : ParsedPropertyPath) : GoResult GoAny :=
  let rows := result.Rows
  if (decide (path.PropertyPath.length > 0) && path.PropertyPath.getD 0 "" != "rows")
      || decide (path.PropertyPath.length > 2 + 1) then
    GoResult.error ("reference to with '" ++ name ++ "' has invalid property path '"
      ++ path.Original ++ "'")
  else
    let rowIdxStr :=
      if path.PropertyPath.length > 1 then path.PropertyPath.getD 1 "" else "*"
    if path.PropertyPath.length > 2 then
      getWithValueRows Pluralize name rows path rowIdxStr (path.PropertyPath.getD 2 "")
    else if result.Columns.length > 1 then
      GoResult.error ("reference to with '" ++ name
        ++ "' is returning more than one column - not supported")
    else
      match result.Columns with
      | [] => GoResult.panic "runtime error: index out of range [0] with length 0"
      | c :: _ => getWithValueRows Pluralize name rows path rowIdxStr c.Name

/-- A property path addressing `with.<name>` with the given segments. -/
def withPath (name original : String) (segments : List String) : ParsedPropertyPath :=
  { Mod := "", ItemType := "with", Name := name, PropertyPath := segments,
    Scope := "", Original := original }

/-- A model of `utils.Pluralize` used to evaluate examples. -/
def pluralizeS (base : String) (count : Int) : String :=
  if count == 1 then base else base ++ "s"

/-! ## Publisher: subscriptions and channels -/

/-- Value sent to the subscribers (`dashboardtypes.ResolvedRuntimeDependencyValue`). -/
structure ResolvedRuntimeDependencyValue where
  Value : GoAny
  Error : Option String

/-- State of a channel made by `make(chan *ResolvedRuntimeDependencyValue, 1)`: the
values sent and not yet received (oldest first) and whether it has been closed.  The
capacity is 1. -/
structure Chan where
  buf : List ResolvedRuntimeDependencyValue
  closed : Bool

/-- Outcome of a piece of Go code run by one goroutine with no concurrent receiver: it
completes with a value, panics, or blocks for ever. -/
inductive GoExec (α : Type) where
  | done (v : α) : GoExec α
  | panic (msg : String) : GoExec α
  | blocked : GoExec α

/-- Subscription target (`RuntimeDependencyPublishTarget`).  Field `channel` is a
reference to a channel: its index in the list of the channels made so far.  A transform
is Go code: applied to a value it returns a value or panics. -/
structure RuntimeDependencyPublishTarget where
  channel : Nat
  transform : Option (ResolvedRuntimeDependencyValue → GoExec ResolvedRuntimeDependencyValue)

/-- An option of `SubscribeToRuntimeDependency` (`RuntimeDependencyPublishOption`, a
`func(*RuntimeDependencyPublishTarget)`). -/
abbrev RuntimeDependencyPublishOption :=
  RuntimeDependencyPublishTarget → RuntimeDependencyPublishTarget

/-- Option `WithTransform(transform)`: sets the transform of the target. -/
def WithTransform
    (transform : ResolvedRuntimeDependencyValue → GoExec ResolvedRuntimeDependencyValue) :
    RuntimeDependencyPublishOption :=
  fun target => { target with transform := some transform }

/-- The state read and written by subscribe and publish: the field `subscriptions` of
`RuntimeDependencyPublisherBase` (`map[string][]*RuntimeDependencyPublishTarget`) and
the channels made so far. -/
structure PublisherState where
  subscriptions : List (String × List RuntimeDependencyPublishTarget)
  chans : List Chan

/-- Go `m[key]` on the subscription map: the nil slice when the key is absent. -/
def subscriptionsOf (m : List (String × List RuntimeDependencyPublishTarget)) (key : String) :
    List RuntimeDependencyPublishTarget :=
  (List.lookup key m).getD []

/-- Go `delete(m, key)`. -/
def mapDelete {β : Type} (m : List (String × β)) (key : String) : List (String × β) :=
  m.filter fun e => e.1 != key

/-- Go `m[key] = v`. -/
def mapSet {β : Type} (m : List (String × β)) (key : String) (v : β) : List (String × β) :=
  (key, v) :: mapDelete m key

/-- Go `ch <- v` on a channel of capacity 1.  A reference outside the channel list is
the nil channel, on which a send blocks. -/
def chanSend (chans : List Chan) (ch : Nat) (v : ResolvedRuntimeDependencyValue) :
    GoExec (List Chan) :=
  match chans[ch]? with
  | none => GoExec.blocked
  | some c =>
    if c.closed then GoExec.panic "send on closed channel"
    else if c.buf.length < 1 then GoExec.done (chans.set ch { c with buf := c.buf ++ [v] })
    else GoExec.blocked

/-- Go `close(ch)`. -/
def chanClose (chans : List Chan) (ch : Nat) : GoExec (List Chan) :=
  match chans[ch]? with
  | none => GoExec.panic "close of nil channel"
  | some c =>
    if c.closed then GoExec.panic "close of closed channel"
    else GoExec.done (chans.set ch { c with closed := true })

/-- Go `SubscribeToRuntimeDependency(name, opts...)`: the new state and the channel
returned. -/
def SubscribeToRuntimeDependency (b : PublisherState) (name : String)
    (opts : List RuntimeDependencyPublishOption) : PublisherState × Nat :=
  let target : RuntimeDependencyPublishTarget :=
    opts.foldl (fun t o => o t) { channel := b.chans.length, transform := none }
  ({ subscriptions :=
       mapSet b.subscriptions name (subscriptionsOf b.subscriptions name ++ [target]),
     chans := b.chans ++ [{ buf := [], closed := false }] },
   target.channel)

/-- The value sent to a target: `target.transform(result)` when the target has a
transform, `result` otherwise. -/
def RuntimeDependencyPublishTarget.valueFor (target : RuntimeDependencyPublishTarget)
    (result : ResolvedRuntimeDependencyValue) : GoExec ResolvedRuntimeDependencyValue :=
  match target.transform with
  | some transform => transform result
  | none => GoExec.done result

/-- Loop of `PublishRuntimeDependencyValue` over the targets of the name: send the
(transformed) result, then close the channel. -/
def publishLoop (result : ResolvedRuntimeDependencyValue) :
    List RuntimeDependencyPublishTarget → List Chan → GoExec (List Chan)
  | [], chans => GoExec.done chans
  | target :: rest, chans =>
    match target.valueFor result with
    | GoExec.done v =>
      match chanSend chans target.channel v with
      | GoExec.done chans1 =>
        match chanClose chans1 target.channel with
        | GoExec.done chans2 => publishLoop result rest chans2
        | GoExec.panic msg => GoExec.panic msg
        | GoExec.blocked => GoExec.blocked
      | GoExec.panic msg => GoExec.panic msg
      | GoExec.blocked => GoExec.blocked
    | GoExec.panic msg => GoExec.panic msg
    | GoExec.blocked => GoExec.blocked

/-- Go `PublishRuntimeDependencyValue(name, result)`. -/
def PublishRuntimeDependencyValue (b : PublisherState) (name : String)
    (result : ResolvedRuntimeDependencyValue) : GoExec PublisherState :=
  match publishLoop result (subscriptionsOf b.subscriptions name) b.chans with
  | GoExec.done chans =>
    GoExec.done { subscriptions := mapDelete b.subscriptions name, chans := chans }
  | GoExec.panic msg => GoExec.panic msg
  | GoExec.blocked => GoExec.blocked

/-- A publisher with no subscription and no channel
(`NewRuntimeDependencyPublisherBase`). -/
def PublisherState.new : PublisherState :=
  { subscriptions := [], chans := [] }

/-! ## Examples used to evaluate the extractor -/

/-- A one column result with rows `[{a:1},{a:2}]`. -/
def exampleOneColumn : LeafData :=
  { Columns := [{ Name := "a", DataType := "INT8" }],
    Rows := [[("a", GoAny.int 1)], [("a", GoAny.int 2)]] }

/-- A two column result with rows `[{a:1,b:x},{a:2,b:y}]`. -/
def exampleTwoColumns : LeafData :=
  { Columns := [{ Name := "a", DataType := "INT8" }, { Name := "b", DataType := "TEXT" }],
    Rows := [[("a", GoAny.int 1), ("b", GoAny.str "x")],
             [("a", GoAny.int 2), ("b", GoAny.str "y")]] }

/-- A transform used to evaluate examples: it replaces the value by the string `seen`. -/
def exampleTransform (r : ResolvedRuntimeDependencyValue) :
    GoExec ResolvedRuntimeDependencyValue :=
  GoExec.done { Value := GoAny.str "seen", Error := r.Error }

/-- A publisher on which `stuff1` was subscribed twice, first with a transform and then
without one. -/
def exampleSubscribedTwice : PublisherState :=
  (SubscribeToRuntimeDependency
    (SubscribeToRuntimeDependency PublisherState.new "stuff1"
      [WithTransform exampleTransform]).1
    "stuff1" []).1

/-! ## Property path parser -/

/-- Go `strings.Split` on the characters of a string, for a one character separator:
the pieces between the occurrences of `sep` (one piece when there is none). -/
def splitChars (sep : Char) : List Char → List (List Char)
  | [] => [[]]
  | c :: cs =>
    if c = sep then [] :: splitChars sep cs
    else
      match splitChars sep cs with
      | [] => [[c]]
      | part :: parts => (c :: part) :: parts

/-- Go `strings.Split(s, sep)` for a one character separator. -/
def stringsSplit (s : String) (sep : Char) : List String :=
  (splitChars sep s.toList).map String.mk

/-- Modelled from the spec: the constant `RuntimeDependencyDashboardScope`, which is not
in the source files; the spec gives the reserved scope token as `self`. -/
def RuntimeDependencyDashboardScope : String := "self"

/-- Summary of the diagnostic built at the three failure sites of
`ParseResourcePropertyPath`. -/
def invalidPropertyPathSummary (propertyPath : String) : String :=
  "invalid property path '" ++ propertyPath ++ "' passed to ParseResourcePropertyPath"

/-- Lines 64-97 of `ParseResourcePropertyPath`: the normalisation of the parts and the
assignment of the fields, once the scope has been read. -/
def parseNormalized (IsValidResourceItemType : String → Bool) (propertyPath scope : String)
    (parts : List String) : GoResult ParsedPropertyPath :=
  match parts with
  | [] => GoResult.panic "runtime error: index out of range [0] with length 0"
  | first :: _ =>
    let parts := if IsValidResourceItemType first then "" :: parts else parts
    if parts.length < 3 then
      GoResult.error (invalidPropertyPathSummary propertyPath)
    else
      let res : ParsedPropertyPath :=
        if parts.length == 3 then
          { Mod := parts.getD 0 "", ItemType := parts.getD 1 "", Name := parts.getD 2 "",
            PropertyPath := [], Scope := scope, Original := propertyPath }
        else
          { Mod := parts.getD 0 "", ItemType := parts.getD 1 "", Name := parts.getD 2 "",
            PropertyPath := parts.drop 3, Scope := scope, Original := propertyPath }
      if !IsValidResourceItemType res.ItemType then
        GoResult.error (invalidPropertyPathSummary propertyPath)
      else
        GoResult.ok res

/-- Go `ParseResourcePropertyPath(propertyPath, hclRange)`.  A failure is represented by
the summary of its diagnostic (the subject of the diagnostic is the range passed in, which
is not modelled).  `IsValidResourceItemType` is the function of that name of package
`modconfig`, which is not in the source files. -/
def ParseResourcePropertyPath (IsValidResourceItemType : String → Bool)
    (propertyPath : String) : GoResult ParsedPropertyPath :=
  let parts := stringsSplit propertyPath '.'
  if parts.length < 2 then
    GoResult.error (invalidPropertyPathSummary propertyPath)
  else if parts.getD 0 "" == RuntimeDependencyDashboardScope then
    parseNormalized IsValidResourceItemType propertyPath (parts.getD 0 "") (parts.drop 1)
  else
    parseNormalized IsValidResourceItemType propertyPath "" parts

/-- The part list of the parser as the spec words it: the raw string split on `.`, with a
leading `self` removed, and an empty string put in front when the (new) first part is a
recognized resource kind. -/
def normalizedParts (IsValidResourceItemType : String → Bool) (raw : String) : List String :=
  let parts := stringsSplit raw '.'
  let parts := if parts.head? = some "self" then parts.tail else parts
  match parts with
  | [] => parts
  | first :: _ => if IsValidResourceItemType first then "" :: parts else parts

/-- A set of resource kinds used to evaluate examples. -/
def exampleIsValid (blockType : String) : Bool :=
  blockType == "with" || blockType == "input" || blockType == "param"
    || blockType == "query" || blockType == "dashboard"

/-! ## Publisher: ownership of runtime dependencies -/

/-- Modelled from the spec: the constant `modconfig.BlockTypeWith`, which is not in the
source files; the spec names the item kind `with`. -/
def BlockTypeWith : String := "with"

/-- Modelled from the spec: the constant `modconfig.BlockTypeInput`, which is not in the
source files; the spec names the item kind `input`. -/
def BlockTypeInput : String := "input"

/-- Modelled from the spec: the constant `modconfig.BlockTypeParam`, which is not in the
source files; the spec names the item kind `param`. -/
def BlockTypeParam : String := "param"

/-- Parameter definition (`modconfig.ParamDef`): the field read by the publisher. -/
structure ParamDef where
  ShortName : String
deriving DecidableEq, Repr

/-- Dashboard input (`modconfig.DashboardInput`); the publisher only tests the presence
of an input under a name. -/
structure DashboardInput where
  UnqualifiedName : String
deriving DecidableEq, Repr

/-- A leaf run (`LeafRun`): the fields read by the publisher.  `UnqualifiedName` is
`DashboardNode.GetUnqualifiedName()`, `Data` is nil when the run failed. -/
structure LeafRun where
  UnqualifiedName : String
  Data : Option LeafData
  error : Option String
  runComplete : Bool

/-- Modelled from the spec: the type `modconfig.RuntimeDependency`, which is not in the
source files: a declared need, identified by the name of its source resource and a
property path, plus the name of the property of the consumer that it feeds.
`SourceResourceName` and `Str` are the results of the methods `SourceResourceName()` and
`String()`. -/
structure RuntimeDependency where
  PropertyPath : ParsedPropertyPath
  ParentPropertyName : String
  SourceResourceName : String
  Str : String
deriving DecidableEq, Repr

/-- Modelled from the spec: the type `dashboardtypes.ResolvedRuntimeDependency`, which is
not in the source files, as built by `NewResolvedRuntimeDependency`: a runtime dependency
paired with its delivery channel and the name of the publisher it was resolved to. -/
structure ResolvedRuntimeDependency where
  Dependency : RuntimeDependency
  valueChannel : Nat
  publisherName : String
deriving DecidableEq, Repr

/-- Go `RuntimeDependencyPublisherBase`: the fields of the struct other than `Args`, the
mutex and `parent` (the parent is the next node of a `ParentChain`).
The values stored in the maps are non-nil pointers. -/
structure RuntimeDependencyPublisherBase where
  Name : String
  Params : List ParamDef
  runtimeDependencies : List (String × ResolvedRuntimeDependency)
  subscriptions : List (String × List RuntimeDependencyPublishTarget)
  withRuns : List (String × LeafRun)
  inputs : List (String × DashboardInput)

/-- Go `NewRuntimeDependencyPublisherBase(name, parent)`. -/
def NewRuntimeDependencyPublisherBase (name : String) : RuntimeDependencyPublisherBase :=
  { Name := name, Params := [], runtimeDependencies := [], subscriptions := [],
    withRuns := [], inputs := [] }

/-- Loop over `b.Params` of `ProvidesRuntimeDependency`: true at the first parameter whose
short name is `name`. -/
def providesParam (name : String) : List ParamDef → Bool
  | [] => false
  | p :: rest => if p.ShortName == name then true else providesParam name rest

/-- Go `ProvidesRuntimeDependency(dependency)`. -/
def ProvidesRuntimeDependency (b : RuntimeDependencyPublisherBase)
    (dependency : RuntimeDependency) : Bool :=
  let resourceName := dependency.SourceResourceName
  if dependency.PropertyPath.ItemType == BlockTypeWith then
    (List.lookup resourceName b.withRuns).isSome
  else if dependency.PropertyPath.ItemType == BlockTypeInput then
    (List.lookup resourceName b.inputs).isSome
  else if dependency.PropertyPath.ItemType == BlockTypeParam then
    providesParam dependency.PropertyPath.Name b.Params
  else
    false

/-- Go `FindRuntimeDependenciesForParent(parentProperty)`; the list order of
`runtimeDependencies` is the iteration order of the map. -/
def FindRuntimeDependenciesForParent (b : RuntimeDependencyPublisherBase)
    (parentProperty : String) : List ResolvedRuntimeDependency :=
  (b.runtimeDependencies.filter
    fun e => e.2.Dependency.ParentPropertyName == parentProperty).map fun e => e.2

/-- Go `FindRuntimeDependencyForParent(parentProperty)`; the pointer returned is
`some`, a nil pointer is `none`. -/
def FindRuntimeDependencyForParent (b : RuntimeDependencyPublisherBase)
    (parentProperty : String) : GoExec (Option ResolvedRuntimeDependency) :=
  let res := FindRuntimeDependenciesForParent b parentProperty
  if res.length > 1 then
    GoExec.panic ("FindRuntimeDependencyForParent for " ++ b.Name ++ ", parent property "
      ++ parentProperty ++ ", returned more that 1 result")
  else
    match res with
    | [] => GoExec.panic "runtime error: index out of range [0] with length 0"
    | first :: _ => GoExec.done (some first)

/-- The transform set by `resolveRuntimeDependencies` for a dependency on a `with`
(lines 161-173): `name` is the key of the dependency, `dep` the dependency. -/
def withTransform (Pluralize : String → Int → String) (name : String)
    (dep : RuntimeDependency) (resolvedVal : ResolvedRuntimeDependencyValue) :
    GoExec ResolvedRuntimeDependencyValue :=
  match resolvedVal.Error with
  | some err => GoExec.done { Value := GoAny.nil, Error := some err }
  | none =>
    match resolvedVal.Value with
    | GoAny.leafData columns rows =>
      match getWithValue Pluralize name { Columns := columns, Rows := rows } dep.PropertyPath with
      | GoResult.ok withValue => GoExec.done { Value := withValue, Error := none }
      | GoResult.error err =>
        GoExec.done
          { Value := GoAny.nil,
            Error := some ("failed to resolve with value '" ++ dep.PropertyPath.Original
              ++ "' for " ++ name ++ ": " ++ err) }
      | GoResult.panic msg => GoExec.panic msg
    | _ => GoExec.panic "interface conversion: any is not *dashboardtypes.LeafData"

/-! ## Publisher: the parent chain and the resolution of dependencies -/

/-- A node of the parent chain (`dashboardtypes.DashboardNodeParent`): either a node that
is a `RuntimeDependencyPublisher`, with its publisher base, or a node that is not. -/
inductive DashboardNodeParent where
  | publisher (b : RuntimeDependencyPublisherBase) : DashboardNodeParent
  | other : DashboardNodeParent

/-- The nodes from a publisher up to the root of the dashboard tree, with the channels
made so far.  A node is referred to by its position in `nodes`; the parent of node `i`
(`GetParent()`, or the field `parent` of a publisher base) is node `i + 1`, and the last
node has a nil parent. -/
structure ParentChain where
  nodes : List DashboardNodeParent
  chans : List Chan

/-- The publisher base of the node referred to by `p`, when that node is a publisher. -/
def publisherAt (nodes : List DashboardNodeParent) (p : Nat) :
    Option RuntimeDependencyPublisherBase :=
  match nodes[p]? with
  | some (DashboardNodeParent.publisher b) => some b
  | _ => none

/-- Loop of `GetParentPublisher`: `nodes` is the chain from `parent` upwards and `idx` the
reference of `parent`; the result is the reference of the first publisher, nil when the
chain is exhausted. -/
def parentPublisherLoop : List DashboardNodeParent → Nat → Option Nat
  | [], _ => none
  | DashboardNodeParent.publisher _ :: _, idx => some idx
  | DashboardNodeParent.other :: rest, idx => parentPublisherLoop rest (idx + 1)

/-- Go `GetParentPublisher()` of the publisher referred to by `b`. -/
def GetParentPublisher (nodes : List DashboardNodeParent) (b : Nat) : Option Nat :=
  parentPublisherLoop (nodes.drop (b + 1)) (b + 1)

/-- Loop of `WalkUpPublishers`, run along the chain `nodes` that starts at the node
referred to by `idx`: the nodes that are not publishers are passed over (the loop of
`GetParentPublisher`), `walkFunc` is called on each publisher, and the walk stops on an
error or when `walkFunc` returns false.  The state `σ` stands for the variables captured
by `walkFunc`. -/
def walkUpLoop {σ : Type} (walkFunc : σ → Nat → σ × Bool × Option String) :
    List DashboardNodeParent → Nat → σ → σ × Option String
  | [], _, st => (st, none)
  | DashboardNodeParent.other :: rest, idx, st => walkUpLoop walkFunc rest (idx + 1) st
  | DashboardNodeParent.publisher _ :: rest, idx, st =>
    match walkFunc st idx with
    | (st2, _, some err) => (st2, some err)
    | (st2, continueWalking, none) =>
      if continueWalking then walkUpLoop walkFunc rest (idx + 1) st2 else (st2, none)

/-- Go `WalkUpPublishers(walkFunc)` of the publisher referred to by `b`: the final value
of the captured variables and the error returned. -/
def WalkUpPublishers {σ : Type} (nodes : List DashboardNodeParent) (b : Nat)
    (walkFunc : σ → Nat → σ × Bool × Option String) (st : σ) : σ × Option String :=
  walkUpLoop walkFunc (nodes.drop b) b st

/-- Method call `p.ProvidesRuntimeDependency(dependency)` on the publisher referred to
by `p`. -/
def providesAt (nodes : List DashboardNodeParent) (p : Nat) (dependency : RuntimeDependency) :
    Bool :=
  match publisherAt nodes p with
  | some b => ProvidesRuntimeDependency b dependency
  | none => false

/-- The function passed to `WalkUpPublishers` by `findRuntimeDependencyPublisher`; the
captured variable is `res`. -/
def findWalkFunc (nodes : List DashboardNodeParent) (runtimeDependency : RuntimeDependency)
    (res : Option Nat) (p : Nat) : Option Nat × Bool × Option String :=
  if providesAt nodes p runtimeDependency then (some p, false, none) else (res, true, none)

/-- Go `findRuntimeDependencyPublisher(runtimeDependency)` of the publisher referred to
by `b`. -/
def findRuntimeDependencyPublisher (nodes : List DashboardNodeParent) (b : Nat)
    (runtimeDependency : RuntimeDependency) : Option Nat :=
  (WalkUpPublishers nodes b (findWalkFunc nodes runtimeDependency) none).1

/-- The publisher base with its field `subscriptions` replaced. -/
def RuntimeDependencyPublisherBase.setSubscriptions (b : RuntimeDependencyPublisherBase)
    (subscriptions : List (String × List RuntimeDependencyPublishTarget)) :
    RuntimeDependencyPublisherBase :=
  { b with subscriptions := subscriptions }

/-- Go `b.runtimeDependencies[name] = resolved`. -/
def RuntimeDependencyPublisherBase.setRuntimeDependency (b : RuntimeDependencyPublisherBase)
    (name : String) (resolved : ResolvedRuntimeDependency) : RuntimeDependencyPublisherBase :=
  { b with runtimeDependencies := mapSet b.runtimeDependencies name resolved }

/-- Body of the loop of `resolveRuntimeDependencies` for the dependency `d` of key `n`:
the new state with the error returned (`none` is the nil error, with which the loop goes
on).  A method call on a reference that is not a publisher panics. -/
def resolveRuntimeDependency (Pluralize : String → Int → String) (w : ParentChain) (b : Nat)
    (n : String) (d : RuntimeDependency) : GoExec (ParentChain × Option String) :=
  match findRuntimeDependencyPublisher w.nodes b d with
  | none => GoExec.done (w, some ("cannot resolve runtime dependency " ++ d.Str))
  | some publisher =>
    let opts : List RuntimeDependencyPublishOption :=
      if d.PropertyPath.ItemType == BlockTypeWith then
        [WithTransform (withTransform Pluralize n d)]
      else []
    match publisherAt w.nodes publisher with
    | none => GoExec.panic "invalid memory address or nil pointer dereference"
    | some pub =>
      let subscribed := SubscribeToRuntimeDependency
        { subscriptions := pub.subscriptions, chans := w.chans } d.SourceResourceName opts
      let valueChannel := subscribed.2
      let publisherName := pub.Name
      let nodes1 := w.nodes.set publisher
        (DashboardNodeParent.publisher (pub.setSubscriptions subscribed.1.subscriptions))
      match publisherAt nodes1 b with
      | none => GoExec.panic "invalid memory address or nil pointer dereference"
      | some self =>
        GoExec.done
          ({ nodes := nodes1.set b
               (DashboardNodeParent.publisher
                 (self.setRuntimeDependency n
                   { Dependency := d, valueChannel := valueChannel,
                     publisherName := publisherName })),
             chans := subscribed.1.chans },
           none)

/-- Go `resolveRuntimeDependencies(rdp)` of the publisher referred to by `b`, where
`rdp.GetRuntimeDependencies()` is the map whose entries, in iteration order, are the
list given. -/
def resolveRuntimeDependencies (Pluralize : String → Int → String) (w : ParentChain)
    (b : Nat) : List (String × RuntimeDependency) → GoExec (ParentChain × Option String)
  | [] => GoExec.done (w, none)
  | (n, d) :: rest =>
    match resolveRuntimeDependency Pluralize w b n d with
    | GoExec.done (w1, none) => resolveRuntimeDependencies Pluralize w1 b rest
    | GoExec.done (w1, some err) => GoExec.done (w1, some err)
    | GoExec.panic msg => GoExec.panic msg
    | GoExec.blocked => GoExec.blocked

/-- The `k`-th publisher of the upward chain `b`, `GetParentPublisher(b)`,
`GetParentPublisher(GetParentPublisher(b))`, ... -/
def nthPublisher (nodes : List DashboardNodeParent) : Nat → Nat → Option Nat
  | b, 0 => some b
  | b, k + 1 =>
    match GetParentPublisher nodes b with
    | none => none
    | some p => nthPublisher nodes p k

/-- What the search for a publisher reads of a node: whether it is a publisher, and then
its runs, inputs and parameters. -/
def ownershipOf :
    DashboardNodeParent →
      Option (List (String × LeafRun) × List (String × DashboardInput) × List ParamDef)
  | DashboardNodeParent.publisher b => some (b.withRuns, b.inputs, b.Params)
  | DashboardNodeParent.other => none

/-- The target made by `resolveRuntimeDependencies` for the dependency `d` of key `n`, on
the channel `channel`: it has the `with` transform when the item kind is `with`, and
no transform otherwise. -/
def resolvedTarget (Pluralize : String → Int → String) (n : String) (d : RuntimeDependency)
    (channel : Nat) : RuntimeDependencyPublishTarget :=
  { channel := channel,
    transform :=
      if d.PropertyPath.ItemType = "with" then some (withTransform Pluralize n d) else none }

/-! ## Examples used to evaluate the publisher -/

/-- A dependency named `dep1` on `with.stuff1.rows.1.a`, feeding the property `sql`. -/
def exampleWithDependency : RuntimeDependency :=
  { PropertyPath := withPath "stuff1" "with.stuff1.rows.1.a" ["rows", "1", "a"],
    ParentPropertyName := "sql", SourceResourceName := "with.stuff1",
    Str := "chart1.with.stuff1.rows.1.a" }

/-- A dependency on `input.region`, feeding the property `sql`. -/
def exampleInputDependency : RuntimeDependency :=
  { PropertyPath :=
      { Mod := "", ItemType := "input", Name := "region", PropertyPath := ["value"],
        Scope := "self", Original := "self.input.region.value" },
    ParentPropertyName := "sql", SourceResourceName := "input.region",
    Str := "chart1.self.input.region.value" }

/-- A publisher `chart1` with two resolved dependencies that both feed the property `sql`. -/
def exampleTwoForSql : RuntimeDependencyPublisherBase :=
  { NewRuntimeDependencyPublisherBase "chart1" with
    runtimeDependencies :=
      [("dep1", { Dependency := exampleWithDependency, valueChannel := 0,
                  publisherName := "container1" }),
       ("dep2", { Dependency := exampleInputDependency, valueChannel := 1,
                  publisherName := "dashboard1" })] }

/-- A run of the `with` named `stuff1` that has not completed. -/
def exampleWithRun : LeafRun :=
  { UnqualifiedName := "with.stuff1", Data := none, error := none, runComplete := false }

/-- A chain of four nodes: the publisher `chart1`, which owns nothing, a node that is not
a publisher, and the publishers `container1` and `dashboard1`, which both own the run of
`with.stuff1`; no channel has been made. -/
def exampleChain : ParentChain :=
  { nodes :=
      [DashboardNodeParent.publisher (NewRuntimeDependencyPublisherBase "chart1"),
       DashboardNodeParent.other,
       DashboardNodeParent.publisher
         { NewRuntimeDependencyPublisherBase "container1" with
           withRuns := [("with.stuff1", exampleWithRun)] },
       DashboardNodeParent.publisher
         { NewRuntimeDependencyPublisherBase "dashboard1" with
           withRuns := [("with.stuff1", exampleWithRun)] }],
    chans := [] }

/-! ## Property path parser: the text of a path -/

/-- Go `strings.Join(elems, sep)`. -/
def stringsJoin : List String → String → String
  | [], _ => ""
  | [a], _ => a
  | a :: b :: rest, sep => a ++ sep ++ stringsJoin (b :: rest) sep

/-- Go `PropertyPathString()`. -/
def ParsedPropertyPath.PropertyPathString (p : ParsedPropertyPath) : String :=
  stringsJoin p.PropertyPath "."

/-- The scope of a path as a list of parts: no part when the scope is empty. -/
def ParsedPropertyPath.scopeParts (p : ParsedPropertyPath) : List String :=
  if p.Scope = "" then [] else [p.Scope]

/-! ## Completion of a with run -/

/-- The names of the columns of type `JSONB` or `JSON`, in column order (first loop of
`populateData`). -/
def jsonColumnsOf : List ColumnDef → List String
  | [] => []
  | c :: rest =>
    if c.DataType == "JSONB" || c.DataType == "JSON" then c.Name :: jsonColumnsOf rest
    else jsonColumnsOf rest

/-- Go `row[c] = v` on a row. -/
def Row.set (row : Row) (c : String) (v : GoAny) : Row :=
  mapSet row c v

/-- Inner loop of `populateData` for the column `c`: each row's `row[c]` is replaced by
the string of its encoding; the loop stops at the first value that `json.Marshal` refuses,
with the rows before it already replaced.  `Marshal` is `json.Marshal` (the bytes as a
string, or the error). -/
def marshalRows (Marshal : GoAny → Except String String) (c : String) :
    List Row → List Row × Option String
  | [] => ([], none)
  | row :: rest =>
    match Marshal (row.index c) with
    | Except.error err => (row :: rest, some err)
    | Except.ok jsonBytes =>
      match marshalRows Marshal c rest with
      | (rest2, err) => (row.set c (GoAny.str jsonBytes) :: rest2, err)

/-- Outer loop of `populateData` over the JSON columns. -/
def marshalColumns (Marshal : GoAny → Except String String) :
    List String → List Row → List Row × Option String
  | [], rows => (rows, none)
  | c :: rest, rows =>
    match marshalRows Marshal c rows with
    | (rows2, some err) => (rows2, some err)
    | (rows2, none) => marshalColumns Marshal rest rows2

/-- Go `populateData(withData, result)`: the data and the result after the call (the rows
of `withData` are modified in place, and `result.Value` points to `withData`). -/
def populateData (Marshal : GoAny → Except String String) (withData : LeafData)
    (result : ResolvedRuntimeDependencyValue) : LeafData × ResolvedRuntimeDependencyValue :=
  match marshalColumns Marshal (jsonColumnsOf withData.Columns) withData.Rows with
  | (rows2, some err) =>
    ({ Columns := withData.Columns, Rows := rows2 }, { Value := GoAny.nil, Error := some err })
  | (rows2, none) =>
    ({ Columns := withData.Columns, Rows := rows2 },
     { Value := GoAny.leafData withData.Columns rows2, Error := result.Error })

/-- Go `setWithValue(w)`, without the mutex: the publisher and the run after the call. -/
def setWithValue (Marshal : GoAny → Except String String) (b : PublisherState) (w : LeafRun) :
    GoExec (PublisherState × LeafRun) :=
  let name := w.UnqualifiedName
  match w.error with
  | some err =>
    match PublishRuntimeDependencyValue b name { Value := GoAny.nil, Error := some err } with
    | GoExec.done b2 => GoExec.done (b2, w)
    | GoExec.panic msg => GoExec.panic msg
    | GoExec.blocked => GoExec.blocked
  | none =>
    match w.Data with
    | none => GoExec.panic "invalid memory address or nil pointer dereference"
    | some withData =>
      match populateData Marshal withData { Value := GoAny.nil, Error := none } with
      | (data2, result) =>
        match PublishRuntimeDependencyValue b name result with
        | GoExec.done b2 => GoExec.done (b2, { w with Data := some data2 })
        | GoExec.panic msg => GoExec.panic msg
        | GoExec.blocked => GoExec.blocked

/-- A model of `json.Marshal` on the values used in the examples: nil, booleans,
integers, strings without characters to escape, and NaN, which is refused. -/
def exampleMarshal : GoAny → Except String String
  | GoAny.nil => Except.ok "null"
  | GoAny.bool true => Except.ok "true"
  | GoAny.bool false => Except.ok "false"
  | GoAny.int i => Except.ok (toString i)
  | GoAny.str s => Except.ok ("\"" ++ s ++ "\"")
  | GoAny.nan => Except.error "json: unsupported value: NaN"
  | _ => Except.error "json: value outside the examples"

/-- The row after the encoding of its value under `c`, when `Marshal` accepts it. -/
def Row.encodeAt (Marshal : GoAny → Except String String) (c : String) (row : Row) : Row :=
  match Marshal (row.index c) with
  | Except.ok jsonBytes => row.set c (GoAny.str jsonBytes)
  | Except.error _ => row

/-- The row after the encoding of its values under the columns `cs`, in that order. -/
def Row.encodeAll (Marshal : GoAny → Except String String) (cs : List String) (row : Row) :
    Row :=
  cs.foldl (fun r c => r.encodeAt Marshal c) row

/-! ## Examples used to evaluate the completion of a run and the lookup -/

/-- A publisher `chart1` with one resolved dependency, which feeds the property `sql`. -/
def exampleOneForSql : RuntimeDependencyPublisherBase :=
  { NewRuntimeDependencyPublisherBase "chart1" with
    runtimeDependencies :=
      [("dep1", { Dependency := exampleWithDependency, valueChannel := 0,
                  publisherName := "container1" })] }

/-- A result with no column and no row. -/
def exampleNoColumn : LeafData :=
  { Columns := [], Rows := [] }

/-- A result with the `JSONB` column `a` and two `TEXT` columns both named `b`; the second
row has no entry for `a`. -/
def exampleRepeatedText : LeafData :=
  { Columns := [{ Name := "a", DataType := "JSONB" }, { Name := "b", DataType := "TEXT" },
                { Name := "b", DataType := "TEXT" }],
    Rows := [[("a", GoAny.int 1), ("b", GoAny.str "x")], [("b", GoAny.str "y")]] }

/-- A result whose two columns are both named `a` and of type `JSON`, with the row
`{a:1}`. -/
def exampleDuplicateJson : LeafData :=
  { Columns := [{ Name := "a", DataType := "JSON" }, { Name := "a", DataType := "JSON" }],
    Rows := [[("a", GoAny.int 1)]] }

/-- A result whose columns `a` of type `JSON` and `a` of type `TEXT` have the same name,
with the row `{a:1}`. -/
def exampleSharedName : LeafData :=
  { Columns := [{ Name := "a", DataType := "JSON" }, { Name := "a", DataType := "TEXT" }],
    Rows := [[("a", GoAny.int 1)]] }

/-- A result with the `JSON` column `a` and the rows `{a:1}` and `{a:NaN}`. -/
def exampleNaNData : LeafData :=
  { Columns := [{ Name := "a", DataType := "JSON" }],
    Rows := [[("a", GoAny.int 1)], [("a", GoAny.nan)]] }

/-- A run of the `with` named `stuff1` that finished with the error `boom`. -/
def exampleFailedRun : LeafRun :=
  { UnqualifiedName := "with.stuff1", Data := none, error := some "boom", runComplete := true }

/-! ## One-shot delivery: the states of a publisher -/

/-- The channels of the targets held by the subscription table. -/
def targetChannels : List (String × List RuntimeDependencyPublishTarget) → List Nat
  | [] => []
  | e :: rest => (e.2.map fun t => t.channel) ++ targetChannels rest

/-- The states reached from a new publisher by calls of `SubscribeToRuntimeDependency`,
with options made by `WithTransform`, and calls of `PublishRuntimeDependencyValue` that
return. -/
inductive Reachable : PublisherState → Prop where
  | new : Reachable PublisherState.new
  | subscribe (b : PublisherState) (name : String)
      (transforms :
        List (ResolvedRuntimeDependencyValue → GoExec ResolvedRuntimeDependencyValue)) :
      Reachable b →
      Reachable (SubscribeToRuntimeDependency b name (transforms.map WithTransform)).1
  | publish (b b2 : PublisherState) (name : String) (v : ResolvedRuntimeDependencyValue) :
      Reachable b → PublishRuntimeDependencyValue b name v = GoExec.done b2 → Reachable b2

/-- The one-shot invariant of a publisher state: the channel of every target of the
subscription table is open and empty, no two targets of the table have the same channel,
and every channel made so far is either open and empty, or closed with exactly one value
received. -/
structure OneShot (b : PublisherState) : Prop where
  targetsOpen : ∀ ch ∈ targetChannels b.subscriptions,
    b.chans[ch]? = some { buf := [], closed := false }
  targetsDistinct : (targetChannels b.subscriptions).Nodup
  oneValue : ∀ c ∈ b.chans,
    c = { buf := [], closed := false } ∨ ∃ v, c = { buf := [v], closed := true }

/-! ## Lemmas on the extractor -/

theorem columnValuesLoop_ok (c : String) (rows : List Row)
    (h : ∀ r ∈ rows, (r.lookup c).isSome = true) :
    columnValuesLoop c rows = Except.ok (rows.map fun r => r.index c) := by
  induction rows with
  | nil => rfl
  | cons r rest ih =>
    have hr := h r (List.mem_cons_self _ _)
    have hrest := ih (fun x hx => h x (List.mem_cons_of_mem _ hx))
    obtain ⟨v, hv⟩ := Option.isSome_iff_exists.mp hr
    simp [columnValuesLoop, hv, hrest, Row.index]

theorem columnValuesLoop_missing (c : String) (rows : List Row)
    (h : ∃ r ∈ rows, r.lookup c = none) :
    columnValuesLoop c rows = Except.error ("column " ++ c ++ " does not exist") := by
  induction rows with
  | nil => simp at h
  | cons r rest ih =>
    cases hr : r.lookup c with
    | none => simp [columnValuesLoop, hr]
    | some v =>
      have hrest : ∃ x ∈ rest, x.lookup c = none := by
        obtain ⟨x, hx, hxn⟩ := h
        rcases List.mem_cons.mp hx with rfl | hx
        · rw [hr] at hxn; cases hxn
        · exact ⟨x, hx, hxn⟩
      simp [columnValuesLoop, hr, ih hrest]

theorem columnValuesFromRows_ok (c : String) (rows : List Row) (hc : c ≠ "")
    (h : ∀ r ∈ rows, (r.lookup c).isSome = true) :
    columnValuesFromRows c rows = GoResult.ok (GoAny.slice (rows.map fun r => r.index c)) := by
  simp [columnValuesFromRows, hc, columnValuesLoop_ok c rows h]

theorem columnValuesFromRows_missing (c : String) (rows : List Row) (hc : c ≠ "")
    (h : ∃ r ∈ rows, r.lookup c = none) :
    columnValuesFromRows c rows = GoResult.error ("column " ++ c ++ " does not exist") := by
  simp [columnValuesFromRows, hc, columnValuesLoop_missing c rows h]

theorem Atoi_star : Atoi "*" = none := rfl

theorem ne_star_of_Atoi {s : String} {i : Int} (h : Atoi s = some i) : (s == "*") = false := by
  cases hs : s == "*" with
  | false => rfl
  | true =>
    have : s = "*" := by simpa using hs
    rw [this, Atoi_star] at h
    cases h

/-- Unfolding of `getWithValue` on a three segment path starting with `rows`. -/
theorem getWithValue_three (P : String → Int → String) (name : String) (d : LeafData)
    (path : ParsedPropertyPath) (s c : String) (hp : path.PropertyPath = ["rows", s, c]) :
    getWithValue P name d path = getWithValueRows P name d.Rows path s c := by
  simp [getWithValue, hp]

/-- Unfolding of `getWithValue` on a two segment path over a one column result. -/
theorem getWithValue_two (P : String → Int → String) (name : String) (d : LeafData)
    (path : ParsedPropertyPath) (s : String) (col : ColumnDef)
    (hp : path.PropertyPath = ["rows", s]) (hd : d.Columns = [col]) :
    getWithValue P name d path = getWithValueRows P name d.Rows path s col.Name := by
  simp [getWithValue, hp, hd]

theorem getWithValue_one (P : String → Int → String) (name : String) (d : LeafData)
    (path : ParsedPropertyPath) (col : ColumnDef)
    (hp : path.PropertyPath = ["rows"]) (hd : d.Columns = [col]) :
    getWithValue P name d path = getWithValueRows P name d.Rows path "*" col.Name := by
  simp [getWithValue, hp, hd]

theorem getWithValue_zero (P : String → Int → String) (name : String) (d : LeafData)
    (path : ParsedPropertyPath) (col : ColumnDef)
    (hp : path.PropertyPath = []) (hd : d.Columns = [col]) :
    getWithValue P name d path = getWithValueRows P name d.Rows path "*" col.Name := by
  simp [getWithValue, hp, hd]

theorem getWithValueRows_star (P : String → Int → String) (name : String) (rows : List Row)
    (path : ParsedPropertyPath) (c : String) :
    getWithValueRows P name rows path "*" c = columnValuesFromRows c rows := by
  simp [getWithValueRows]

theorem columnValuesFromRows_ok_slice (c : String) (rows : List Row) (v : GoAny)
    (h : columnValuesFromRows c rows = GoResult.ok v) : ∃ res, v = GoAny.slice res := by
  unfold columnValuesFromRows at h
  split at h
  · cases h
  · split at h
    · next res _ => cases h; exact ⟨res, rfl⟩
    · cases h

theorem columnValuesFromRows_empty (rows : List Row) :
    columnValuesFromRows "" rows
      = GoResult.error "columnValuesFromRows failed - no column specified" := by
  simp [columnValuesFromRows]

/-- With an empty segment list, a value returned without error is a slice. -/
theorem getWithValue_zero_slice (P : String → Int → String) (name : String) (d : LeafData)
    (path : ParsedPropertyPath) (hp : path.PropertyPath = []) (v : GoAny)
    (h : getWithValue P name d path = GoResult.ok v) : ∃ res, v = GoAny.slice res := by
  cases hd : d.Columns with
  | nil => simp [getWithValue, hp, hd] at h
  | cons col rest =>
    cases rest with
    | nil =>
      rw [getWithValue_zero P name d path col hp hd, getWithValueRows_star] at h
      exact columnValuesFromRows_ok_slice _ _ v h
    | cons col2 rest2 => simp [getWithValue, hp, hd] at h

theorem append_middle_inj (pre a b suf : String) (h : pre ++ a ++ suf = pre ++ b ++ suf) :
    a = b := by
  have h2 := congrArg String.data h
  simp only [String.data_append] at h2
  have h3 := List.append_cancel_right h2
  have h4 := List.append_cancel_left h3
  exact String.ext h4

/-! ## `Atoi` reads back the decimal text of a natural number -/

theorem digitChar_isDigit (k : Nat) (hk : k < 10) :
    (Nat.digitChar k).isDigit = true ∧ (Nat.digitChar k).toNat - 48 = k := by
  interval_cases k <;> exact ⟨by decide, by decide⟩

theorem atoiDigits_append (acc : Nat) (xs ys : List Char) :
    atoiDigits acc (xs ++ ys) = (atoiDigits acc xs).bind fun a => atoiDigits a ys := by
  induction xs generalizing acc with
  | nil => rfl
  | cons x xs ih =>
    by_cases hx : x.isDigit = true
    · simp [atoiDigits, hx, ih]
    · simp [atoiDigits, hx]

/-- The digits written by `Nat.toDigitsCore` in front of `ds` read back as `n`. -/
theorem toDigitsCore_spec (fuel : Nat) : ∀ (n : Nat) (ds : List Char), n < fuel →
    ∃ pre : List Char, Nat.toDigitsCore 10 fuel n ds = pre ++ ds ∧ pre ≠ [] ∧
      ∀ acc, atoiDigits acc pre = some (acc * 10 ^ pre.length + n) := by
  induction fuel with
  | zero => intro n ds h; omega
  | succ fuel ih =>
    intro n ds h
    have hd := digitChar_isDigit (n % 10) (Nat.mod_lt _ (by decide))
    by_cases hq : n / 10 = 0
    · refine ⟨[Nat.digitChar (n % 10)], ?_, by simp, ?_⟩
      · simp [Nat.toDigitsCore, hq]
      · intro acc
        have hn : n % 10 = n := by omega
        have hd' := hd
        rw [hn] at hd'
        simp [atoiDigits, hd.1, hd.2, hd'.1, hd'.2, hn]
    · have hlt : n / 10 < fuel := by omega
      obtain ⟨pre, hpre, _, hval⟩ := ih (n / 10) (Nat.digitChar (n % 10) :: ds) hlt
      refine ⟨pre ++ [Nat.digitChar (n % 10)], ?_, by simp, ?_⟩
      · simp [Nat.toDigitsCore, hq, hpre]
      · intro acc
        rw [atoiDigits_append, hval]
        simp [atoiDigits, hd.1, hd.2, pow_succ]
        have := Nat.div_add_mod n 10
        ring_nf
        omega

theorem atoiUnsigned_toDigits (n : Nat) : atoiUnsigned (Nat.toDigits 10 n) = some n := by
  obtain ⟨pre, hpre, hne, hval⟩ := toDigitsCore_spec (n + 1) n [] (Nat.lt_succ_self n)
  have h := hval 0
  simp only [Nat.toDigits, hpre, List.append_nil]
  cases pre with
  | nil => exact absurd rfl hne
  | cons x xs => simpa [atoiUnsigned] using h

theorem toDigits_head_isDigit (n : Nat) :
    ∃ x xs, Nat.toDigits 10 n = x :: xs ∧ x.isDigit = true := by
  have h := atoiUnsigned_toDigits n
  cases hl : Nat.toDigits 10 n with
  | nil => rw [hl] at h; cases h
  | cons x xs =>
    refine ⟨x, xs, rfl, ?_⟩
    rw [hl] at h
    by_cases hx : x.isDigit = true
    · exact hx
    · simp [atoiUnsigned, atoiDigits, hx] at h

/-- Function `Atoi` reads the decimal text of every natural number below `2^63`. -/
theorem Atoi_toString (n : Nat) (hn : n < 2 ^ 63) : Atoi (toString n) = some (n : Int) := by
  obtain ⟨x, xs, hl, hx⟩ := toDigits_head_isDigit n
  have h := atoiUnsigned_toDigits n
  have hs : (toString n).toList = x :: xs := by
    show (Nat.repr n).toList = _
    simp [Nat.repr, hl, List.asString]
  have hminus : x ≠ '-' := by rintro rfl; exact absurd hx (by decide)
  have hplus : x ≠ '+' := by rintro rfl; exact absurd hx (by decide)
  rw [hl] at h
  unfold Atoi
  rw [hs]
  split
  · next heq => simp at heq; exact absurd heq.1 hminus
  · next heq => simp at heq; exact absurd heq.1 hplus
  · have hn' : n < 9223372036854775808 := by simpa using hn
    simp [h, hn']

/-! ## Lemmas on the publisher -/

theorem lookup_mapDelete {β : Type} (m : List (String × β)) (key : String) :
    List.lookup key (mapDelete m key) = none := by
  induction m with
  | nil => rfl
  | cons e rest ih =>
    obtain ⟨k, v⟩ := e
    unfold mapDelete at ih ⊢
    by_cases hk : k = key
    · have hb : (k != key) = false := by simp [hk]
      rw [List.filter_cons_of_neg (by simp [hb])]
      exact ih
    · have hb : (k != key) = true := by simp [hk]
      have hk2 : (key == k) = false := by simpa using fun h => hk h.symm
      rw [List.filter_cons_of_pos (by simp [hb]), List.lookup, hk2]
      exact ih

/-- Effect of the publish loop on targets with pairwise distinct, empty, open channels
whose transforms return. -/
theorem publishLoop_spec (result : ResolvedRuntimeDependencyValue) :
    ∀ (ts : List RuntimeDependencyPublishTarget) (chans : List Chan),
      (ts.map fun t => t.channel).Nodup →
      (∀ t ∈ ts, chans[t.channel]? = some { buf := [], closed := false }) →
      (∀ t ∈ ts, ∃ r, t.valueFor result = GoExec.done r) →
      ∃ chans2, publishLoop result ts chans = GoExec.done chans2
        ∧ (∀ t ∈ ts, ∀ r, t.valueFor result = GoExec.done r →
            chans2[t.channel]? = some { buf := [r], closed := true })
        ∧ (∀ i, i ∉ (ts.map fun t => t.channel) → chans2[i]? = chans[i]?) := by
  intro ts
  induction ts with
  | nil =>
    intro chans _ _ _
    exact ⟨chans, rfl, by simp, by simp⟩
  | cons t rest ih =>
    intro chans hnd hopen hret
    have ht := hopen t (List.mem_cons_self _ _)
    obtain ⟨r0, hr0⟩ := hret t (List.mem_cons_self _ _)
    have hlt : t.channel < chans.length := by
      by_contra hge
      rw [List.getElem?_eq_none (by omega)] at ht
      cases ht
    simp only [List.map_cons, List.nodup_cons] at hnd
    obtain ⟨hnotin, hnd⟩ := hnd
    let chans1 := chans.set t.channel { buf := [r0], closed := true }
    have hrest : ∀ u ∈ rest, chans1[u.channel]? = some { buf := [], closed := false } := by
      intro u hu
      have hne : t.channel ≠ u.channel := by
        intro heq
        exact hnotin (heq ▸ List.mem_map_of_mem (fun t => t.channel) hu)
      simp only [chans1, List.getElem?_set_ne hne]
      exact hopen u (List.mem_cons_of_mem _ hu)
    obtain ⟨chans2, hloop, hdone, hframe⟩ :=
      ih chans1 hnd hrest (fun u hu => hret u (List.mem_cons_of_mem _ hu))
    refine ⟨chans2, ?_, ?_, ?_⟩
    · simp [publishLoop, hr0, chanSend, chanClose, ht, hlt, List.set_set]
      exact hloop
    · intro u hu r hr
      rcases List.mem_cons.mp hu with rfl | hu
      · rw [hr0] at hr
        cases hr
        rw [hframe _ hnotin]
        simp [chans1, hlt]
      · exact hdone u hu r hr
    · intro i hi
      simp only [List.map_cons, List.mem_cons, not_or] at hi
      rw [hframe i hi.2]
      simp only [chans1, List.getElem?_set_ne (Ne.symm hi.1)]

/-! ## Claims on the publisher -/

/-- C1: when the targets subscribed to `name` have pairwise distinct channels that are
all empty and open, and the transform of each target returns on `v`,
`PublishRuntimeDependencyValue name v` completes; afterwards the channel of every target
holds exactly one value, `transform v` when the target has a transform and `v`
otherwise, and is closed, and the subscription table has no entry for `name`. -/
theorem C1_publish_fan_out (b : PublisherState) (name : String)
    (v : ResolvedRuntimeDependencyValue)
    (hdistinct : ((subscriptionsOf b.subscriptions name).map fun t => t.channel).Nodup)
    (hopen : ∀ t ∈ subscriptionsOf b.subscriptions name,
      b.chans[t.channel]? = some { buf := [], closed := false })
    (hreturns : ∀ t ∈ subscriptionsOf b.subscriptions name,
      ∀ f, t.transform = some f → ∃ r, f v = GoExec.done r) :
    ∃ b2, PublishRuntimeDependencyValue b name v = GoExec.done b2
      ∧ (∀ t ∈ subscriptionsOf b.subscriptions name,
          (∀ f r, t.transform = some f → f v = GoExec.done r →
            b2.chans[t.channel]? = some { buf := [r], closed := true })
          ∧ (t.transform = none →
            b2.chans[t.channel]? = some { buf := [v], closed := true }))
      ∧ List.lookup name b2.subscriptions = none
      ∧ subscriptionsOf b2.subscriptions name = [] := by
  have hret : ∀ t ∈ subscriptionsOf b.subscriptions name,
      ∃ r, t.valueFor v = GoExec.done r := by
    intro t ht
    cases hf : t.transform with
    | none => exact ⟨v, by simp [RuntimeDependencyPublishTarget.valueFor, hf]⟩
    | some f =>
      obtain ⟨r, hr⟩ := hreturns t ht f hf
      exact ⟨r, by simp [RuntimeDependencyPublishTarget.valueFor, hf, hr]⟩
  obtain ⟨chans2, hloop, hdone, _⟩ :=
    publishLoop_spec v (subscriptionsOf b.subscriptions name) b.chans hdistinct hopen hret
  refine ⟨{ subscriptions := mapDelete b.subscriptions name, chans := chans2 }, ?_, ?_, ?_, ?_⟩
  · simp [PublishRuntimeDependencyValue, hloop]
  · intro t ht
    constructor
    · intro f r hf hr
      exact hdone t ht r (by simp [RuntimeDependencyPublishTarget.valueFor, hf, hr])
    · intro hf
      exact hdone t ht v (by simp [RuntimeDependencyPublishTarget.valueFor, hf])
  · exact lookup_mapDelete b.subscriptions name
  · simp [subscriptionsOf, lookup_mapDelete]

/-- C1 on a publisher subscribed twice to `stuff1`, with and without a transform. -/
theorem C1_publish_fan_out_witness :
    ∃ b2, PublishRuntimeDependencyValue exampleSubscribedTwice "stuff1"
          { Value := GoAny.int 7, Error := none } = GoExec.done b2
      ∧ (∀ t ∈ subscriptionsOf exampleSubscribedTwice.subscriptions "stuff1",
          (∀ f r, t.transform = some f → f { Value := GoAny.int 7, Error := none }
              = GoExec.done r →
            b2.chans[t.channel]? = some { buf := [r], closed := true })
          ∧ (t.transform = none →
            b2.chans[t.channel]?
              = some { buf := [{ Value := GoAny.int 7, Error := none }], closed := true }))
      ∧ List.lookup "stuff1" b2.subscriptions = none
      ∧ subscriptionsOf b2.subscriptions "stuff1" = [] :=
  C1_publish_fan_out exampleSubscribedTwice "stuff1" { Value := GoAny.int 7, Error := none }
    (by decide)
    (by
      intro t ht
      have hts : subscriptionsOf exampleSubscribedTwice.subscriptions "stuff1"
          = [{ channel := 0, transform := some exampleTransform },
             { channel := 1, transform := none }] := rfl
      rw [hts] at ht
      simp only [List.mem_cons, List.mem_singleton, List.not_mem_nil, or_false] at ht
      rcases ht with rfl | rfl <;> rfl)
    (by
      intro t ht f hf
      have hts : subscriptionsOf exampleSubscribedTwice.subscriptions "stuff1"
          = [{ channel := 0, transform := some exampleTransform },
             { channel := 1, transform := none }] := rfl
      rw [hts] at ht
      simp only [List.mem_cons, List.mem_singleton, List.not_mem_nil, or_false] at ht
      rcases ht with rfl | rfl
      · cases hf
        exact ⟨_, rfl⟩
      · cases hf)

/-! ## Claims on the value extractor -/

/-- C2 (as stated, refuted): on the one column result `[{a:1},{a:2}]` the empty segment
list (`with.stuff1`) yields the list `[1,2]` of the column values, not the
`LeafData` itself. -/
theorem C2_whole_table_counterexample :
    getWithValue pluralizeS "stuff1" exampleOneColumn (withPath "stuff1" "with.stuff1" [])
        = GoResult.ok (GoAny.slice [GoAny.int 1, GoAny.int 2])
      ∧ getWithValue pluralizeS "stuff1" exampleOneColumn (withPath "stuff1" "with.stuff1" [])
        ≠ GoResult.ok exampleOneColumn.toAny := by
  refine ⟨rfl, ?_⟩
  intro h
  have h2 : getWithValue pluralizeS "stuff1" exampleOneColumn
      (withPath "stuff1" "with.stuff1" [])
        = GoResult.ok (GoAny.slice [GoAny.int 1, GoAny.int 2]) := rfl
  rw [h2] at h
  simp [LeafData.toAny] at h

/-- C2 (amended): with an empty segment list `getWithValue` never returns the `LeafData`
itself: whatever the `LeafData`, a value returned without error is a slice, which is no
`LeafData`.  A result with exactly one column `col` (non-empty name, present in every
row) yields without error the list of the rows' values of that column in row order, and a
result with more than one column yields the error
`returning more than one column - not supported`. -/
theorem C2_whole_table_amended (P : String → Int → String) (name : String) (d : LeafData)
    (path : ParsedPropertyPath) (hp : path.PropertyPath = []) :
    getWithValue P name d path ≠ GoResult.ok d.toAny
    ∧ (∀ v, getWithValue P name d path = GoResult.ok v →
        (∃ res, v = GoAny.slice res) ∧ ∀ columns rows, v ≠ GoAny.leafData columns rows)
    ∧ (∀ col : ColumnDef, d.Columns = [col] → col.Name ≠ "" →
        (∀ r ∈ d.Rows, (r.lookup col.Name).isSome = true) →
        getWithValue P name d path
          = GoResult.ok (GoAny.slice (d.Rows.map fun r => r.index col.Name)))
    ∧ (d.Columns.length > 1 →
        getWithValue P name d path
          = GoResult.error ("reference to with '" ++ name
              ++ "' is returning more than one column - not supported")) := by
  refine ⟨?_, ?_, ?_, ?_⟩
  · intro h
    obtain ⟨res, hres⟩ := getWithValue_zero_slice P name d path hp _ h
    cases hres
  · intro v h
    obtain ⟨res, rfl⟩ := getWithValue_zero_slice P name d path hp v h
    exact ⟨⟨res, rfl⟩, fun _ _ hv => by cases hv⟩
  · intro col hd hc hall
    rw [getWithValue_zero P name d path col hp hd, getWithValueRows_star,
      columnValuesFromRows_ok _ _ hc hall]
  · intro hlen
    simp [getWithValue, hp, hlen]

/-- C2 (amended) on the one column and the two column example results. -/
theorem C2_whole_table_amended_witness :
    getWithValue pluralizeS "stuff1" exampleOneColumn (withPath "stuff1" "with.stuff1" [])
        ≠ GoResult.ok exampleOneColumn.toAny
    ∧ getWithValue pluralizeS "stuff1" exampleOneColumn (withPath "stuff1" "with.stuff1" [])
        = GoResult.ok (GoAny.slice (exampleOneColumn.Rows.map fun r => r.index "a"))
    ∧ getWithValue pluralizeS "stuff1" exampleTwoColumns (withPath "stuff1" "with.stuff1" [])
        = GoResult.error
            "reference to with 'stuff1' is returning more than one column - not supported" :=
  ⟨(C2_whole_table_amended pluralizeS "stuff1" exampleOneColumn
      (withPath "stuff1" "with.stuff1" []) rfl).1,
   (C2_whole_table_amended pluralizeS "stuff1" exampleOneColumn
      (withPath "stuff1" "with.stuff1" []) rfl).2.2.1 { Name := "a", DataType := "INT8" } rfl
      (by decide) (by decide),
   (C2_whole_table_amended pluralizeS "stuff1" exampleTwoColumns
      (withPath "stuff1" "with.stuff1" []) rfl).2.2.2 (by decide)⟩

/-- C3: for segments `["rows", "*", c]` with `c` non-empty and present in every row,
`getWithValue` returns without error the slice whose `i`-th element is `rows[i][c]`:
it has as many elements as there are rows, in row order. -/
theorem C3_splat (P : String → Int → String) (name : String) (d : LeafData)
    (path : ParsedPropertyPath) (c : String) (hp : path.PropertyPath = ["rows", "*", c])
    (hc : c ≠ "") (hall : ∀ r ∈ d.Rows, (r.lookup c).isSome = true) :
    ∃ res : List GoAny,
      getWithValue P name d path = GoResult.ok (GoAny.slice res)
      ∧ res = d.Rows.map (fun r => r.index c)
      ∧ res.length = d.Rows.length
      ∧ ∀ (i : Nat) (h : i < d.Rows.length), res[i]? = some (d.Rows[i].index c) := by
  refine ⟨d.Rows.map (fun r => r.index c), ?_, rfl, by simp, ?_⟩
  · rw [getWithValue_three P name d path "*" c hp, getWithValueRows_star,
      columnValuesFromRows_ok _ _ hc hall]
  · intro i h
    simp [List.getElem?_map, List.getElem?_eq_getElem h]

/-- C3 on rows `[{a:1},{a:2}]` and column `a`: the result is `[1,2]`. -/
theorem C3_splat_witness :
    ∃ res : List GoAny,
      getWithValue pluralizeS "stuff1" exampleOneColumn
          (withPath "stuff1" "with.stuff1.rows[*].a" ["rows", "*", "a"])
        = GoResult.ok (GoAny.slice res)
      ∧ res = [GoAny.int 1, GoAny.int 2]
      ∧ res.length = 2
      ∧ ∀ (i : Nat) (h : i < exampleOneColumn.Rows.length),
          res[i]? = some (exampleOneColumn.Rows[i].index "a") :=
  C3_splat pluralizeS "stuff1" exampleOneColumn
    (withPath "stuff1" "with.stuff1.rows[*].a" ["rows", "*", "a"]) "a" rfl (by decide)
    (by decide)

/-- C4: for segments `["rows", i, c]` where the selector is the decimal text of `i`
and `i` is below the number of rows (itself a Go `int`), `getWithValue` returns without
error `rows[i][c]`, the map index of the row (whether or not the row has the column). -/
theorem C4_single_row (P : String → Int → String) (name : String) (d : LeafData)
    (path : ParsedPropertyPath) (i : Nat) (c : String)
    (hp : path.PropertyPath = ["rows", toString i, c])
    (hi : i < d.Rows.length) (hlen : d.Rows.length < 2 ^ 63) :
    getWithValue P name d path = GoResult.ok (d.Rows[i].index c) := by
  have hA : Atoi (toString i) = some (i : Int) := Atoi_toString i (by omega)
  rw [getWithValue_three P name d path (toString i) c hp]
  unfold getWithValueRows
  rw [ne_star_of_Atoi hA, hA]
  have h1 : ¬ ((i : Int) ≥ ((d.Rows.length : Nat) : Int)) := by omega
  have h2 : ¬ ((i : Int) < 0) := by omega
  simp [h1, h2, List.getElem?_eq_getElem hi]

/-- C4 at rows `[{a:1,b:x},{a:2,b:y}]`: selector `1` with column `b` gives `y`, and with
the absent column `zz` gives the nil value without an error. -/
theorem C4_single_row_witness :
    getWithValue pluralizeS "stuff1" exampleTwoColumns
        (withPath "stuff1" "with.stuff1.rows[1].b" ["rows", "1", "b"])
      = GoResult.ok (GoAny.str "y")
    ∧ getWithValue pluralizeS "stuff1" exampleTwoColumns
        (withPath "stuff1" "with.stuff1.rows[1].zz" ["rows", "1", "zz"])
      = GoResult.ok GoAny.nil :=
  ⟨C4_single_row pluralizeS "stuff1" exampleTwoColumns
      (withPath "stuff1" "with.stuff1.rows[1].b" ["rows", "1", "b"]) 1 "b" rfl
      (by decide) (by decide),
   C4_single_row pluralizeS "stuff1" exampleTwoColumns
      (withPath "stuff1" "with.stuff1.rows[1].zz" ["rows", "1", "zz"]) 1 "zz" rfl
      (by decide) (by decide)⟩

/-- C5: when the row selector `s` parses (`strconv.Atoi`) as an integer `i` that is at
least the number `n` of rows, with the column given explicitly (`["rows", s, c]`) or
inferred from a one column result (`["rows", s]`), `getWithValue` returns no value and
the row index error, whose message holds the decimal text of `i` and of `n`. -/
theorem C5_row_index_out_of_range (P : String → Int → String) (name : String)
    (d : LeafData) (path : ParsedPropertyPath) (s : String) (i : Int)
    (hp : (∃ c, path.PropertyPath = ["rows", s, c])
        ∨ (path.PropertyPath = ["rows", s] ∧ d.Columns.length = 1))
    (hs : Atoi s = some i) (hi : i ≥ (d.Rows.length : Int)) :
    getWithValue P name d path
      = GoResult.error ("reference to with '" ++ name ++ "' has invalid row index '"
          ++ toString i ++ "' - " ++ toString (d.Rows.length : Int) ++ " "
          ++ P "row" (d.Rows.length : Int) ++ " were returned") := by
  have hrows : ∀ c, getWithValueRows P name d.Rows path s c
      = GoResult.error ("reference to with '" ++ name ++ "' has invalid row index '"
          ++ toString i ++ "' - " ++ toString (d.Rows.length : Int) ++ " "
          ++ P "row" (d.Rows.length : Int) ++ " were returned") := by
    intro c
    unfold getWithValueRows
    rw [ne_star_of_Atoi hs, hs]
    simp [hi]
  rcases hp with ⟨c, hp⟩ | ⟨hp, hcols⟩
  · rw [getWithValue_three P name d path s c hp, hrows]
  · obtain ⟨col, hcol⟩ := List.length_eq_one.mp hcols
    rw [getWithValue_two P name d path s col hp hcol, hrows]

/-- C5 for selector `5` against two rows: the message names `5` and `2`. -/
theorem C5_row_index_out_of_range_witness :
    getWithValue pluralizeS "stuff1" exampleOneColumn
        (withPath "stuff1" "with.stuff1.rows[5]" ["rows", "5"])
      = GoResult.error
          "reference to with 'stuff1' has invalid row index '5' - 2 rows were returned" :=
  C5_row_index_out_of_range pluralizeS "stuff1" exampleOneColumn
    (withPath "stuff1" "with.stuff1.rows[5]" ["rows", "5"]) "5" 5
    (Or.inr ⟨rfl, rfl⟩) rfl (by decide)

/-- C6 (failing input): on rows `[{a:1},{a:2}]` and segments `["rows", "-1", "a"]` the
selector parses as `-1`, passes the test `rowIdx >= rowCount`, and the row list is
indexed with `-1`: the call panics instead of returning an invalid property path error. -/
theorem C6_negative_row_index_panics :
    Atoi "-1" = some (-1)
    ∧ getWithValue pluralizeS "stuff1" exampleOneColumn
        (withPath "stuff1" "with.stuff1.rows[-1].a" ["rows", "-1", "a"])
      = GoResult.panic "runtime error: index out of range [-1]" :=
  ⟨rfl, rfl⟩

/-- C7 (as stated, refuted): over the one column result `[{a:1},{a:2}]`, the addresses
`with.stuff1.rows.x` and `with.stuff1.rows.x.a` parse to the segments `rows`, `x` and
`rows`, `x`, `a`; the selector `x` is no integer, and each call returns the row index
parse error quoting the text of its own address, so the two results differ. -/
theorem C7_column_inference_counterexample :
    ParseResourcePropertyPath exampleIsValid "with.stuff1.rows.x"
        = GoResult.ok (withPath "stuff1" "with.stuff1.rows.x" ["rows", "x"])
    ∧ ParseResourcePropertyPath exampleIsValid "with.stuff1.rows.x.a"
        = GoResult.ok (withPath "stuff1" "with.stuff1.rows.x.a" ["rows", "x", "a"])
    ∧ getWithValue pluralizeS "stuff1" exampleOneColumn
          (withPath "stuff1" "with.stuff1.rows.x" ["rows", "x"])
        = GoResult.error ("reference to with 'stuff1' has invalid property path "
            ++ "'with.stuff1.rows.x' - cannot parse row idx 'x'")
    ∧ getWithValue pluralizeS "stuff1" exampleOneColumn
          (withPath "stuff1" "with.stuff1.rows.x.a" ["rows", "x", "a"])
        = GoResult.error ("reference to with 'stuff1' has invalid property path "
            ++ "'with.stuff1.rows.x.a' - cannot parse row idx 'x'")
    ∧ getWithValue pluralizeS "stuff1" exampleOneColumn
          (withPath "stuff1" "with.stuff1.rows.x" ["rows", "x"])
        ≠ getWithValue pluralizeS "stuff1" exampleOneColumn
          (withPath "stuff1" "with.stuff1.rows.x.a" ["rows", "x", "a"]) := by
  refine ⟨rfl, rfl, rfl, rfl, ?_⟩
  intro h
  have h1 : getWithValue pluralizeS "stuff1" exampleOneColumn
      (withPath "stuff1" "with.stuff1.rows.x" ["rows", "x"])
        = GoResult.error ("reference to with 'stuff1' has invalid property path "
            ++ "'with.stuff1.rows.x' - cannot parse row idx 'x'") := rfl
  have h2 : getWithValue pluralizeS "stuff1" exampleOneColumn
      (withPath "stuff1" "with.stuff1.rows.x.a" ["rows", "x", "a"])
        = GoResult.error ("reference to with 'stuff1' has invalid property path "
            ++ "'with.stuff1.rows.x.a' - cannot parse row idx 'x'") := rfl
  rw [h1, h2] at h
  injection h with h
  exact absurd h (by decide)

/-- C7 (amended): over a result with exactly one column `col`, for every two paths `p`
and `q`, whatever the text of their addresses: segments `["rows"]` give the same result
as `["rows", "*", col.Name]`; for a selector `s` that is `*` or that `strconv.Atoi` reads
as an integer, segments `["rows", s]` give the same result as `["rows", s, col.Name]`;
and for any other selector both calls return no value and the row index parse error, each
quoting the text of its own address, so that the two results are equal exactly when the
two address texts are. -/
theorem C7_column_inference (P : String → Int → String) (name : String) (d : LeafData)
    (col : ColumnDef) (hd : d.Columns = [col]) (p q : ParsedPropertyPath) :
    (p.PropertyPath = ["rows"] → q.PropertyPath = ["rows", "*", col.Name] →
        getWithValue P name d p = getWithValue P name d q)
    ∧ (∀ s, p.PropertyPath = ["rows", s] → q.PropertyPath = ["rows", s, col.Name] →
        ((s = "*" ∨ (Atoi s).isSome = true) →
          getWithValue P name d p = getWithValue P name d q)
        ∧ (s ≠ "*" → Atoi s = none →
          getWithValue P name d p
            = GoResult.error ("reference to with '" ++ name ++ "' has invalid property path '"
                ++ p.Original ++ "' - cannot parse row idx '" ++ s ++ "'")
          ∧ getWithValue P name d q
            = GoResult.error ("reference to with '" ++ name ++ "' has invalid property path '"
                ++ q.Original ++ "' - cannot parse row idx '" ++ s ++ "'")
          ∧ (getWithValue P name d p = getWithValue P name d q
              ↔ p.Original = q.Original))) := by
  constructor
  · intro hp hq
    rw [getWithValue_one P name d p col hp hd, getWithValue_three P name d q "*" col.Name hq,
      getWithValueRows_star, getWithValueRows_star]
  · intro s hp hq
    rw [getWithValue_two P name d p s col hp hd, getWithValue_three P name d q s col.Name hq]
    constructor
    · rintro (rfl | hs)
      · rw [getWithValueRows_star, getWithValueRows_star]
      · obtain ⟨i, hi⟩ := Option.isSome_iff_exists.mp hs
        unfold getWithValueRows
        rw [ne_star_of_Atoi hi, hi]
    · intro hstar hnone
      have hb : (s == "*") = false := by simpa using hstar
      have hp2 : getWithValueRows P name d.Rows p s col.Name
          = GoResult.error ("reference to with '" ++ name ++ "' has invalid property path '"
              ++ p.Original ++ "' - cannot parse row idx '" ++ s ++ "'") := by
        simp [getWithValueRows, hb, hnone]
      have hq2 : getWithValueRows P name d.Rows q s col.Name
          = GoResult.error ("reference to with '" ++ name ++ "' has invalid property path '"
              ++ q.Original ++ "' - cannot parse row idx '" ++ s ++ "'") := by
        simp [getWithValueRows, hb, hnone]
      refine ⟨hp2, hq2, ?_⟩
      rw [hp2, hq2]
      constructor
      · intro h
        injection h with h
        have h2 : ("reference to with '" ++ name ++ "' has invalid property path '")
              ++ p.Original ++ ("' - cannot parse row idx '" ++ s ++ "'")
            = ("reference to with '" ++ name ++ "' has invalid property path '")
              ++ q.Original ++ ("' - cannot parse row idx '" ++ s ++ "'") := by
          simpa only [String.append_assoc] using h
        exact append_middle_inj _ _ _ _ h2
      · intro h
        rw [h]

/-- C7 (amended) on the one column result `[{a:1},{a:2}]` and the addresses
`with.stuff1.rows`, `with.stuff1.rows.*.a`, `with.stuff1.rows.1` and
`with.stuff1.rows.1.a`. -/
theorem C7_column_inference_witness :
    getWithValue pluralizeS "stuff1" exampleOneColumn
        (withPath "stuff1" "with.stuff1.rows" ["rows"])
      = getWithValue pluralizeS "stuff1" exampleOneColumn
          (withPath "stuff1" "with.stuff1.rows.*.a" ["rows", "*", "a"])
    ∧ getWithValue pluralizeS "stuff1" exampleOneColumn
        (withPath "stuff1" "with.stuff1.rows.1" ["rows", "1"])
      = getWithValue pluralizeS "stuff1" exampleOneColumn
          (withPath "stuff1" "with.stuff1.rows.1.a" ["rows", "1", "a"]) :=
  ⟨(C7_column_inference pluralizeS "stuff1" exampleOneColumn { Name := "a", DataType := "INT8" }
      rfl (withPath "stuff1" "with.stuff1.rows" ["rows"])
      (withPath "stuff1" "with.stuff1.rows.*.a" ["rows", "*", "a"])).1 rfl rfl,
   ((C7_column_inference pluralizeS "stuff1" exampleOneColumn { Name := "a", DataType := "INT8" }
      rfl (withPath "stuff1" "with.stuff1.rows.1" ["rows", "1"])
      (withPath "stuff1" "with.stuff1.rows.1.a" ["rows", "1", "a"])).2 "1" rfl rfl).1
      (Or.inr rfl)⟩

/-- C8: over a result with more than one column, segments `["rows"]` or `["rows", s]`
(no column segment) give no value and the error
`returning more than one column - not supported`, whatever the selector and the rows. -/
theorem C8_ambiguous_column (P : String → Int → String) (name : String) (d : LeafData)
    (path : ParsedPropertyPath) (hcols : d.Columns.length > 1)
    (hp : path.PropertyPath = ["rows"] ∨ ∃ s, path.PropertyPath = ["rows", s]) :
    getWithValue P name d path
      = GoResult.error ("reference to with '" ++ name
          ++ "' is returning more than one column - not supported") := by
  rcases hp with hp | ⟨s, hp⟩ <;> simp [getWithValue, hp, hcols]

/-- C8 on the two column example result with segments `rows`, `0`. -/
theorem C8_ambiguous_column_witness :
    getWithValue pluralizeS "stuff1" exampleTwoColumns
        (withPath "stuff1" "with.stuff1.rows[0]" ["rows", "0"])
      = GoResult.error
          "reference to with 'stuff1' is returning more than one column - not supported" :=
  C8_ambiguous_column pluralizeS "stuff1" exampleTwoColumns
    (withPath "stuff1" "with.stuff1.rows[0]" ["rows", "0"]) (by decide) (Or.inr ⟨"0", rfl⟩)

/-- C9: for a non-empty segment list whose first segment is not `rows`, or whose length
exceeds 3, `getWithValue` returns no value and the invalid property path error, whatever
the data. -/
theorem C9_path_shape (P : String → Int → String) (name : String) (d : LeafData)
    (path : ParsedPropertyPath)
    (hp : (∃ s rest, path.PropertyPath = s :: rest ∧ s ≠ "rows")
        ∨ path.PropertyPath.length > 3) :
    getWithValue P name d path
      = GoResult.error ("reference to with '" ++ name ++ "' has invalid property path '"
          ++ path.Original ++ "'") := by
  rcases hp with ⟨s, rest, hp, hs⟩ | hlen
  · simp [getWithValue, hp, hs]
  · simp [getWithValue, hlen]

/-- C9 for a first segment `row` and for a path of four segments. -/
theorem C9_path_shape_witness :
    getWithValue pluralizeS "stuff1" exampleOneColumn
        (withPath "stuff1" "with.stuff1.row" ["row"])
      = GoResult.error "reference to with 'stuff1' has invalid property path 'with.stuff1.row'"
    ∧ getWithValue pluralizeS "stuff1" exampleOneColumn
        (withPath "stuff1" "with.stuff1.rows.0.a.b" ["rows", "0", "a", "b"])
      = GoResult.error
          "reference to with 'stuff1' has invalid property path 'with.stuff1.rows.0.a.b'" :=
  ⟨C9_path_shape pluralizeS "stuff1" exampleOneColumn
      (withPath "stuff1" "with.stuff1.row" ["row"]) (Or.inl ⟨"row", [], rfl, by decide⟩),
   C9_path_shape pluralizeS "stuff1" exampleOneColumn
      (withPath "stuff1" "with.stuff1.rows.0.a.b" ["rows", "0", "a", "b"])
      (Or.inr (by decide))⟩

/-- C10 (as stated, refuted): for the empty column name and a row without an entry for
it, the splat does not return the missing column error `column  does not exist`; the
guard on the empty column name answers first with `no column specified`. -/
theorem C10_missing_column_counterexample :
    Row.lookup [("a", GoAny.int 1)] "" = none
    ∧ columnValuesFromRows "" [[("a", GoAny.int 1)]]
        = GoResult.error "columnValuesFromRows failed - no column specified"
    ∧ columnValuesFromRows "" [[("a", GoAny.int 1)]]
        ≠ GoResult.error ("column " ++ "" ++ " does not exist")
    ∧ getWithValue pluralizeS "stuff1" exampleOneColumn
          (withPath "stuff1" "with.stuff1.rows[*]." ["rows", "*", ""])
        = GoResult.error "columnValuesFromRows failed - no column specified" := by
  refine ⟨rfl, rfl, ?_, rfl⟩
  intro h
  have h2 : columnValuesFromRows "" [[("a", GoAny.int 1)]]
      = GoResult.error "columnValuesFromRows failed - no column specified" := rfl
  rw [h2] at h
  injection h with h
  exact absurd h (by decide)

/-- C10 (amended): for a non-empty column `c` and rows of which at least one has no entry
for `c`, `columnValuesFromRows` and `getWithValue` on `["rows", "*", c]` return no value
and the error `column c does not exist`; for the empty column name they return no value
and the error `columnValuesFromRows failed - no column specified`, whatever the rows; and
the splat succeeds if and only if `c` is non-empty and every row has an entry for `c`. -/
theorem C10_missing_column_amended (P : String → Int → String) (name : String)
    (d : LeafData) (path : ParsedPropertyPath) (c : String)
    (hp : path.PropertyPath = ["rows", "*", c]) :
    getWithValue P name d path = columnValuesFromRows c d.Rows
    ∧ (c ≠ "" → (∃ r ∈ d.Rows, r.lookup c = none) →
        columnValuesFromRows c d.Rows = GoResult.error ("column " ++ c ++ " does not exist"))
    ∧ (c = "" →
        columnValuesFromRows c d.Rows
          = GoResult.error "columnValuesFromRows failed - no column specified")
    ∧ ((∃ v, columnValuesFromRows c d.Rows = GoResult.ok v)
        ↔ (c ≠ "" ∧ ∀ r ∈ d.Rows, (r.lookup c).isSome = true)) := by
  refine ⟨?_, ?_, ?_, ?_⟩
  · rw [getWithValue_three P name d path "*" c hp, getWithValueRows_star]
  · intro hc hmiss
    exact columnValuesFromRows_missing c d.Rows hc hmiss
  · rintro rfl
    exact columnValuesFromRows_empty d.Rows
  · constructor
    · rintro ⟨v, hv⟩
      by_cases hc : c = ""
      · simp [columnValuesFromRows, hc] at hv
      · refine ⟨hc, ?_⟩
        by_contra hall
        have hmiss : ∃ r ∈ d.Rows, r.lookup c = none := by
          simp only [not_forall] at hall
          obtain ⟨r, hr, hrn⟩ := hall
          exact ⟨r, hr, by simpa using hrn⟩
        rw [columnValuesFromRows_missing c d.Rows hc hmiss] at hv
        cases hv
    · rintro ⟨hc, hall⟩
      exact ⟨_, columnValuesFromRows_ok c d.Rows hc hall⟩

/-- C10 (amended) on the rows `[{a:1},{a:2}]`: column `b`, absent from the rows, and the
empty column name. -/
theorem C10_missing_column_amended_witness :
    columnValuesFromRows "b" exampleOneColumn.Rows
      = GoResult.error "column b does not exist"
    ∧ getWithValue pluralizeS "stuff1" exampleOneColumn
        (withPath "stuff1" "with.stuff1.rows.*." ["rows", "*", ""])
      = columnValuesFromRows "" exampleOneColumn.Rows
    ∧ columnValuesFromRows "" exampleOneColumn.Rows
      = GoResult.error "columnValuesFromRows failed - no column specified" :=
  ⟨(C10_missing_column_amended pluralizeS "stuff1" exampleOneColumn
      (withPath "stuff1" "with.stuff1.rows.*.b" ["rows", "*", "b"]) "b" rfl).2.1
      (by decide) ⟨[("a", GoAny.int 1)], by simp [exampleOneColumn], rfl⟩,
   (C10_missing_column_amended pluralizeS "stuff1" exampleOneColumn
      (withPath "stuff1" "with.stuff1.rows.*." ["rows", "*", ""]) "" rfl).1,
   (C10_missing_column_amended pluralizeS "stuff1" exampleOneColumn
      (withPath "stuff1" "with.stuff1.rows.*." ["rows", "*", ""]) "" rfl).2.2.1 rfl⟩

/-! ## Lemmas on the parser -/

theorem splitChars_ne_nil (sep : Char) (cs : List Char) : splitChars sep cs ≠ [] := by
  induction cs with
  | nil => simp [splitChars]
  | cons c cs ih =>
    unfold splitChars
    split
    · simp
    · split <;> simp

theorem splitChars_cons_ne (sep c : Char) (cs : List Char) (h : c ≠ sep) :
    ∃ part parts, splitChars sep cs = part :: parts
      ∧ splitChars sep (c :: cs) = (c :: part) :: parts := by
  cases hs : splitChars sep cs with
  | nil => exact absurd hs (splitChars_ne_nil sep cs)
  | cons part parts => exact ⟨part, parts, rfl, by simp [splitChars, h, hs]⟩

theorem stringsSplit_ne_nil (s : String) (sep : Char) : stringsSplit s sep ≠ [] := by
  simp [stringsSplit, splitChars_ne_nil]

/-- Splitting `self.` followed by `s` gives the part `self` followed by the parts of `s`. -/
theorem stringsSplit_self (s : String) :
    stringsSplit ("self." ++ s) '.' = "self" :: stringsSplit s '.' := by
  have h : ("self." ++ s).toList = 's' :: 'e' :: 'l' :: 'f' :: '.' :: s.toList := by
    simp [String.toList, String.data_append]
  unfold stringsSplit
  rw [h]
  obtain ⟨p, ps, hp, _⟩ := splitChars_cons_ne '.' 'x' s.toList (by decide)
  simp [splitChars, hp]

/-- The function `parseNormalized` in closed form. -/
theorem parseNormalized_eq (valid : String → Bool) (raw scope first : String)
    (rest : List String) :
    parseNormalized valid raw scope (first :: rest)
      = match (if valid first then "" :: first :: rest else first :: rest) with
        | m :: t :: n :: path =>
          if valid t then
            GoResult.ok { Mod := m, ItemType := t, Name := n, PropertyPath := path,
                          Scope := scope, Original := raw }
          else GoResult.error (invalidPropertyPathSummary raw)
        | _ => GoResult.error (invalidPropertyPathSummary raw) := by
  by_cases hv : valid first = true
  · cases rest with
    | nil => simp [parseNormalized, hv]
    | cons n path =>
      cases path with
      | nil => simp [parseNormalized, hv]
      | cons x xs => simp [parseNormalized, hv]
  · cases rest with
    | nil => simp [parseNormalized, hv]
    | cons t rest2 =>
      cases rest2 with
      | nil => simp [parseNormalized, hv]
      | cons n path =>
        cases path with
        | nil =>
          by_cases ht : valid t = true <;> simp [parseNormalized, hv, ht]
        | cons x xs =>
          by_cases ht : valid t = true <;> simp [parseNormalized, hv, ht]

/-- The parser in terms of the part list of the spec: it fails when the raw string has
fewer than 2 parts, and otherwise reads the fields off the normalised parts. -/
theorem ParseResourcePropertyPath_eq (valid : String → Bool) (raw : String) :
    ParseResourcePropertyPath valid raw
      = if (stringsSplit raw '.').length < 2 then
          GoResult.error (invalidPropertyPathSummary raw)
        else
          match normalizedParts valid raw with
          | m :: t :: n :: path =>
            if valid t then
              GoResult.ok
                { Mod := m, ItemType := t, Name := n, PropertyPath := path,
                  Scope := (if (stringsSplit raw '.').head? = some "self" then "self" else ""),
                  Original := raw }
            else GoResult.error (invalidPropertyPathSummary raw)
          | _ => GoResult.error (invalidPropertyPathSummary raw) := by
  unfold ParseResourcePropertyPath normalizedParts
  cases hs : stringsSplit raw '.' with
  | nil => simp
  | cons a rest =>
    cases rest with
    | nil => simp
    | cons b rest2 =>
      by_cases ha : a = "self"
      · subst ha
        simp [RuntimeDependencyDashboardScope, parseNormalized_eq]
      · simp [RuntimeDependencyDashboardScope, ha, parseNormalized_eq]

/-! ## Claims on the parser -/

/-- C11 (as stated, refuted): the parser splits on `.` only, so the bracketed text
`with.stuff1.rows[0].a` parses to the segments `rows[0]`, `a`, and `getWithValue` rejects
that path as an invalid property path instead of returning row 0 of column `a`. -/
theorem C11_bracket_address_counterexample :
    ParseResourcePropertyPath exampleIsValid "with.stuff1.rows[0].a"
        = GoResult.ok (withPath "stuff1" "with.stuff1.rows[0].a" ["rows[0]", "a"])
    ∧ getWithValue pluralizeS "stuff1" exampleOneColumn
          (withPath "stuff1" "with.stuff1.rows[0].a" ["rows[0]", "a"])
        = GoResult.error
            "reference to with 'stuff1' has invalid property path 'with.stuff1.rows[0].a'" :=
  ⟨rfl, rfl⟩

/-- C11 (amended): when `with` is a recognized resource kind, the dotted address
`with.stuff1.rows.0.a` parses to a path with item type `with`, name `stuff1` and segments
`rows`, `0`, `a`, and `getWithValue` on that path and any `LeafData` with at least one row
returns without error the value of column `a` in row 0. -/
theorem C11_dotted_address (valid : String → Bool) (hwith : valid "with" = true)
    (P : String → Int → String) (name : String) (d : LeafData) (hrows : d.Rows ≠ []) :
    ∃ path row,
      ParseResourcePropertyPath valid "with.stuff1.rows.0.a" = GoResult.ok path
      ∧ path.ItemType = "with" ∧ path.Name = "stuff1"
      ∧ path.PropertyPath = ["rows", "0", "a"]
      ∧ d.Rows[0]? = some row
      ∧ getWithValue P name d path = GoResult.ok (row.index "a") := by
  have hsplit : stringsSplit "with.stuff1.rows.0.a" '.'
      = ["with", "stuff1", "rows", "0", "a"] := by decide
  have hparse : ParseResourcePropertyPath valid "with.stuff1.rows.0.a"
      = GoResult.ok (withPath "stuff1" "with.stuff1.rows.0.a" ["rows", "0", "a"]) := by
    rw [ParseResourcePropertyPath_eq]
    simp [normalizedParts, hsplit, hwith, withPath]
  obtain ⟨row, rest, hd⟩ := List.exists_cons_of_ne_nil hrows
  refine ⟨_, row, hparse, rfl, rfl, rfl, by simp [hd], ?_⟩
  rw [getWithValue_three P name d _ "0" "a" rfl]
  have hA : Atoi "0" = some 0 := rfl
  unfold getWithValueRows
  rw [ne_star_of_Atoi hA, hA]
  simp [hd]

/-- C11 (amended) on the one column example rows `[{a:1},{a:2}]`: the value is `1`. -/
theorem C11_dotted_address_witness :
    ∃ path row,
      ParseResourcePropertyPath exampleIsValid "with.stuff1.rows.0.a" = GoResult.ok path
      ∧ path.ItemType = "with" ∧ path.Name = "stuff1"
      ∧ path.PropertyPath = ["rows", "0", "a"]
      ∧ exampleOneColumn.Rows[0]? = some row
      ∧ getWithValue pluralizeS "stuff1" exampleOneColumn path = GoResult.ok (row.index "a") :=
  C11_dotted_address exampleIsValid rfl pluralizeS "stuff1" exampleOneColumn
    (by simp [exampleOneColumn])

/-- C12: when `ParseResourcePropertyPath` succeeds on `raw` with result `p`, and `parts`
is `raw` split on `.` with a leading `self` removed and an empty string put in front when
the first part is a recognized resource kind, then `p.Mod = parts[0]`,
`p.ItemType = parts[1]`, `p.Name = parts[2]`, `p.PropertyPath = parts[3:]` (empty when
there are exactly 3 parts) and `p.Original = raw`. -/
theorem C12_field_assignment (valid : String → Bool) (raw : String) (p : ParsedPropertyPath)
    (h : ParseResourcePropertyPath valid raw = GoResult.ok p) :
    (normalizedParts valid raw)[0]? = some p.Mod
    ∧ (normalizedParts valid raw)[1]? = some p.ItemType
    ∧ (normalizedParts valid raw)[2]? = some p.Name
    ∧ (normalizedParts valid raw).drop 3 = p.PropertyPath
    ∧ ((normalizedParts valid raw).length = 3 → p.PropertyPath = [])
    ∧ p.Original = raw := by
  rw [ParseResourcePropertyPath_eq] at h
  split at h
  · cases h
  · split at h
    · next m t n path hnp =>
      split at h
      · cases h
        rw [hnp]
        simp
      · cases h
    · cases h

/-- C12 on `self.m.with.x.rows.0`. -/
theorem C12_field_assignment_witness :
    (normalizedParts exampleIsValid "self.m.with.x.rows.0")[0]? = some "m"
    ∧ (normalizedParts exampleIsValid "self.m.with.x.rows.0")[1]? = some "with"
    ∧ (normalizedParts exampleIsValid "self.m.with.x.rows.0")[2]? = some "x"
    ∧ (normalizedParts exampleIsValid "self.m.with.x.rows.0").drop 3 = ["rows", "0"]
    ∧ ((normalizedParts exampleIsValid "self.m.with.x.rows.0").length = 3
        → (["rows", "0"] : List String) = [])
    ∧ "self.m.with.x.rows.0" = "self.m.with.x.rows.0" :=
  C12_field_assignment exampleIsValid "self.m.with.x.rows.0"
    { Mod := "m", ItemType := "with", Name := "x", PropertyPath := ["rows", "0"],
      Scope := "self", Original := "self.m.with.x.rows.0" } rfl

/-- C13: when the raw string splits on `.` into fewer than 2 parts, or has fewer than 3
parts after the removal of a leading `self` and the normalisation, the parser returns the
invalid property path diagnostic and no path; it does not panic. -/
theorem C13_short_paths (valid : String → Bool) (raw : String)
    (h : (stringsSplit raw '.').length < 2 ∨ (normalizedParts valid raw).length < 3) :
    ParseResourcePropertyPath valid raw
      = GoResult.error (invalidPropertyPathSummary raw) := by
  rw [ParseResourcePropertyPath_eq]
  split
  · rfl
  · next hlen =>
    rcases h with h | h
    · exact absurd h hlen
    · split
      · next m t n path hnp =>
        rw [hnp] at h
        simp only [List.length_cons] at h
        omega
      · rfl

/-- C13 on `self.x`, `self.with` and `with`. -/
theorem C13_short_paths_witness :
    ParseResourcePropertyPath exampleIsValid "self.x"
        = GoResult.error (invalidPropertyPathSummary "self.x")
    ∧ ParseResourcePropertyPath exampleIsValid "self.with"
        = GoResult.error (invalidPropertyPathSummary "self.with")
    ∧ ParseResourcePropertyPath exampleIsValid "with"
        = GoResult.error (invalidPropertyPathSummary "with") :=
  ⟨C13_short_paths exampleIsValid "self.x" (Or.inr (by decide)),
   C13_short_paths exampleIsValid "self.with" (Or.inr (by decide)),
   C13_short_paths exampleIsValid "with" (Or.inl (by decide))⟩
/-- C14 (as stated, refuted): `m.zzz.x` has three parts and the unknown item type `zzz`;
the parser answers with the invalid property path diagnostic, the same text it builds
for the too short path `m`, not with an error of another kind. -/
theorem C14_unknown_kind_counterexample :
    normalizedParts exampleIsValid "m.zzz.x" = ["m", "zzz", "x"]
    ∧ exampleIsValid "zzz" = false
    ∧ ParseResourcePropertyPath exampleIsValid "m.zzz.x"
        = GoResult.error "invalid property path 'm.zzz.x' passed to ParseResourcePropertyPath"
    ∧ ParseResourcePropertyPath exampleIsValid "m"
        = GoResult.error "invalid property path 'm' passed to ParseResourcePropertyPath"
    ∧ ParseResourcePropertyPath exampleIsValid "m.zzz.x"
        = GoResult.error (invalidPropertyPathSummary "m.zzz.x")
    ∧ ParseResourcePropertyPath exampleIsValid "m"
        = GoResult.error (invalidPropertyPathSummary "m") :=
  ⟨by decide, by decide, rfl, rfl, rfl, rfl⟩

/-- C14 (amended): when the raw string has at least 3 parts after normalisation and its
item type part is not a recognized resource kind, the parser returns no path and the
diagnostic `invalid property path '<raw>' passed to ParseResourcePropertyPath`, which is
also the diagnostic of a path with fewer than 2 parts. -/
theorem C14_unknown_kind (valid : String → Bool) (raw : String) (m t n : String)
    (path : List String) (hlen : (stringsSplit raw '.').length ≥ 2)
    (hparts : normalizedParts valid raw = m :: t :: n :: path) (ht : valid t = false) :
    ParseResourcePropertyPath valid raw = GoResult.error (invalidPropertyPathSummary raw)
    ∧ ∀ short : String, (stringsSplit short '.').length < 2 →
        ParseResourcePropertyPath valid short
          = GoResult.error (invalidPropertyPathSummary short) := by
  constructor
  · rw [ParseResourcePropertyPath_eq, hparts]
    have hlen2 : ¬ (stringsSplit raw '.').length < 2 := by omega
    simp [hlen2, ht]
  · intro short hshort
    rw [ParseResourcePropertyPath_eq]
    simp [hshort]

/-- C14 (amended) on `m.zzz.x`, with the too short path `m`. -/
theorem C14_unknown_kind_witness :
    ParseResourcePropertyPath exampleIsValid "m.zzz.x"
        = GoResult.error (invalidPropertyPathSummary "m.zzz.x")
    ∧ ParseResourcePropertyPath exampleIsValid "m"
        = GoResult.error (invalidPropertyPathSummary "m") :=
  ⟨(C14_unknown_kind exampleIsValid "m.zzz.x" "m" "zzz" "x" [] (by decide) (by decide)
      (by decide)).1,
   (C14_unknown_kind exampleIsValid "m.zzz.x" "m" "zzz" "x" [] (by decide) (by decide)
      (by decide)).2 "m" (by decide)⟩

/-- C15: for a string `s` whose first part is not `self`, the parser succeeds on
`self.` followed by `s` exactly when it succeeds on `s`; the two results have the same
`Mod`, `ItemType`, `Name` and `PropertyPath`, the scope is `self` for the prefixed form
and empty for the other. -/
theorem C15_scope_qualifier (valid : String → Bool) (s : String)
    (hs : (stringsSplit s '.').head? ≠ some "self") :
    (∀ p, ParseResourcePropertyPath valid s = GoResult.ok p →
        p.Scope = ""
        ∧ ParseResourcePropertyPath valid ("self." ++ s)
            = GoResult.ok { p with Scope := "self", Original := "self." ++ s })
    ∧ (∀ q, ParseResourcePropertyPath valid ("self." ++ s) = GoResult.ok q →
        q.Scope = "self"
        ∧ ParseResourcePropertyPath valid s
            = GoResult.ok { q with Scope := "", Original := s }) := by
  have hnp : normalizedParts valid ("self." ++ s) = normalizedParts valid s := by
    simp [normalizedParts, stringsSplit_self, hs]
  have hlen : ¬ (stringsSplit ("self." ++ s) '.').length < 2 := by
    rw [stringsSplit_self]
    have := List.length_pos.mpr (stringsSplit_ne_nil s '.')
    simp only [List.length_cons]
    omega
  have hshort : (stringsSplit s '.').length < 2 → (normalizedParts valid s).length < 3 := by
    intro h
    cases hsp : stringsSplit s '.' with
    | nil => exact absurd hsp (stringsSplit_ne_nil s '.')
    | cons a rest =>
      cases rest with
      | nil =>
        have ha : a ≠ "self" := by
          intro ha
          rw [hsp, ha] at hs
          exact hs rfl
        by_cases hv : valid a = true <;> simp [normalizedParts, hsp, ha, hv]
      | cons b rest2 =>
        rw [hsp] at h
        simp only [List.length_cons] at h
        omega
  constructor
  · intro p hp
    rw [ParseResourcePropertyPath_eq] at hp ⊢
    rw [if_neg hlen, hnp]
    split at hp
    · cases hp
    · split at hp
      · next m t n path hparts =>
        split at hp
        · next ht =>
          cases hp
          simp [hs, stringsSplit_self, ht]
        · cases hp
      · cases hp
  · intro q hq
    rw [ParseResourcePropertyPath_eq] at hq ⊢
    rw [if_neg hlen, hnp] at hq
    split at hq
    · next m t n path hparts =>
      split at hq
      · next ht =>
        cases hq
        have hlen2 : ¬ (stringsSplit s '.').length < 2 := by
          intro h
          have := hshort h
          rw [hparts] at this
          simp only [List.length_cons] at this
          omega
        simp [hlen2, hparts, ht, hs, stringsSplit_self]
      · cases hq
    · cases hq

/-- C15 on `with.stuff1.rows`. -/
theorem C15_scope_qualifier_witness :
    ParseResourcePropertyPath exampleIsValid ("self." ++ "with.stuff1.rows")
      = GoResult.ok { Mod := "", ItemType := "with", Name := "stuff1", PropertyPath := ["rows"],
                      Scope := "self", Original := "self." ++ "with.stuff1.rows" } :=
  ((C15_scope_qualifier exampleIsValid "with.stuff1.rows" (by decide)).1
    (withPath "stuff1" "with.stuff1.rows" ["rows"]) rfl).2

/-! ## Claims on ownership, publication and lookup -/

theorem providesParam_iff (name : String) (params : List ParamDef) :
    providesParam name params = true ↔ ∃ p ∈ params, p.ShortName = name := by
  induction params with
  | nil => simp [providesParam]
  | cons p rest ih =>
    by_cases hp : p.ShortName = name
    · simp [providesParam, hp]
    · simp [providesParam, hp, ih]

/-- C16: `ProvidesRuntimeDependency` is true exactly when the item kind is `with` and
`withRuns` has an entry under the source resource name of the dependency, or the item
kind is `input` and `inputs` has that key, or the item kind is `param` and some owned
parameter has the name of the path as its short name; for every other item kind it is
false. -/
theorem C16_provides_dispatch (b : RuntimeDependencyPublisherBase) (d : RuntimeDependency) :
    ProvidesRuntimeDependency b d = true ↔
      (d.PropertyPath.ItemType = "with"
          ∧ (List.lookup d.SourceResourceName b.withRuns).isSome = true)
      ∨ (d.PropertyPath.ItemType = "input"
          ∧ (List.lookup d.SourceResourceName b.inputs).isSome = true)
      ∨ (d.PropertyPath.ItemType = "param"
          ∧ ∃ p ∈ b.Params, p.ShortName = d.PropertyPath.Name) := by
  unfold ProvidesRuntimeDependency BlockTypeWith BlockTypeInput BlockTypeParam
  by_cases h1 : d.PropertyPath.ItemType = "with"
  · simp [h1]
  · by_cases h2 : d.PropertyPath.ItemType = "input"
    · simp [h2]
    · by_cases h3 : d.PropertyPath.ItemType = "param"
      · simp [h3, providesParam_iff]
      · simp [h1, h2, h3]

theorem mapDelete_of_lookup_none {β : Type} (m : List (String × β)) (key : String)
    (h : List.lookup key m = none) : mapDelete m key = m := by
  induction m with
  | nil => rfl
  | cons e rest ih =>
    obtain ⟨k, v⟩ := e
    unfold mapDelete at ih ⊢
    by_cases hk : key = k
    · subst hk
      simp [List.lookup] at h
    · have hk2 : (key == k) = false := by simpa using hk
      rw [List.lookup, hk2] at h
      have hb : (k != key) = true := by simpa using fun h2 => hk h2.symm
      rw [List.filter_cons_of_pos (by simpa using hb), ih h]

theorem Publish_of_lookup_none (b : PublisherState) (name : String)
    (v : ResolvedRuntimeDependencyValue) (h : List.lookup name b.subscriptions = none) :
    PublishRuntimeDependencyValue b name v = GoExec.done b := by
  simp [PublishRuntimeDependencyValue, subscriptionsOf, h, publishLoop,
    mapDelete_of_lookup_none _ _ h]

theorem Publish_done_lookup (b b1 : PublisherState) (name : String)
    (v : ResolvedRuntimeDependencyValue)
    (h : PublishRuntimeDependencyValue b name v = GoExec.done b1) :
    List.lookup name b1.subscriptions = none := by
  unfold PublishRuntimeDependencyValue at h
  split at h
  · cases h
    exact lookup_mapDelete _ _
  · cases h
  · cases h

/-- C17: a publish for a name with no entry in the subscription table completes and
leaves the state (table and channels) unchanged; hence after a publish for `name` that
completed, a second publish for `name` completes and leaves the state as the first one
left it, so that no channel receives the second value. -/
theorem C17_publish_noop (b : PublisherState) (name : String) :
    (List.lookup name b.subscriptions = none →
      ∀ v, PublishRuntimeDependencyValue b name v = GoExec.done b)
    ∧ (∀ v1 v2 b1, PublishRuntimeDependencyValue b name v1 = GoExec.done b1 →
        PublishRuntimeDependencyValue b1 name v2 = GoExec.done b1) := by
  constructor
  · intro h v
    exact Publish_of_lookup_none b name v h
  · intro v1 v2 b1 h
    exact Publish_of_lookup_none b1 name v2 (Publish_done_lookup b b1 name v1 h)

/-- C17 on the publisher subscribed twice to `stuff1`: a publish for `other` changes
nothing, and a second publish for `stuff1` leaves the channels as the first left them. -/
theorem C17_publish_noop_witness :
    PublishRuntimeDependencyValue exampleSubscribedTwice "other"
        { Value := GoAny.int 7, Error := none } = GoExec.done exampleSubscribedTwice
    ∧ PublishRuntimeDependencyValue
        { subscriptions := [],
          chans := [{ buf := [{ Value := GoAny.str "seen", Error := none }], closed := true },
                    { buf := [{ Value := GoAny.int 7, Error := none }], closed := true }] }
        "stuff1" { Value := GoAny.int 8, Error := none }
      = GoExec.done
        { subscriptions := [],
          chans := [{ buf := [{ Value := GoAny.str "seen", Error := none }], closed := true },
                    { buf := [{ Value := GoAny.int 7, Error := none }], closed := true }] } :=
  ⟨(C17_publish_noop exampleSubscribedTwice "other").1 rfl _,
   (C17_publish_noop exampleSubscribedTwice "stuff1").2
      { Value := GoAny.int 7, Error := none } { Value := GoAny.int 8, Error := none } _ rfl⟩

/-- C19: the transform set for a dependency on a `with` returns, for a published value
carrying an error, a result with that error and a nil value, whatever the value; for a
published `LeafData` without error, the value of `getWithValue` and no error when
`getWithValue` succeeds, and a nil value with the error `failed to resolve with value
'<original>' for <name>: <error>` when it returns an error.  No result has both a value
and an error. -/
theorem C19_with_transform (P : String → Int → String) (name : String)
    (dep : RuntimeDependency) (r : ResolvedRuntimeDependencyValue) :
    (∀ e, r.Error = some e →
        withTransform P name dep r = GoExec.done { Value := GoAny.nil, Error := some e })
    ∧ (∀ columns rows, r.Error = none → r.Value = GoAny.leafData columns rows →
        (∀ v, getWithValue P name { Columns := columns, Rows := rows } dep.PropertyPath
              = GoResult.ok v →
            withTransform P name dep r = GoExec.done { Value := v, Error := none })
        ∧ (∀ msg, getWithValue P name { Columns := columns, Rows := rows } dep.PropertyPath
              = GoResult.error msg →
            withTransform P name dep r
              = GoExec.done
                  { Value := GoAny.nil,
                    Error := some ("failed to resolve with value '"
                      ++ dep.PropertyPath.Original ++ "' for " ++ name ++ ": " ++ msg) }))
    ∧ (∀ out, withTransform P name dep r = GoExec.done out →
        out.Value = GoAny.nil ∨ out.Error = none) := by
  refine ⟨?_, ?_, ?_⟩
  · intro e he
    simp [withTransform, he]
  · intro columns rows he hv
    constructor
    · intro v hg
      simp [withTransform, he, hv, hg]
    · intro msg hg
      simp [withTransform, he, hv, hg]
  · intro out hout
    unfold withTransform at hout
    split at hout
    · cases hout
      exact Or.inl rfl
    · split at hout
      · split at hout
        · cases hout
          exact Or.inr rfl
        · cases hout
          exact Or.inl rfl
        · cases hout
      · cases hout

/-- C19 for the dependency on `with.stuff1.rows.1.a`: a published error is passed on, the
published rows `[{a:1},{a:2}]` give the value `2`, and a failing extraction gives the
wrapped error. -/
theorem C19_with_transform_witness :
    withTransform pluralizeS "dep1" exampleWithDependency
        { Value := GoAny.int 3, Error := some "boom" }
      = GoExec.done { Value := GoAny.nil, Error := some "boom" }
    ∧ withTransform pluralizeS "dep1" exampleWithDependency
        { Value := exampleOneColumn.toAny, Error := none }
      = GoExec.done { Value := GoAny.int 2, Error := none }
    ∧ withTransform pluralizeS "dep1" exampleWithDependency
        { Value := GoAny.leafData [] [], Error := none }
      = GoExec.done
          { Value := GoAny.nil,
            Error := some ("failed to resolve with value '" ++ "with.stuff1.rows.1.a"
              ++ "' for " ++ "dep1" ++ ": "
              ++ "reference to with 'dep1' has invalid row index '1' - 0 rows were returned") } :=
  ⟨(C19_with_transform pluralizeS "dep1" exampleWithDependency
      { Value := GoAny.int 3, Error := some "boom" }).1 "boom" rfl,
   ((C19_with_transform pluralizeS "dep1" exampleWithDependency
      { Value := exampleOneColumn.toAny, Error := none }).2.1 _ _ rfl rfl).1 _ rfl,
   ((C19_with_transform pluralizeS "dep1" exampleWithDependency
      { Value := GoAny.leafData [] [], Error := none }).2.1 _ _ rfl rfl).2 _ rfl⟩

/-- C20: when two or more resolved dependencies of the publisher have the requested
parent property name, `FindRuntimeDependencyForParent` panics with the message
`FindRuntimeDependencyForParent for <name>, parent property <property>, returned more
that 1 result` and returns none of them. -/
theorem C20_several_matches (b : RuntimeDependencyPublisherBase) (parentProperty : String)
    (h : 2 ≤ b.runtimeDependencies.countP
      fun e => e.2.Dependency.ParentPropertyName == parentProperty) :
    FindRuntimeDependencyForParent b parentProperty
      = GoExec.panic ("FindRuntimeDependencyForParent for " ++ b.Name
          ++ ", parent property " ++ parentProperty ++ ", returned more that 1 result") := by
  have hlen : (FindRuntimeDependenciesForParent b parentProperty).length > 1 := by
    simp only [FindRuntimeDependenciesForParent, List.length_map,
      ← List.countP_eq_length_filter]
    omega
  simp [FindRuntimeDependencyForParent, hlen]

/-- C20 on a publisher with two resolved dependencies that both feed the property `sql`. -/
theorem C20_several_matches_witness :
    FindRuntimeDependencyForParent exampleTwoForSql "sql"
      = GoExec.panic ("FindRuntimeDependencyForParent for " ++ "chart1"
          ++ ", parent property " ++ "sql" ++ ", returned more that 1 result") :=
  C20_several_matches exampleTwoForSql "sql" (by decide)

/-! ## Lemmas on the walk up the parent chain -/

theorem parentPublisherLoop_some (l : List DashboardNodeParent) :
    ∀ (idx p : Nat), parentPublisherLoop l idx = some p →
      idx ≤ p ∧ ∃ b, l[p - idx]? = some (DashboardNodeParent.publisher b) := by
  induction l with
  | nil => intro idx p h; cases h
  | cons x rest ih =>
    intro idx p h
    cases x with
    | publisher b =>
      simp only [parentPublisherLoop, Option.some.injEq] at h
      subst h
      exact ⟨Nat.le_refl _, b, by simp⟩
    | other =>
      simp only [parentPublisherLoop] at h
      obtain ⟨hle, b, hb⟩ := ih (idx + 1) p h
      refine ⟨by omega, b, ?_⟩
      have hp : p - idx = (p - (idx + 1)) + 1 := by omega
      rw [hp, List.getElem?_cons_succ]
      exact hb

/-- The parent publisher is a publisher further up the chain. -/
theorem GetParentPublisher_some (nodes : List DashboardNodeParent) (b p : Nat)
    (h : GetParentPublisher nodes b = some p) :
    b < p ∧ ∃ pub, publisherAt nodes p = some pub := by
  obtain ⟨hle, pub, hpub⟩ := parentPublisherLoop_some _ _ _ h
  refine ⟨by omega, pub, ?_⟩
  rw [List.getElem?_drop] at hpub
  have hp : b + 1 + (p - (b + 1)) = p := by omega
  rw [hp] at hpub
  simp [publisherAt, hpub]

/-- The walk passes over the nodes that are not publishers. -/
theorem walkUpLoop_skip {σ : Type} (f : σ → Nat → σ × Bool × Option String)
    (l : List DashboardNodeParent) :
    ∀ (idx : Nat) (st : σ), walkUpLoop f l idx st
      = match parentPublisherLoop l idx with
        | none => (st, none)
        | some p => walkUpLoop f (l.drop (p - idx)) p st := by
  induction l with
  | nil => intro idx st; rfl
  | cons x rest ih =>
    intro idx st
    cases x with
    | publisher b => simp [parentPublisherLoop]
    | other =>
      simp only [walkUpLoop, parentPublisherLoop]
      rw [ih (idx + 1) st]
      cases hp : parentPublisherLoop rest (idx + 1) with
      | none => rfl
      | some p =>
        obtain ⟨hle, _⟩ := parentPublisherLoop_some _ _ _ hp
        have hd : p - idx = (p - (idx + 1)) + 1 := by omega
        simp only [hd, List.drop_succ_cons]

/-- The loop of `WalkUpPublishers`: one call of `walkFunc` on the publisher, then the walk
from its parent publisher. -/
theorem WalkUpPublishers_unfold {σ : Type} (nodes : List DashboardNodeParent) (b : Nat)
    (pub : RuntimeDependencyPublisherBase) (hb : publisherAt nodes b = some pub)
    (f : σ → Nat → σ × Bool × Option String) (st : σ) :
    WalkUpPublishers nodes b f st
      = match f st b with
        | (st2, _, some err) => (st2, some err)
        | (st2, continueWalking, none) =>
          if continueWalking then
            match GetParentPublisher nodes b with
            | none => (st2, none)
            | some p => WalkUpPublishers nodes p f st2
          else (st2, none) := by
  have hnode : nodes[b]? = some (DashboardNodeParent.publisher pub) := by
    unfold publisherAt at hb
    split at hb
    · next b2 heq => cases hb; exact heq
    · cases hb
  have hlt : b < nodes.length := by
    by_contra hge
    rw [List.getElem?_eq_none (by omega)] at hnode
    cases hnode
  have hdrop : nodes.drop b = DashboardNodeParent.publisher pub :: nodes.drop (b + 1) := by
    rw [List.drop_eq_getElem_cons hlt]
    congr 1
    rw [List.getElem?_eq_getElem hlt] at hnode
    exact Option.some.inj hnode
  have hnext : ∀ st2 : σ, walkUpLoop f (nodes.drop (b + 1)) (b + 1) st2
      = match GetParentPublisher nodes b with
        | none => (st2, none)
        | some p => WalkUpPublishers nodes p f st2 := by
    intro st2
    rw [walkUpLoop_skip]
    unfold GetParentPublisher
    cases hp : parentPublisherLoop (nodes.drop (b + 1)) (b + 1) with
    | none => rfl
    | some p =>
      obtain ⟨hle, _⟩ := parentPublisherLoop_some _ _ _ hp
      simp only [WalkUpPublishers, List.drop_drop]
      have : b + 1 + (p - (b + 1)) = p := by omega
      rw [this]
  unfold WalkUpPublishers
  rw [hdrop]
  simp only [walkUpLoop]
  rcases hf : f st b with ⟨st2, c, e⟩
  cases e with
  | some err => rfl
  | none =>
    cases c with
    | true => simp [hnext, WalkUpPublishers]
    | false => simp

/-- The search for a publisher: the publisher itself when it provides the dependency,
otherwise the result of the search from its parent publisher. -/
theorem findRuntimeDependencyPublisher_unfold (nodes : List DashboardNodeParent) (b : Nat)
    (pub : RuntimeDependencyPublisherBase) (hb : publisherAt nodes b = some pub)
    (d : RuntimeDependency) :
    findRuntimeDependencyPublisher nodes b d
      = if providesAt nodes b d then some b
        else
          match GetParentPublisher nodes b with
          | none => none
          | some p => findRuntimeDependencyPublisher nodes p d := by
  unfold findRuntimeDependencyPublisher
  rw [WalkUpPublishers_unfold nodes b pub hb]
  by_cases hp : providesAt nodes b d = true
  · simp [findWalkFunc, hp]
  · simp only [findWalkFunc, hp]
    cases GetParentPublisher nodes b <;> simp

/-- What the search returns: the first publisher of the upward chain that provides the
dependency, or nil when no publisher of the chain provides it. -/
theorem findRuntimeDependencyPublisher_spec (nodes : List DashboardNodeParent)
    (d : RuntimeDependency) :
    ∀ (m b : Nat) (pub : RuntimeDependencyPublisherBase), nodes.length - b ≤ m →
      publisherAt nodes b = some pub →
      match findRuntimeDependencyPublisher nodes b d with
      | some p =>
        ∃ k, nthPublisher nodes b k = some p ∧ providesAt nodes p d = true
          ∧ ∀ j < k, ∀ q, nthPublisher nodes b j = some q → providesAt nodes q d = false
      | none => ∀ k q, nthPublisher nodes b k = some q → providesAt nodes q d = false := by
  intro m
  induction m with
  | zero =>
    intro b pub hm hb
    have hlt : b < nodes.length := by
      by_contra hge
      simp [publisherAt, List.getElem?_eq_none (Nat.le_of_not_lt hge)] at hb
    omega
  | succ m ih =>
    intro b pub hm hb
    rw [findRuntimeDependencyPublisher_unfold nodes b pub hb d]
    by_cases hp : providesAt nodes b d = true
    · rw [if_pos hp]
      exact ⟨0, rfl, hp, by intro j hj; omega⟩
    · have hpf : providesAt nodes b d = false := by simpa using hp
      rw [if_neg hp]
      cases hg : GetParentPublisher nodes b with
      | none =>
        intro k q hk
        cases k with
        | zero =>
          simp only [nthPublisher, Option.some.injEq] at hk
          subst hk
          exact hpf
        | succ k => simp [nthPublisher, hg] at hk
      | some p1 =>
        obtain ⟨hlt, pub1, hpub1⟩ := GetParentPublisher_some nodes b p1 hg
        have hrec := ih p1 pub1 (by omega) hpub1
        simp only
        cases hf : findRuntimeDependencyPublisher nodes p1 d with
        | some p =>
          rw [hf] at hrec
          obtain ⟨k, hk, hprov, hfirst⟩ := hrec
          refine ⟨k + 1, by simp [nthPublisher, hg, hk], hprov, ?_⟩
          intro j hj q hq
          cases j with
          | zero =>
            simp only [nthPublisher, Option.some.injEq] at hq
            subst hq
            exact hpf
          | succ j =>
            simp only [nthPublisher, hg] at hq
            exact hfirst j (by omega) q hq
        | none =>
          rw [hf] at hrec
          intro k q hk
          cases k with
          | zero =>
            simp only [nthPublisher, Option.some.injEq] at hk
            subst hk
            exact hpf
          | succ k =>
            simp only [nthPublisher, hg] at hk
            exact hrec k q hk

/-- The publisher found is the first provider of the upward chain. -/
theorem findRuntimeDependencyPublisher_first (nodes : List DashboardNodeParent) (b : Nat)
    (pub : RuntimeDependencyPublisherBase) (hb : publisherAt nodes b = some pub)
    (d : RuntimeDependency) (k p : Nat) (hk : nthPublisher nodes b k = some p)
    (hprov : providesAt nodes p d = true)
    (hfirst : ∀ j < k, ∀ q, nthPublisher nodes b j = some q → providesAt nodes q d = false) :
    findRuntimeDependencyPublisher nodes b d = some p := by
  have h := findRuntimeDependencyPublisher_spec nodes d (nodes.length - b) b pub
    (Nat.le_refl _) hb
  cases hf : findRuntimeDependencyPublisher nodes b d with
  | none =>
    rw [hf] at h
    have := h k p hk
    rw [hprov] at this
    cases this
  | some p2 =>
    rw [hf] at h
    obtain ⟨k2, hk2, hprov2, hfirst2⟩ := h
    rcases Nat.lt_trichotomy k k2 with hlt | heq | hgt
    · have := hfirst2 k hlt p hk
      rw [hprov] at this
      cases this
    · subst heq
      rw [hk] at hk2
      exact hk2.symm
    · have := hfirst k2 hgt p2 hk2
      rw [hprov2] at this
      cases this

/-- No publisher is found when no publisher of the upward chain is a provider. -/
theorem findRuntimeDependencyPublisher_none (nodes : List DashboardNodeParent) (b : Nat)
    (pub : RuntimeDependencyPublisherBase) (hb : publisherAt nodes b = some pub)
    (d : RuntimeDependency)
    (hno : ∀ k q, nthPublisher nodes b k = some q → providesAt nodes q d = false) :
    findRuntimeDependencyPublisher nodes b d = none := by
  have h := findRuntimeDependencyPublisher_spec nodes d (nodes.length - b) b pub
    (Nat.le_refl _) hb
  cases hf : findRuntimeDependencyPublisher nodes b d with
  | none => rfl
  | some p =>
    rw [hf] at h
    obtain ⟨k, hk, hprov, _⟩ := h
    have := hno k p hk
    rw [hprov] at this
    cases this

/-! ## Lemmas on the resolution of a dependency -/

theorem publisherAt_lt (nodes : List DashboardNodeParent) (i : Nat)
    (pub : RuntimeDependencyPublisherBase) (h : publisherAt nodes i = some pub) :
    i < nodes.length ∧ nodes[i]? = some (DashboardNodeParent.publisher pub) := by
  unfold publisherAt at h
  split at h
  · next b heq =>
    cases h
    refine ⟨?_, heq⟩
    by_contra hge
    rw [List.getElem?_eq_none (by omega)] at heq
    cases heq
  · cases h

theorem publisherAt_set_eq (nodes : List DashboardNodeParent) (i : Nat)
    (x : RuntimeDependencyPublisherBase) (h : i < nodes.length) :
    publisherAt (nodes.set i (DashboardNodeParent.publisher x)) i = some x := by
  simp [publisherAt, h]

theorem publisherAt_set_ne (nodes : List DashboardNodeParent) (i j : Nat)
    (x : DashboardNodeParent) (h : i ≠ j) :
    publisherAt (nodes.set i x) j = publisherAt nodes j := by
  simp [publisherAt, List.getElem?_set_ne h]

theorem ownershipOf_set (nodes : List DashboardNodeParent) (i : Nat)
    (pub pub2 : RuntimeDependencyPublisherBase) (h : publisherAt nodes i = some pub)
    (h1 : pub2.withRuns = pub.withRuns) (h2 : pub2.inputs = pub.inputs)
    (h3 : pub2.Params = pub.Params) :
    (nodes.set i (DashboardNodeParent.publisher pub2)).map ownershipOf
      = nodes.map ownershipOf := by
  obtain ⟨hlt, hnode⟩ := publisherAt_lt nodes i pub h
  apply List.ext_getElem?
  intro j
  by_cases hij : i = j
  · subst hij
    have hget : nodes[i] = DashboardNodeParent.publisher pub := by
      rw [List.getElem?_eq_getElem hlt] at hnode
      exact Option.some.inj hnode
    simp [List.getElem?_map, hlt, hget, ownershipOf, h1, h2, h3]
  · simp [List.getElem?_map, List.getElem?_set_ne hij]

theorem ownershipOf_set_same (nodes : List DashboardNodeParent) (i : Nat)
    (x : DashboardNodeParent)
    (h : (nodes[i]?).map ownershipOf = some (ownershipOf x)) :
    (nodes.set i x).map ownershipOf = nodes.map ownershipOf := by
  apply List.ext_getElem?
  intro j
  by_cases hij : i = j
  · subst hij
    have hlt : i < nodes.length := by
      by_contra hge
      rw [List.getElem?_eq_none (by omega)] at h
      cases h
    rw [List.getElem?_map, List.getElem?_map, h]
    simp [hlt]
  · simp [List.getElem?_map, List.getElem?_set_ne hij]

theorem providesAt_congr (nodes nodes2 : List DashboardNodeParent)
    (h : nodes2.map ownershipOf = nodes.map ownershipOf) (p : Nat) (d : RuntimeDependency) :
    providesAt nodes2 p d = providesAt nodes p d := by
  have hp : (nodes2[p]?).map ownershipOf = (nodes[p]?).map ownershipOf := by
    rw [← List.getElem?_map, ← List.getElem?_map, h]
  unfold providesAt publisherAt
  cases h1 : nodes2[p]? with
  | none =>
    cases h2 : nodes[p]? with
    | none => rfl
    | some y =>
      rw [h1, h2] at hp
      cases hp
  | some x =>
    cases h2 : nodes[p]? with
    | none =>
      rw [h1, h2] at hp
      cases hp
    | some y =>
      rw [h1, h2] at hp
      cases x with
      | other =>
        cases y with
        | other => rfl
        | publisher b => simp [ownershipOf] at hp
      | publisher a =>
        cases y with
        | other => simp [ownershipOf] at hp
        | publisher b =>
          simp only [Option.map_some', ownershipOf, Option.some.injEq, Prod.mk.injEq] at hp
          simp [ProvidesRuntimeDependency, hp.1, hp.2.1, hp.2.2]

theorem publisherAt_congr (nodes nodes2 : List DashboardNodeParent)
    (h : nodes2.map ownershipOf = nodes.map ownershipOf) (p : Nat)
    (pub : RuntimeDependencyPublisherBase) (hp : publisherAt nodes p = some pub) :
    ∃ pub2, publisherAt nodes2 p = some pub2 := by
  obtain ⟨_, hnode⟩ := publisherAt_lt nodes p pub hp
  have hq : (nodes2[p]?).map ownershipOf = (nodes[p]?).map ownershipOf := by
    rw [← List.getElem?_map, ← List.getElem?_map, h]
  rw [hnode] at hq
  cases h1 : nodes2[p]? with
  | none =>
    rw [h1] at hq
    cases hq
  | some x =>
    rw [h1] at hq
    cases x with
    | other => simp [ownershipOf] at hq
    | publisher a => exact ⟨a, by simp [publisherAt, h1]⟩

theorem parentPublisherLoop_congr (l : List DashboardNodeParent) :
    ∀ (l2 : List DashboardNodeParent) (idx : Nat), l2.map ownershipOf = l.map ownershipOf →
      parentPublisherLoop l2 idx = parentPublisherLoop l idx := by
  induction l with
  | nil =>
    intro l2 idx h
    cases l2 with
    | nil => rfl
    | cons x rest => simp at h
  | cons y rest ih =>
    intro l2 idx h
    cases l2 with
    | nil => simp at h
    | cons x rest2 =>
      simp only [List.map_cons, List.cons.injEq] at h
      obtain ⟨hx, hrest⟩ := h
      cases x with
      | other =>
        cases y with
        | other => simp only [parentPublisherLoop]; exact ih rest2 (idx + 1) hrest
        | publisher b => simp [ownershipOf] at hx
      | publisher a =>
        cases y with
        | other => simp [ownershipOf] at hx
        | publisher b => rfl

theorem GetParentPublisher_congr (nodes nodes2 : List DashboardNodeParent)
    (h : nodes2.map ownershipOf = nodes.map ownershipOf) (b : Nat) :
    GetParentPublisher nodes2 b = GetParentPublisher nodes b := by
  unfold GetParentPublisher
  apply parentPublisherLoop_congr
  rw [List.map_drop, List.map_drop, h]

theorem nthPublisher_congr (nodes nodes2 : List DashboardNodeParent)
    (h : nodes2.map ownershipOf = nodes.map ownershipOf) (k : Nat) :
    ∀ b, nthPublisher nodes2 b k = nthPublisher nodes b k := by
  induction k with
  | zero => intro b; rfl
  | succ k ih =>
    intro b
    simp only [nthPublisher, GetParentPublisher_congr nodes nodes2 h b]
    cases GetParentPublisher nodes b with
    | none => rfl
    | some p => exact ih p

theorem subscriptionsOf_mapSet (m : List (String × List RuntimeDependencyPublishTarget))
    (key : String) (v : List RuntimeDependencyPublishTarget) :
    subscriptionsOf (mapSet m key v) key = v := by
  simp [subscriptionsOf, mapSet, List.lookup]

theorem lookup_mapSet {β : Type} (m : List (String × β)) (key : String) (v : β) :
    List.lookup key (mapSet m key v) = some v := by
  simp [mapSet, List.lookup]

theorem resolveOptions_target (P : String → Int → String) (n : String)
    (d : RuntimeDependency) (channel : Nat) :
    (if d.PropertyPath.ItemType == BlockTypeWith then
        [WithTransform (withTransform P n d)]
      else ([] : List RuntimeDependencyPublishOption)).foldl (fun t o => o t)
        { channel := channel, transform := none }
      = resolvedTarget P n d channel := by
  by_cases h : d.PropertyPath.ItemType = "with"
  · simp [BlockTypeWith, h, WithTransform, resolvedTarget]
  · simp [BlockTypeWith, h, resolvedTarget]

/-- Effect of the body of the loop of `resolveRuntimeDependencies` when a publisher is
found: a target on a new channel is appended to the subscriptions of that publisher under
the source resource name, and the resolved dependency is recorded under its key. -/
theorem resolveRuntimeDependency_found (P : String → Int → String) (w : ParentChain)
    (b : Nat) (self : RuntimeDependencyPublisherBase) (n : String) (d : RuntimeDependency)
    (p : Nat) (pub : RuntimeDependencyPublisherBase)
    (hself : publisherAt w.nodes b = some self)
    (hfind : findRuntimeDependencyPublisher w.nodes b d = some p)
    (hpub : publisherAt w.nodes p = some pub) :
    ∃ w1 pub1 self1,
      resolveRuntimeDependency P w b n d = GoExec.done (w1, none)
      ∧ publisherAt w1.nodes p = some pub1
      ∧ subscriptionsOf pub1.subscriptions d.SourceResourceName
          = subscriptionsOf pub.subscriptions d.SourceResourceName
              ++ [resolvedTarget P n d w.chans.length]
      ∧ publisherAt w1.nodes b = some self1
      ∧ List.lookup n self1.runtimeDependencies
          = some { Dependency := d, valueChannel := w.chans.length, publisherName := pub.Name }
      ∧ w1.chans = w.chans ++ [{ buf := [], closed := false }]
      ∧ w1.nodes.map ownershipOf = w.nodes.map ownershipOf := by
  obtain ⟨hplt, hpnode⟩ := publisherAt_lt w.nodes p pub hpub
  obtain ⟨hblt, hbnode⟩ := publisherAt_lt w.nodes b self hself
  have hsub : SubscribeToRuntimeDependency
      { subscriptions := pub.subscriptions, chans := w.chans } d.SourceResourceName
      (if d.PropertyPath.ItemType == BlockTypeWith then
        [WithTransform (withTransform P n d)] else [])
      = ({ subscriptions := mapSet pub.subscriptions d.SourceResourceName
            (subscriptionsOf pub.subscriptions d.SourceResourceName
              ++ [resolvedTarget P n d w.chans.length]),
           chans := w.chans ++ [{ buf := [], closed := false }] }, w.chans.length) := by
    simp only [SubscribeToRuntimeDependency, resolveOptions_target]
    rfl
  unfold resolveRuntimeDependency
  simp only [hfind, hpub, hsub]
  by_cases hpb : p = b
  · subst hpb
    rw [publisherAt_set_eq _ _ _ hplt]
    refine ⟨_,
      (pub.setSubscriptions (mapSet pub.subscriptions d.SourceResourceName
        (subscriptionsOf pub.subscriptions d.SourceResourceName
          ++ [resolvedTarget P n d w.chans.length]))).setRuntimeDependency n
        { Dependency := d, valueChannel := w.chans.length, publisherName := pub.Name },
      (pub.setSubscriptions (mapSet pub.subscriptions d.SourceResourceName
        (subscriptionsOf pub.subscriptions d.SourceResourceName
          ++ [resolvedTarget P n d w.chans.length]))).setRuntimeDependency n
        { Dependency := d, valueChannel := w.chans.length, publisherName := pub.Name },
      rfl, publisherAt_set_eq _ _ _ (by simpa using hplt), ?_,
      publisherAt_set_eq _ _ _ (by simpa using hplt), ?_, rfl, ?_⟩
    · exact subscriptionsOf_mapSet _ _ _
    · exact lookup_mapSet _ _ _
    · refine (ownershipOf_set_same _ _ _ ?_).trans (ownershipOf_set_same _ _ _ ?_)
      · simp [hplt, ownershipOf, RuntimeDependencyPublisherBase.setRuntimeDependency,
          RuntimeDependencyPublisherBase.setSubscriptions]
      · simp [hpnode, ownershipOf, RuntimeDependencyPublisherBase.setSubscriptions]
  · rw [publisherAt_set_ne _ _ _ _ hpb, hself]
    have hbp : b ≠ p := fun h => hpb h.symm
    refine ⟨_,
      pub.setSubscriptions (mapSet pub.subscriptions d.SourceResourceName
        (subscriptionsOf pub.subscriptions d.SourceResourceName
          ++ [resolvedTarget P n d w.chans.length])),
      self.setRuntimeDependency n
        { Dependency := d, valueChannel := w.chans.length, publisherName := pub.Name },
      rfl, ?_, ?_, publisherAt_set_eq _ _ _ (by simpa using hblt), ?_, rfl, ?_⟩
    · rw [publisherAt_set_ne _ _ _ _ hbp]
      exact publisherAt_set_eq _ _ _ hplt
    · exact subscriptionsOf_mapSet _ _ _
    · exact lookup_mapSet _ _ _
    · refine (ownershipOf_set_same _ _ _ ?_).trans (ownershipOf_set_same _ _ _ ?_)
      · simp [List.getElem?_set_ne hpb, hbnode, ownershipOf,
          RuntimeDependencyPublisherBase.setRuntimeDependency]
      · simp [hpnode, ownershipOf, RuntimeDependencyPublisherBase.setSubscriptions]

/-- Effect of the body of the loop when no publisher is found: the error is returned and
the state is unchanged. -/
theorem resolveRuntimeDependency_not_found (P : String → Int → String) (w : ParentChain)
    (b : Nat) (n : String) (d : RuntimeDependency)
    (hfind : findRuntimeDependencyPublisher w.nodes b d = none) :
    resolveRuntimeDependency P w b n d
      = GoExec.done (w, some ("cannot resolve runtime dependency " ++ d.Str)) := by
  simp [resolveRuntimeDependency, hfind]

theorem providesAt_publisher (nodes : List DashboardNodeParent) (p : Nat)
    (d : RuntimeDependency) (h : providesAt nodes p d = true) :
    ∃ pub, publisherAt nodes p = some pub := by
  unfold providesAt at h
  cases hp : publisherAt nodes p with
  | none => simp [hp] at h
  | some pub => exact ⟨pub, rfl⟩

/-- A step of the loop that returns no error keeps what the search reads of the chain. -/
theorem resolveRuntimeDependency_ownership (P : String → Int → String) (w w1 : ParentChain)
    (b : Nat) (self : RuntimeDependencyPublisherBase) (n : String) (d : RuntimeDependency)
    (e : Option String) (hself : publisherAt w.nodes b = some self)
    (h : resolveRuntimeDependency P w b n d = GoExec.done (w1, e)) :
    w1.nodes.map ownershipOf = w.nodes.map ownershipOf := by
  cases hfind : findRuntimeDependencyPublisher w.nodes b d with
  | none =>
    rw [resolveRuntimeDependency_not_found P w b n d hfind] at h
    cases h
    rfl
  | some p =>
    have hspec := findRuntimeDependencyPublisher_spec w.nodes d (w.nodes.length - b) b self
      (Nat.le_refl _) hself
    rw [hfind] at hspec
    obtain ⟨k, _, hprov, _⟩ := hspec
    obtain ⟨pub, hpub⟩ := providesAt_publisher _ _ _ hprov
    obtain ⟨w2, _, _, hres, _, _, _, _, _, hown⟩ :=
      resolveRuntimeDependency_found P w b self n d p pub hself hfind hpub
    rw [hres] at h
    cases h
    exact hown

/-- The loop over the dependencies, for a list of dependencies followed by another. -/
theorem resolveRuntimeDependencies_append (P : String → Int → String) (b : Nat)
    (pre rest : List (String × RuntimeDependency)) :
    ∀ (w w1 : ParentChain), resolveRuntimeDependencies P w b pre = GoExec.done (w1, none) →
      resolveRuntimeDependencies P w b (pre ++ rest) = resolveRuntimeDependencies P w1 b rest := by
  induction pre with
  | nil =>
    intro w w1 h
    simp only [resolveRuntimeDependencies] at h
    cases h
    rfl
  | cons x pre ih =>
    intro w w1 h
    obtain ⟨n, d⟩ := x
    simp only [resolveRuntimeDependencies, List.cons_append] at h ⊢
    split at h
    · next w2 heq =>
      exact ih w2 w1 h
    · cases h
    · cases h
    · cases h

/-- The loop over the dependencies keeps what the search reads of the chain. -/
theorem resolveRuntimeDependencies_ownership (P : String → Int → String) (b : Nat)
    (deps : List (String × RuntimeDependency)) :
    ∀ (w w1 : ParentChain) (self : RuntimeDependencyPublisherBase) (e : Option String),
      publisherAt w.nodes b = some self →
      resolveRuntimeDependencies P w b deps = GoExec.done (w1, e) →
      w1.nodes.map ownershipOf = w.nodes.map ownershipOf := by
  induction deps with
  | nil =>
    intro w w1 self e _ h
    simp only [resolveRuntimeDependencies] at h
    cases h
    rfl
  | cons x deps ih =>
    intro w w1 self e hself h
    obtain ⟨n, d⟩ := x
    simp only [resolveRuntimeDependencies] at h
    split at h
    · next w2 heq =>
      have h2 := resolveRuntimeDependency_ownership P w w2 b self n d none hself heq
      obtain ⟨self2, hself2⟩ := publisherAt_congr w.nodes w2.nodes h2 b self hself
      rw [ih w2 w1 self2 e hself2 h, h2]
    · next w2 err heq =>
      cases h
      exact resolveRuntimeDependency_ownership P w w1 b self n d (some err) hself heq
    · cases h
    · cases h

/-! ## Claim on the resolver -/

/-- C18: let `resolveRuntimeDependencies` of the publisher `b` reach the dependency `d`
of key `n` after the dependencies `pre`, all resolved, in the state `w1`.  When `p` is
the first publisher of the upward chain `b`, `GetParentPublisher(b)`, ... that provides
`d`, the search returns `p` and the step subscribes to `p`: a target on a new channel is
appended to the subscriptions of `p` under the source resource name of `d`, and the
resolved dependency recorded under `n` carries that channel and the name of `p`.  When no
publisher of the chain provides `d`, the search returns nil and
`resolveRuntimeDependencies` returns the error `cannot resolve runtime dependency ...` in
the state `w1`, in which nothing was recorded for `d`. -/
theorem C18_closest_provider (P : String → Int → String) (w : ParentChain) (b : Nat)
    (self : RuntimeDependencyPublisherBase) (hself : publisherAt w.nodes b = some self)
    (n : String) (d : RuntimeDependency) (pre : List (String × RuntimeDependency))
    (w1 : ParentChain) (hpre : resolveRuntimeDependencies P w b pre = GoExec.done (w1, none)) :
    (∀ k p, nthPublisher w.nodes b k = some p → providesAt w.nodes p d = true →
        (∀ j < k, ∀ q, nthPublisher w.nodes b j = some q → providesAt w.nodes q d = false) →
        findRuntimeDependencyPublisher w1.nodes b d = some p
        ∧ ∃ pub w2 pub2 self2,
            publisherAt w1.nodes p = some pub
            ∧ resolveRuntimeDependency P w1 b n d = GoExec.done (w2, none)
            ∧ resolveRuntimeDependencies P w b (pre ++ [(n, d)]) = GoExec.done (w2, none)
            ∧ publisherAt w2.nodes p = some pub2
            ∧ subscriptionsOf pub2.subscriptions d.SourceResourceName
                = subscriptionsOf pub.subscriptions d.SourceResourceName
                    ++ [resolvedTarget P n d w1.chans.length]
            ∧ w2.chans = w1.chans ++ [{ buf := [], closed := false }]
            ∧ publisherAt w2.nodes b = some self2
            ∧ List.lookup n self2.runtimeDependencies
                = some { Dependency := d, valueChannel := w1.chans.length,
                         publisherName := pub.Name })
    ∧ ((∀ k q, nthPublisher w.nodes b k = some q → providesAt w.nodes q d = false) →
        findRuntimeDependencyPublisher w1.nodes b d = none
        ∧ ∀ post, resolveRuntimeDependencies P w b (pre ++ (n, d) :: post)
            = GoExec.done (w1, some ("cannot resolve runtime dependency " ++ d.Str))) := by
  have hown := resolveRuntimeDependencies_ownership P b pre w w1 self none hself hpre
  obtain ⟨self1, hself1⟩ := publisherAt_congr w.nodes w1.nodes hown b self hself
  constructor
  · intro k p hk hprov hfirst
    have hk1 : nthPublisher w1.nodes b k = some p := by
      rw [nthPublisher_congr w.nodes w1.nodes hown k b]
      exact hk
    have hprov1 : providesAt w1.nodes p d = true := by
      rw [providesAt_congr w.nodes w1.nodes hown p d]
      exact hprov
    have hfirst1 : ∀ j < k, ∀ q, nthPublisher w1.nodes b j = some q →
        providesAt w1.nodes q d = false := by
      intro j hj q hq
      rw [nthPublisher_congr w.nodes w1.nodes hown j b] at hq
      rw [providesAt_congr w.nodes w1.nodes hown q d]
      exact hfirst j hj q hq
    have hfind := findRuntimeDependencyPublisher_first w1.nodes b self1 hself1 d k p hk1
      hprov1 hfirst1
    obtain ⟨pub, hpub⟩ := providesAt_publisher _ _ _ hprov1
    obtain ⟨w2, pub2, self2, hres, hp2, hsubs, hs2, hrec, hch, _⟩ :=
      resolveRuntimeDependency_found P w1 b self1 n d p pub hself1 hfind hpub
    refine ⟨hfind, pub, w2, pub2, self2, hpub, hres, ?_, hp2, hsubs, hch, hs2, hrec⟩
    rw [resolveRuntimeDependencies_append P b pre [(n, d)] w w1 hpre]
    simp [resolveRuntimeDependencies, hres]
  · intro hno
    have hno1 : ∀ k q, nthPublisher w1.nodes b k = some q →
        providesAt w1.nodes q d = false := by
      intro k q hq
      rw [nthPublisher_congr w.nodes w1.nodes hown k b] at hq
      rw [providesAt_congr w.nodes w1.nodes hown q d]
      exact hno k q hq
    have hfind := findRuntimeDependencyPublisher_none w1.nodes b self1 hself1 d hno1
    refine ⟨hfind, ?_⟩
    intro post
    rw [resolveRuntimeDependencies_append P b pre ((n, d) :: post) w w1 hpre]
    simp [resolveRuntimeDependencies, resolveRuntimeDependency_not_found P w1 b n d hfind]

/-- C18 on the chain `chart1`, a node that is no publisher, `container1`, `dashboard1`:
the dependency on `with.stuff1` is resolved to `container1`, the first of the two
providers, and the dependency on `input.region`, which nobody provides, gives the
error. -/
theorem C18_closest_provider_witness :
    findRuntimeDependencyPublisher exampleChain.nodes 0 exampleWithDependency = some 2
    ∧ (findRuntimeDependencyPublisher exampleChain.nodes 0 exampleInputDependency = none
      ∧ ∀ post, resolveRuntimeDependencies pluralizeS exampleChain 0
            ([] ++ ("dep2", exampleInputDependency) :: post)
          = GoExec.done (exampleChain,
              some ("cannot resolve runtime dependency " ++ exampleInputDependency.Str))) :=
  ⟨((C18_closest_provider pluralizeS exampleChain 0 (NewRuntimeDependencyPublisherBase "chart1")
      rfl "dep1" exampleWithDependency [] exampleChain rfl).1 1 2 rfl rfl
      (by
        intro j hj q hq
        have hj0 : j = 0 := by omega
        subst hj0
        simp only [nthPublisher, Option.some.injEq] at hq
        subst hq
        rfl)).1,
   (C18_closest_provider pluralizeS exampleChain 0 (NewRuntimeDependencyPublisherBase "chart1")
      rfl "dep2" exampleInputDependency [] exampleChain rfl).2
      (by
        intro k q _
        match q with
        | 0 => rfl
        | 1 => rfl
        | 2 => rfl
        | 3 => rfl
        | q + 4 => rfl)⟩

/-! ## Claims on the lookup by parent property and on the shape of the result -/

/-- C21 (failing input): on a publisher with no runtime dependency the list of the
matches is empty and `res[0]` panics, where the claim has the function return nil; with
exactly one match the function returns that match. -/
theorem C21_no_match_panics :
    FindRuntimeDependenciesForParent (NewRuntimeDependencyPublisherBase "chart1") "sql" = []
    ∧ FindRuntimeDependencyForParent (NewRuntimeDependencyPublisherBase "chart1") "sql"
        = GoExec.panic "runtime error: index out of range [0] with length 0"
    ∧ FindRuntimeDependencyForParent exampleOneForSql "title"
        = GoExec.panic "runtime error: index out of range [0] with length 0"
    ∧ FindRuntimeDependencyForParent exampleOneForSql "sql"
        = GoExec.done (some { Dependency := exampleWithDependency, valueChannel := 0,
                              publisherName := "container1" }) :=
  ⟨rfl, rfl, rfl, rfl⟩

/-- C24: `getWithValue` returns the same result for the segment lists `[]`, `["rows"]`
and `["rows", "*"]`, whatever the data: the values of the one column, the error on more
than one column, or the same failure on no column. -/
theorem C24_whole_table_addresses (P : String → Int → String) (name : String) (d : LeafData)
    (p q r : ParsedPropertyPath) (hp : p.PropertyPath = []) (hq : q.PropertyPath = ["rows"])
    (hr : r.PropertyPath = ["rows", "*"]) :
    getWithValue P name d p = getWithValue P name d q
    ∧ getWithValue P name d q = getWithValue P name d r := by
  cases hc : d.Columns with
  | nil => simp [getWithValue, hp, hq, hr, hc]
  | cons c rest =>
    cases rest with
    | nil => simp [getWithValue, hp, hq, hr, hc, getWithValueRows]
    | cons c2 rest2 => simp [getWithValue, hp, hq, hr, hc]

/-- C24 on the one column example: the three addresses give `[1,2]`. -/
theorem C24_whole_table_addresses_witness :
    getWithValue pluralizeS "stuff1" exampleOneColumn (withPath "stuff1" "with.stuff1" [])
      = getWithValue pluralizeS "stuff1" exampleOneColumn
          (withPath "stuff1" "with.stuff1.rows" ["rows"])
    ∧ getWithValue pluralizeS "stuff1" exampleOneColumn
          (withPath "stuff1" "with.stuff1.rows" ["rows"])
      = getWithValue pluralizeS "stuff1" exampleOneColumn
          (withPath "stuff1" "with.stuff1.rows.*" ["rows", "*"]) :=
  C24_whole_table_addresses pluralizeS "stuff1" exampleOneColumn
    (withPath "stuff1" "with.stuff1" []) (withPath "stuff1" "with.stuff1.rows" ["rows"])
    (withPath "stuff1" "with.stuff1.rows.*" ["rows", "*"]) rfl rfl rfl

/-- C25 (failing input): on a result with no column and the segments `["rows"]` or
`["rows", "0"]` the test `len(result.Columns) > 1` is false and `result.Columns[0]` is
read: the call panics instead of returning an error. -/
theorem C25_no_column_panics :
    getWithValue pluralizeS "stuff1" exampleNoColumn
        (withPath "stuff1" "with.stuff1.rows" ["rows"])
      = GoResult.panic "runtime error: index out of range [0] with length 0"
    ∧ getWithValue pluralizeS "stuff1" exampleNoColumn
        (withPath "stuff1" "with.stuff1.rows.0" ["rows", "0"])
      = GoResult.panic "runtime error: index out of range [0] with length 0" :=
  ⟨rfl, rfl⟩

/-! ## Claim on the text of a parsed path -/

/-- The characters of the join of the parts: the parts with a `.` between them. -/
theorem stringsJoin_toList (parts : List (List Char)) :
    (stringsJoin (parts.map String.mk) ".").toList
      = match parts with
        | [] => []
        | first :: rest => first ++ (rest.map fun part => '.' :: part).flatten := by
  induction parts with
  | nil => rfl
  | cons a rest ih =>
    cases rest with
    | nil => simp [stringsJoin]
    | cons b rest2 =>
      simp only [List.map_cons, stringsJoin] at ih ⊢
      simp only [String.toList, String.data_append] at ih ⊢
      rw [ih]
      simp

/-- Joining the pieces of a split with the separator gives the characters back. -/
theorem splitChars_join (cs : List Char) :
    (match splitChars '.' cs with
      | [] => []
      | first :: rest => first ++ (rest.map fun part => '.' :: part).flatten) = cs := by
  induction cs with
  | nil => simp [splitChars]
  | cons c cs ih =>
    cases hs : splitChars '.' cs with
    | nil => exact absurd hs (splitChars_ne_nil '.' cs)
    | cons part parts =>
      rw [hs] at ih
      simp only at ih
      by_cases hc : c = '.'
      · subst hc
        simp [splitChars, hs, ih]
      · simp [splitChars, hc, hs, ih]

/-- Go `strings.Join(strings.Split(s, "."), ".")` is `s`. -/
theorem stringsJoin_stringsSplit (s : String) :
    stringsJoin (stringsSplit s '.') "." = s := by
  apply String.ext
  have h := stringsJoin_toList (splitChars '.' s.toList)
  simp only [String.toList] at h
  unfold stringsSplit
  rw [String.toList, h, splitChars_join]

/-- C27: when the parser succeeds on `raw` with result `p`, `raw` is the join with `.`
of the scope (when it is not empty) followed by `Mod`, `ItemType`, `Name` and the segments
of `PropertyPath`, or, only when `Mod` is empty, followed by `ItemType`, `Name` and the
segments; and `PropertyPathString()` is the join with `.` of the parts after the name. -/
theorem C27_round_trip (valid : String → Bool) (raw : String) (p : ParsedPropertyPath)
    (h : ParseResourcePropertyPath valid raw = GoResult.ok p) :
    (raw = stringsJoin (p.scopeParts ++ p.Mod :: p.ItemType :: p.Name :: p.PropertyPath) "."
      ∨ (p.Mod = ""
          ∧ raw = stringsJoin (p.scopeParts ++ p.ItemType :: p.Name :: p.PropertyPath) "."))
    ∧ p.PropertyPathString = stringsJoin ((normalizedParts valid raw).drop 3) "." := by
  rw [ParseResourcePropertyPath_eq] at h
  split at h
  · cases h
  · split at h
    · next m t n path hnp =>
      split at h
      · cases h
        refine ⟨?_, by simp [ParsedPropertyPath.PropertyPathString, hnp]⟩
        have hj := stringsJoin_stringsSplit raw
        cases hs : stringsSplit raw '.' with
        | nil => exact absurd hs (stringsSplit_ne_nil raw '.')
        | cons a rest0 =>
          have hraw : raw = stringsJoin (a :: rest0) "." := by
            rw [← hs]
            exact hj.symm
          unfold normalizedParts at hnp
          rw [hs] at hnp
          by_cases ha : a = "self"
          · subst ha
            cases rest0 with
            | nil => simp at hnp
            | cons f fs =>
              by_cases hv : valid f = true
              · simp [hv] at hnp
                obtain ⟨hm, ht, hfs⟩ := hnp
                subst hm ht hfs
                right
                simpa [ParsedPropertyPath.scopeParts] using hraw
              · simp [hv] at hnp
                obtain ⟨hm, hfs⟩ := hnp
                subst hm hfs
                left
                simpa [ParsedPropertyPath.scopeParts] using hraw
          · by_cases hv : valid a = true
            · simp [ha, hv] at hnp
              obtain ⟨hm, ht, hfs⟩ := hnp
              subst hm ht hfs
              right
              simpa [ParsedPropertyPath.scopeParts, ha] using hraw
            · simp [ha, hv] at hnp
              obtain ⟨hm, hfs⟩ := hnp
              subst hm hfs
              left
              simpa [ParsedPropertyPath.scopeParts, ha] using hraw
      · cases h
    · cases h

/-- C27 on `self.with.stuff1.rows.0.a`: the mod is empty, and the text is the join of
`self`, `with`, `stuff1`, `rows`, `0`, `a`. -/
theorem C27_round_trip_witness :
    ("self.with.stuff1.rows.0.a"
        = stringsJoin (["self"] ++ "" :: "with" :: "stuff1" :: ["rows", "0", "a"]) "."
      ∨ ("" = ""
          ∧ "self.with.stuff1.rows.0.a"
            = stringsJoin (["self"] ++ "with" :: "stuff1" :: ["rows", "0", "a"]) "."))
    ∧ ParsedPropertyPath.PropertyPathString
        { Mod := "", ItemType := "with", Name := "stuff1", PropertyPath := ["rows", "0", "a"],
          Scope := "self", Original := "self.with.stuff1.rows.0.a" }
      = stringsJoin ((normalizedParts exampleIsValid "self.with.stuff1.rows.0.a").drop 3) "." :=
  C27_round_trip exampleIsValid "self.with.stuff1.rows.0.a"
    { Mod := "", ItemType := "with", Name := "stuff1", PropertyPath := ["rows", "0", "a"],
      Scope := "self", Original := "self.with.stuff1.rows.0.a" } rfl

/-! ## Lemmas on the completion of a with run -/

theorem lookup_mapDelete_ne {β : Type} (m : List (String × β)) (key k : String)
    (h : k ≠ key) : List.lookup k (mapDelete m key) = List.lookup k m := by
  induction m with
  | nil => rfl
  | cons e rest ih =>
    obtain ⟨k2, v⟩ := e
    unfold mapDelete at ih ⊢
    by_cases hk : k2 = key
    · have hb : (k2 != key) = false := by simp [hk]
      have hk3 : (k == k2) = false := by simpa [hk] using h
      rw [List.filter_cons_of_neg (by simp [hb]), ih, List.lookup, hk3]
    · have hb : (k2 != key) = true := by simp [hk]
      rw [List.filter_cons_of_pos (by simp [hb])]
      by_cases hkk : k = k2
      · have hk3 : (k == k2) = true := by simpa using hkk
        simp [List.lookup, hk3]
      · have hk3 : (k == k2) = false := by simpa using hkk
        simp only [List.lookup, hk3]
        exact ih

theorem Row.lookup_set_eq (row : Row) (c : String) (v : GoAny) :
    (row.set c v).lookup c = some v := by
  simp [Row.set, Row.lookup, mapSet, List.lookup]

theorem Row.lookup_set_ne (row : Row) (c k : String) (v : GoAny) (h : k ≠ c) :
    (row.set c v).lookup k = row.lookup k := by
  have hk : (k == c) = false := by simpa using h
  simp only [Row.set, Row.lookup, mapSet, List.lookup, hk]
  exact lookup_mapDelete_ne row c k h

theorem Row.index_set_ne (row : Row) (c k : String) (v : GoAny) (h : k ≠ c) :
    (row.set c v).index k = row.index k := by
  simp [Row.index, Row.lookup_set_ne row c k v h]

theorem mem_jsonColumnsOf (cols : List ColumnDef) (c : String) :
    c ∈ jsonColumnsOf cols
      ↔ ∃ col ∈ cols,
          (col.DataType = "JSONB" ∨ col.DataType = "JSON") ∧ col.Name = c := by
  induction cols with
  | nil => simp [jsonColumnsOf]
  | cons col rest ih =>
    by_cases hj : col.DataType = "JSONB" ∨ col.DataType = "JSON"
    · have hb : (col.DataType == "JSONB" || col.DataType == "JSON") = true := by simpa using hj
      simp only [jsonColumnsOf, hb, if_true, List.mem_cons, ih]
      constructor
      · rintro (h | ⟨x, hx, hx2⟩)
        · exact ⟨col, Or.inl rfl, hj, h.symm⟩
        · exact ⟨x, Or.inr hx, hx2⟩
      · rintro ⟨x, hx, hx2⟩
        rcases hx with rfl | hx
        · exact Or.inl hx2.2.symm
        · exact Or.inr ⟨x, hx, hx2⟩
    · have hb : (col.DataType == "JSONB" || col.DataType == "JSON") = false := by
        simpa using hj
      have hdef : jsonColumnsOf (col :: rest) = jsonColumnsOf rest := by
        simp [jsonColumnsOf, hb]
      rw [hdef, ih]
      constructor
      · rintro ⟨x, hx, hx2⟩
        exact ⟨x, List.mem_cons_of_mem _ hx, hx2⟩
      · rintro ⟨x, hx, hx2⟩
        rcases List.mem_cons.mp hx with rfl | hx
        · exact absurd hx2.1 hj
        · exact ⟨x, hx, hx2⟩

theorem jsonColumnsOf_sublist (cols : List ColumnDef) :
    List.Sublist (jsonColumnsOf cols) (cols.map fun col => col.Name) := by
  induction cols with
  | nil => simp [jsonColumnsOf]
  | cons col rest ih =>
    by_cases hb : (col.DataType == "JSONB" || col.DataType == "JSON") = true
    · simp only [jsonColumnsOf, hb, if_true, List.map_cons]
      exact List.Sublist.cons₂ _ ih
    · simp only [jsonColumnsOf, hb, List.map_cons]
      exact List.Sublist.cons _ ih

theorem Row.lookup_encodeAt_ne (Marshal : GoAny → Except String String) (row : Row)
    (c k : String) (h : k ≠ c) : (row.encodeAt Marshal c).lookup k = row.lookup k := by
  unfold Row.encodeAt
  split
  · exact Row.lookup_set_ne row c k _ h
  · rfl

theorem Row.index_encodeAt_ne (Marshal : GoAny → Except String String) (row : Row)
    (c k : String) (h : k ≠ c) : (row.encodeAt Marshal c).index k = row.index k := by
  simp [Row.index, Row.lookup_encodeAt_ne Marshal row c k h]

/-- When every row can be encoded under `c`, the inner loop replaces `row[c]` in every
row and returns no error. -/
theorem marshalRows_ok (Marshal : GoAny → Except String String) (c : String)
    (rows : List Row)
    (h : ∀ row ∈ rows, ∃ out, Marshal (row.index c) = Except.ok out) :
    marshalRows Marshal c rows = (rows.map (Row.encodeAt Marshal c), none) := by
  induction rows with
  | nil => rfl
  | cons row rest ih =>
    obtain ⟨out, hout⟩ := h row (List.mem_cons_self _ _)
    have hrest := ih (fun x hx => h x (List.mem_cons_of_mem _ hx))
    simp [marshalRows, hout, hrest, Row.encodeAt]

/-- The inner loop returns either no error, every row being encodable, or an error of
`Marshal`. -/
theorem marshalRows_cases (Marshal : GoAny → Except String String) (c : String)
    (rows : List Row) :
    (∀ row ∈ rows, ∃ out, Marshal (row.index c) = Except.ok out)
    ∨ (∃ rows2 e v, marshalRows Marshal c rows = (rows2, some e)
        ∧ Marshal v = Except.error e) := by
  induction rows with
  | nil => exact Or.inl (by simp)
  | cons row rest ih =>
    cases hm : Marshal (row.index c) with
    | error e => exact Or.inr ⟨row :: rest, e, row.index c, by simp [marshalRows, hm], hm⟩
    | ok out =>
      rcases ih with hall | ⟨rest2, e, v, hrest, hv⟩
      · refine Or.inl ?_
        intro x hx
        rcases List.mem_cons.mp hx with rfl | hx
        · exact ⟨out, hm⟩
        · exact hall x hx
      · exact Or.inr ⟨row.set c (GoAny.str out) :: rest2, e, v,
          by simp [marshalRows, hm, hrest], hv⟩

/-- When every row can be encoded under every column of `cs`, and no column occurs
twice in `cs`, the outer loop encodes every row and returns no error. -/
theorem marshalColumns_ok (Marshal : GoAny → Except String String) (cs : List String) :
    ∀ rows : List Row, cs.Nodup →
      (∀ row ∈ rows, ∀ c ∈ cs, ∃ out, Marshal (row.index c) = Except.ok out) →
      marshalColumns Marshal cs rows = (rows.map (Row.encodeAll Marshal cs), none) := by
  induction cs with
  | nil =>
    intro rows _ _
    have hid : Row.encodeAll Marshal [] = id := rfl
    simp [marshalColumns, hid]
  | cons c rest ih =>
    intro rows hnd h
    simp only [List.nodup_cons] at hnd
    have h1 := marshalRows_ok Marshal c rows (fun row hrow => h row hrow c (List.mem_cons_self _ _))
    have h2 : ∀ row ∈ rows.map (Row.encodeAt Marshal c), ∀ c2 ∈ rest,
        ∃ out, Marshal (row.index c2) = Except.ok out := by
      intro row1 hrow1 c2 hc2
      obtain ⟨row, hrow, rfl⟩ := List.mem_map.mp hrow1
      have hne : c2 ≠ c := fun heq => hnd.1 (heq ▸ hc2)
      rw [Row.index_encodeAt_ne Marshal row c c2 hne]
      exact h row hrow c2 (List.mem_cons_of_mem _ hc2)
    simp only [marshalColumns, h1, ih _ hnd.2 h2, List.map_map]
    rfl

/-- The outer loop returns an error of `Marshal` when some row cannot be encoded under
some column of `cs`. -/
theorem marshalColumns_fail (Marshal : GoAny → Except String String) (cs : List String) :
    ∀ rows : List Row,
      (∃ row ∈ rows, ∃ c ∈ cs, ∃ e, Marshal (row.index c) = Except.error e) →
      ∃ rows2 e v, marshalColumns Marshal cs rows = (rows2, some e)
        ∧ Marshal v = Except.error e := by
  induction cs with
  | nil =>
    intro rows h
    obtain ⟨_, _, c, hc, _⟩ := h
    cases hc
  | cons c rest ih =>
    intro rows h
    rcases marshalRows_cases Marshal c rows with hall | ⟨rows2, e, v, hrows, hv⟩
    · obtain ⟨row, hrow, c2, hc2, e2, he2⟩ := h
      have hne : c2 ≠ c := by
        rintro rfl
        obtain ⟨out, hout⟩ := hall row hrow
        rw [hout] at he2
        cases he2
      have hc2rest : c2 ∈ rest := by
        rcases List.mem_cons.mp hc2 with h3 | h3
        · exact absurd h3 hne
        · exact h3
      obtain ⟨rows3, e3, v3, hcols, hv3⟩ := ih (rows.map (Row.encodeAt Marshal c))
        ⟨row.encodeAt Marshal c, List.mem_map_of_mem _ hrow, c2, hc2rest, e2, by
          rw [Row.index_encodeAt_ne Marshal row c c2 hne]
          exact he2⟩
      exact ⟨rows3, e3, v3, by simp [marshalColumns, marshalRows_ok Marshal c rows hall, hcols],
        hv3⟩
    · exact ⟨rows2, e, v, by simp [marshalColumns, hrows], hv⟩

/-- The keys outside `cs` are not touched by the encoding. -/
theorem Row.lookup_encodeAll_of_not_mem (Marshal : GoAny → Except String String)
    (cs : List String) : ∀ (row : Row) (k : String), k ∉ cs →
      (row.encodeAll Marshal cs).lookup k = row.lookup k := by
  induction cs with
  | nil => intro row k _; rfl
  | cons c rest ih =>
    intro row k hk
    simp only [List.mem_cons, not_or] at hk
    have := ih (row.encodeAt Marshal c) k hk.2
    simp only [Row.encodeAll, List.foldl_cons] at this ⊢
    rw [this, Row.lookup_encodeAt_ne Marshal row c k hk.1]

/-- Under each column of `cs`, without repetition, the encoded row holds the string of
the encoding of the value of the row. -/
theorem Row.lookup_encodeAll_of_mem (Marshal : GoAny → Except String String)
    (cs : List String) : ∀ (row : Row), cs.Nodup →
      (∀ c ∈ cs, ∃ out, Marshal (row.index c) = Except.ok out) →
      ∀ c ∈ cs, ∃ out, Marshal (row.index c) = Except.ok out
        ∧ (row.encodeAll Marshal cs).lookup c = some (GoAny.str out) := by
  induction cs with
  | nil => intro row _ _ c hc; cases hc
  | cons c0 rest ih =>
    intro row hnd h c hc
    simp only [List.nodup_cons] at hnd
    have hfold : row.encodeAll Marshal (c0 :: rest)
        = (row.encodeAt Marshal c0).encodeAll Marshal rest := rfl
    rcases List.mem_cons.mp hc with rfl | hcrest
    · obtain ⟨out, hout⟩ := h c (List.mem_cons_self _ _)
      refine ⟨out, hout, ?_⟩
      rw [hfold, Row.lookup_encodeAll_of_not_mem Marshal rest _ c hnd.1]
      simp [Row.encodeAt, hout, Row.lookup_set_eq]
    · have hne : c ≠ c0 := fun heq => hnd.1 (heq ▸ hcrest)
      have h2 : ∀ c2 ∈ rest, ∃ out, Marshal ((row.encodeAt Marshal c0).index c2)
          = Except.ok out := by
        intro c2 hc2
        have hne2 : c2 ≠ c0 := fun heq => hnd.1 (heq ▸ hc2)
        rw [Row.index_encodeAt_ne Marshal row c0 c2 hne2]
        exact h c2 (List.mem_cons_of_mem _ hc2)
      obtain ⟨out, hout, hlook⟩ := ih (row.encodeAt Marshal c0) hnd.2 h2 c hcrest
      rw [Row.index_encodeAt_ne Marshal row c0 c hne] at hout
      exact ⟨out, hout, by rw [hfold]; exact hlook⟩

/-- The inner loop stops on the error of the value of one of the rows. -/
theorem marshalRows_error (Marshal : GoAny → Except String String) (c : String)
    (rows : List Row) :
    ∀ rows2 e, marshalRows Marshal c rows = (rows2, some e) →
      ∃ row ∈ rows, Marshal (row.index c) = Except.error e := by
  induction rows with
  | nil => intro rows2 e h; simp [marshalRows] at h
  | cons row rest ih =>
    intro rows2 e h
    cases hm : Marshal (row.index c) with
    | error e2 =>
      simp only [marshalRows, hm, Prod.mk.injEq, Option.some.injEq] at h
      exact ⟨row, List.mem_cons_self _ _, by rw [hm, h.2]⟩
    | ok out =>
      simp only [marshalRows, hm, Prod.mk.injEq] at h
      obtain ⟨x, hx, hxe⟩ := ih _ e (Prod.ext rfl h.2)
      exact ⟨x, List.mem_cons_of_mem _ hx, hxe⟩

/-- When no column occurs twice in `cs`, the error of the outer loop is the error of the
value of one of the rows under one of the columns. -/
theorem marshalColumns_error (Marshal : GoAny → Except String String) (cs : List String) :
    ∀ (rows rows2 : List Row) (e : String), cs.Nodup →
      marshalColumns Marshal cs rows = (rows2, some e) →
      ∃ row ∈ rows, ∃ c ∈ cs, Marshal (row.index c) = Except.error e := by
  induction cs with
  | nil => intro rows rows2 e _ h; simp [marshalColumns] at h
  | cons c rest ih =>
    intro rows rows2 e hnd h
    simp only [List.nodup_cons] at hnd
    rcases marshalRows_cases Marshal c rows with hall | ⟨rows1, e1, v, hrows, _⟩
    · simp only [marshalColumns, marshalRows_ok Marshal c rows hall] at h
      obtain ⟨row1, hrow1, c2, hc2, he⟩ := ih _ rows2 e hnd.2 h
      obtain ⟨row, hrow, rfl⟩ := List.mem_map.mp hrow1
      have hne : c2 ≠ c := fun heq => hnd.1 (heq ▸ hc2)
      rw [Row.index_encodeAt_ne Marshal row c c2 hne] at he
      exact ⟨row, hrow, c2, List.mem_cons_of_mem _ hc2, he⟩
    · simp only [marshalColumns, hrows, Prod.mk.injEq, Option.some.injEq] at h
      obtain ⟨row, hrow, he⟩ := marshalRows_error Marshal c rows rows1 e1 hrows
      exact ⟨row, hrow, c, List.mem_cons_self _ _, by rw [he, h.2]⟩

/-- Without rows the outer loop has nothing to encode. -/
theorem marshalColumns_nil (Marshal : GoAny → Except String String) (cs : List String) :
    marshalColumns Marshal cs [] = ([], none) := by
  induction cs with
  | nil => rfl
  | cons c rest ih => simp [marshalColumns, marshalRows, ih]

/-- When no JSON column has the name of another column, no name occurs twice in the list
of the names of the JSON columns. -/
theorem jsonColumnsOf_nodup (cols : List ColumnDef)
    (h : cols.Pairwise fun c1 c2 =>
      ((c1.DataType = "JSONB" ∨ c1.DataType = "JSON")
        ∨ (c2.DataType = "JSONB" ∨ c2.DataType = "JSON")) → c1.Name ≠ c2.Name) :
    (jsonColumnsOf cols).Nodup := by
  induction cols with
  | nil => simp [jsonColumnsOf]
  | cons col rest ih =>
    rw [List.pairwise_cons] at h
    by_cases hj : col.DataType = "JSONB" ∨ col.DataType = "JSON"
    · have hb : (col.DataType == "JSONB" || col.DataType == "JSON") = true := by simpa using hj
      simp only [jsonColumnsOf, hb, if_true, List.nodup_cons]
      refine ⟨?_, ih h.2⟩
      intro hmem
      obtain ⟨col2, hcol2, _, hname⟩ := (mem_jsonColumnsOf rest col.Name).mp hmem
      exact h.1 col2 hcol2 (Or.inl hj) hname.symm
    · have hb : (col.DataType == "JSONB" || col.DataType == "JSON") = false := by
        simpa using hj
      have hdef : jsonColumnsOf (col :: rest) = jsonColumnsOf rest := by
        simp [jsonColumnsOf, hb]
      rw [hdef]
      exact ih h.2

/-! ## Claims on the completion of a with run -/

/-- C22 (as stated, refuted): when two columns of type `JSON` have the same name `a`, the
value `1` of the row under `a` is encoded twice: the result holds the string `"1"` with
its quotes, the encoding of the string `1`, not the string `1` that encodes the value.
And when a column of type `JSON` and a column of type `TEXT` are both named `a`, the value
under the `TEXT` column does not stay: it is the string `1` after the call. -/
theorem C22_duplicate_json_column_counterexample :
    exampleMarshal (GoAny.int 1) = Except.ok "1"
    ∧ populateData exampleMarshal exampleDuplicateJson { Value := GoAny.nil, Error := none }
      = ({ Columns := exampleDuplicateJson.Columns, Rows := [[("a", GoAny.str "\"1\"")]] },
         { Value := GoAny.leafData exampleDuplicateJson.Columns [[("a", GoAny.str "\"1\"")]],
           Error := none })
    ∧ Row.lookup [("a", GoAny.str "\"1\"")] "a" ≠ some (GoAny.str "1")
    ∧ populateData exampleMarshal exampleSharedName { Value := GoAny.nil, Error := none }
      = ({ Columns := exampleSharedName.Columns, Rows := [[("a", GoAny.str "1")]] },
         { Value := GoAny.leafData exampleSharedName.Columns [[("a", GoAny.str "1")]],
           Error := none })
    ∧ Row.lookup [("a", GoAny.str "1")] "a" ≠ Row.lookup [("a", GoAny.int 1)] "a" := by
  refine ⟨rfl, rfl, ?_, rfl, ?_⟩
  · intro h
    have h2 : Row.lookup [("a", GoAny.str "\"1\"")] "a" = some (GoAny.str "\"1\"") := rfl
    rw [h2] at h
    injection h with h
    injection h with h
    exact absurd h (by decide)
  · intro h
    have h2 : Row.lookup [("a", GoAny.str "1")] "a" = some (GoAny.str "1") := rfl
    have h3 : Row.lookup [("a", GoAny.int 1)] "a" = some (GoAny.int 1) := rfl
    rw [h2, h3] at h
    injection h with h
    cases h

/-- C22 (amended): for a `LeafData` that has no row, or in which no column of type `JSONB`
or `JSON` has the name of another column, and in which every value under a column of type
`JSONB` or `JSON` can be encoded, `populateData` called with a result without error leaves
no error; the value is the `LeafData` with the same columns and the same rows in the same
order, where each row holds under each JSON column the string of the encoding of its
value, and under each other column its value unchanged. -/
theorem C22_populateData_success (Marshal : GoAny → Except String String) (d : LeafData)
    (r : ResolvedRuntimeDependencyValue) (hr : r.Error = none)
    (hnames : d.Rows = [] ∨ d.Columns.Pairwise fun c1 c2 =>
      ((c1.DataType = "JSONB" ∨ c1.DataType = "JSON")
        ∨ (c2.DataType = "JSONB" ∨ c2.DataType = "JSON")) → c1.Name ≠ c2.Name)
    (hok : ∀ row ∈ d.Rows, ∀ col ∈ d.Columns,
      (col.DataType = "JSONB" ∨ col.DataType = "JSON") →
      ∃ out, Marshal (row.index col.Name) = Except.ok out) :
    ∃ encode : Row → Row,
      populateData Marshal d r
        = ({ Columns := d.Columns, Rows := d.Rows.map encode },
           { Value := GoAny.leafData d.Columns (d.Rows.map encode), Error := none })
      ∧ ∀ row ∈ d.Rows, ∀ col ∈ d.Columns,
          ((col.DataType = "JSONB" ∨ col.DataType = "JSON") →
            ∃ out, Marshal (row.index col.Name) = Except.ok out
              ∧ (encode row).lookup col.Name = some (GoAny.str out))
          ∧ (¬ (col.DataType = "JSONB" ∨ col.DataType = "JSON") →
            (encode row).lookup col.Name = row.lookup col.Name) := by
  rcases hnames with hempty | hnames
  · refine ⟨id, ?_, ?_⟩
    · simp [populateData, hempty, marshalColumns_nil, hr]
    · intro row hrow
      rw [hempty] at hrow
      cases hrow
  have hnd : (jsonColumnsOf d.Columns).Nodup := jsonColumnsOf_nodup d.Columns hnames
  have hall : ∀ row ∈ d.Rows, ∀ c ∈ jsonColumnsOf d.Columns,
      ∃ out, Marshal (row.index c) = Except.ok out := by
    intro row hrow c hc
    obtain ⟨col, hcol, hj, rfl⟩ := (mem_jsonColumnsOf d.Columns c).mp hc
    exact hok row hrow col hcol hj
  refine ⟨Row.encodeAll Marshal (jsonColumnsOf d.Columns), ?_, ?_⟩
  · simp [populateData, marshalColumns_ok Marshal _ d.Rows hnd hall, hr]
  · intro row hrow col hcol
    constructor
    · intro hj
      exact Row.lookup_encodeAll_of_mem Marshal _ row hnd (hall row hrow) col.Name
        ((mem_jsonColumnsOf d.Columns col.Name).mpr ⟨col, hcol, hj, rfl⟩)
    · intro hj
      apply Row.lookup_encodeAll_of_not_mem
      intro hmem
      obtain ⟨col2, hcol2, hj2, hname⟩ := (mem_jsonColumnsOf d.Columns col.Name).mp hmem
      have hne : col2 ≠ col := fun heq => hj (heq ▸ hj2)
      have hsymm : Symmetric fun c1 c2 : ColumnDef =>
          ((c1.DataType = "JSONB" ∨ c1.DataType = "JSON")
            ∨ (c2.DataType = "JSONB" ∨ c2.DataType = "JSON")) → c1.Name ≠ c2.Name :=
        fun _ _ h12 h21 heq => h12 h21.symm heq.symm
      exact List.Pairwise.forall hsymm hnames hcol2 hcol hne (Or.inl hj2) hname

/-- C22 (amended) on the column `a` (`JSONB`) and two columns `b` (`TEXT`): `1` becomes the
string `1`, the absent value becomes the string `null`, and the values under `b` stay. -/
theorem C22_populateData_success_witness :
    ∃ encode : Row → Row,
      populateData exampleMarshal exampleRepeatedText { Value := GoAny.nil, Error := none }
        = ({ Columns := exampleRepeatedText.Columns,
             Rows := exampleRepeatedText.Rows.map encode },
           { Value := GoAny.leafData exampleRepeatedText.Columns
               (exampleRepeatedText.Rows.map encode),
             Error := none })
      ∧ ∀ row ∈ exampleRepeatedText.Rows, ∀ col ∈ exampleRepeatedText.Columns,
          ((col.DataType = "JSONB" ∨ col.DataType = "JSON") →
            ∃ out, exampleMarshal (row.index col.Name) = Except.ok out
              ∧ (encode row).lookup col.Name = some (GoAny.str out))
          ∧ (¬ (col.DataType = "JSONB" ∨ col.DataType = "JSON") →
            (encode row).lookup col.Name = row.lookup col.Name) :=
  C22_populateData_success exampleMarshal exampleRepeatedText
    { Value := GoAny.nil, Error := none } rfl (Or.inr (by decide))
    (by
      intro row hrow col hcol hj
      simp only [exampleRepeatedText, List.mem_cons, List.mem_singleton, List.not_mem_nil,
        or_false] at hrow hcol
      rcases hcol with rfl | rfl | rfl
      · rcases hrow with rfl | rfl
        · exact ⟨"1", rfl⟩
        · exact ⟨"null", rfl⟩
      · simp at hj
      · simp at hj)

/-- C23: when the encoding of some value under a column of type `JSONB` or `JSON` fails,
`populateData` leaves a result with a nil value and an error returned by `Marshal`, which
is the error of a value of a row under such a column when no two of these columns have
the same name; and for a run that finished with an error, `setWithValue` publishes under
the unqualified name of the run the result with that error and a nil value, and leaves
the run as it is. -/
theorem C23_failures (Marshal : GoAny → Except String String) :
    (∀ (d : LeafData) (r : ResolvedRuntimeDependencyValue),
      (∃ row ∈ d.Rows, ∃ col ∈ d.Columns,
        (col.DataType = "JSONB" ∨ col.DataType = "JSON")
          ∧ ∃ e, Marshal (row.index col.Name) = Except.error e) →
      ∃ e v, Marshal v = Except.error e
        ∧ (populateData Marshal d r).2 = { Value := GoAny.nil, Error := some e }
        ∧ ((jsonColumnsOf d.Columns).Nodup →
            ∃ row ∈ d.Rows, ∃ col ∈ d.Columns,
              (col.DataType = "JSONB" ∨ col.DataType = "JSON")
                ∧ Marshal (row.index col.Name) = Except.error e))
    ∧ (∀ (b : PublisherState) (w : LeafRun) (e : String), w.error = some e →
      setWithValue Marshal b w
        = match PublishRuntimeDependencyValue b w.UnqualifiedName
            { Value := GoAny.nil, Error := some e } with
          | GoExec.done b2 => GoExec.done (b2, w)
          | GoExec.panic msg => GoExec.panic msg
          | GoExec.blocked => GoExec.blocked) := by
  constructor
  · rintro d r ⟨row, hrow, col, hcol, hj, e, he⟩
    obtain ⟨rows2, e2, v, hcols, hv⟩ := marshalColumns_fail Marshal (jsonColumnsOf d.Columns)
      d.Rows ⟨row, hrow, col.Name,
        (mem_jsonColumnsOf d.Columns col.Name).mpr ⟨col, hcol, hj, rfl⟩, e, he⟩
    refine ⟨e2, v, hv, by simp [populateData, hcols], ?_⟩
    intro hnd
    obtain ⟨row2, hrow2, c, hc, hce⟩ :=
      marshalColumns_error Marshal _ d.Rows rows2 e2 hnd hcols
    obtain ⟨col2, hcol2, hj2, rfl⟩ := (mem_jsonColumnsOf d.Columns c).mp hc
    exact ⟨row2, hrow2, col2, hcol2, hj2, hce⟩
  · intro b w e he
    simp [setWithValue, he]

/-- C23 on the rows `{a:1}`, `{a:NaN}` under the `JSON` column `a`, and on a run that
failed with `boom`, published to the two subscribers of `stuff1`. -/
theorem C23_failures_witness :
    (∃ e v, exampleMarshal v = Except.error e
      ∧ (populateData exampleMarshal exampleNaNData { Value := GoAny.nil, Error := none }).2
          = { Value := GoAny.nil, Error := some e }
      ∧ ((jsonColumnsOf exampleNaNData.Columns).Nodup →
          ∃ row ∈ exampleNaNData.Rows, ∃ col ∈ exampleNaNData.Columns,
            (col.DataType = "JSONB" ∨ col.DataType = "JSON")
              ∧ exampleMarshal (row.index col.Name) = Except.error e))
    ∧ setWithValue exampleMarshal exampleSubscribedTwice
        { exampleFailedRun with UnqualifiedName := "stuff1" }
      = match PublishRuntimeDependencyValue exampleSubscribedTwice "stuff1"
            { Value := GoAny.nil, Error := some "boom" } with
        | GoExec.done b2 => GoExec.done (b2, { exampleFailedRun with UnqualifiedName := "stuff1" })
        | GoExec.panic msg => GoExec.panic msg
        | GoExec.blocked => GoExec.blocked :=
  ⟨(C23_failures exampleMarshal).1 exampleNaNData { Value := GoAny.nil, Error := none }
      ⟨[("a", GoAny.nan)], by simp [exampleNaNData], { Name := "a", DataType := "JSON" },
        by simp [exampleNaNData], Or.inr rfl, "json: unsupported value: NaN", rfl⟩,
   (C23_failures exampleMarshal).2 exampleSubscribedTwice
      { exampleFailedRun with UnqualifiedName := "stuff1" } "boom" rfl⟩

/-! ## Lemmas on one-shot delivery -/

theorem count_targetChannels_mapDelete (m : List (String × List RuntimeDependencyPublishTarget))
    (name : String) (x : Nat) :
    List.count x ((subscriptionsOf m name).map fun t => t.channel)
        + List.count x (targetChannels (mapDelete m name))
      ≤ List.count x (targetChannels m) := by
  induction m with
  | nil => simp [subscriptionsOf, mapDelete, targetChannels]
  | cons e rest ih =>
    obtain ⟨k, ts⟩ := e
    by_cases hk : k = name
    · subst hk
      have hdel : mapDelete ((k, ts) :: rest) k = mapDelete rest k := by
        simp [mapDelete]
      have hsub : subscriptionsOf ((k, ts) :: rest) k = ts := by
        simp [subscriptionsOf, List.lookup]
      rw [hdel, hsub]
      simp only [targetChannels, List.count_append]
      have := ih
      omega
    · have hb : (k != name) = true := by simp [hk]
      have hdel : mapDelete ((k, ts) :: rest) name = (k, ts) :: mapDelete rest name := by
        simp [mapDelete, hk]
      have hk2 : (name == k) = false := by simpa using fun h => hk h.symm
      have hsub : subscriptionsOf ((k, ts) :: rest) name = subscriptionsOf rest name := by
        simp [subscriptionsOf, List.lookup, hk2]
      rw [hdel, hsub]
      simp only [targetChannels, List.count_append]
      omega

theorem mem_targetChannels_of_mapDelete
    (m : List (String × List RuntimeDependencyPublishTarget)) (name : String) (x : Nat)
    (h : x ∈ targetChannels (mapDelete m name)) : x ∈ targetChannels m := by
  have h1 := count_targetChannels_mapDelete m name x
  have h2 : 0 < List.count x (targetChannels (mapDelete m name)) := List.count_pos_iff.mpr h
  exact List.count_pos_iff.mp (by omega)

theorem mem_targetChannels_of_subscriptionsOf
    (m : List (String × List RuntimeDependencyPublishTarget)) (name : String) (x : Nat)
    (h : x ∈ (subscriptionsOf m name).map fun t => t.channel) : x ∈ targetChannels m := by
  have h1 := count_targetChannels_mapDelete m name x
  have h2 : 0 < List.count x ((subscriptionsOf m name).map fun t => t.channel) :=
    List.count_pos_iff.mpr h
  exact List.count_pos_iff.mp (by omega)

theorem foldl_WithTransform_channel
    (transforms :
      List (ResolvedRuntimeDependencyValue → GoExec ResolvedRuntimeDependencyValue)) :
    ∀ t : RuntimeDependencyPublishTarget,
      ((transforms.map WithTransform).foldl (fun t o => o t) t).channel = t.channel := by
  induction transforms with
  | nil => intro t; rfl
  | cons f rest ih =>
    intro t
    simp only [List.map_cons, List.foldl_cons]
    rw [ih]
    rfl

/-- A publish loop that completes has called transforms that returned. -/
theorem publishLoop_done_returns (result : ResolvedRuntimeDependencyValue) :
    ∀ (ts : List RuntimeDependencyPublishTarget) (chans chans2 : List Chan),
      publishLoop result ts chans = GoExec.done chans2 →
      ∀ t ∈ ts, ∃ r, t.valueFor result = GoExec.done r := by
  intro ts
  induction ts with
  | nil => intro _ _ _ t ht; cases ht
  | cons t0 rest ih =>
    intro chans chans2 h t ht
    unfold publishLoop at h
    split at h
    · next v hv =>
      split at h
      · next chans1 _ =>
        split at h
        · next chans3 _ =>
          rcases List.mem_cons.mp ht with rfl | ht
          · exact ⟨v, hv⟩
          · exact ih chans3 chans2 h t ht
        · cases h
        · cases h
      · cases h
      · cases h
    · cases h
    · cases h

theorem OneShot.of_new : OneShot PublisherState.new :=
  ⟨fun _ hch => (by cases hch), List.nodup_nil, fun _ hc => (by cases hc)⟩

theorem chan_lt_of_open (chans : List Chan) (ch : Nat) (c : Chan)
    (h : chans[ch]? = some c) : ch < chans.length := by
  by_contra hge
  rw [List.getElem?_eq_none (by omega)] at h
  cases h

/-- A call of `SubscribeToRuntimeDependency` keeps the one-shot invariant. -/
theorem OneShot.subscribe (b : PublisherState) (name : String)
    (transforms :
      List (ResolvedRuntimeDependencyValue → GoExec ResolvedRuntimeDependencyValue))
    (h : OneShot b) :
    OneShot (SubscribeToRuntimeDependency b name (transforms.map WithTransform)).1 := by
  have htc : targetChannels
      (SubscribeToRuntimeDependency b name (transforms.map WithTransform)).1.subscriptions
      = ((subscriptionsOf b.subscriptions name).map fun t => t.channel)
          ++ [b.chans.length] ++ targetChannels (mapDelete b.subscriptions name) := by
    simp only [SubscribeToRuntimeDependency, mapSet, targetChannels, List.map_append,
      List.map_cons, List.map_nil, foldl_WithTransform_channel transforms
        { channel := b.chans.length, transform := none }]
  have hold : ∀ ch ∈ targetChannels b.subscriptions,
      (b.chans ++ [({ buf := [], closed := false } : Chan)])[ch]?
        = some { buf := [], closed := false } := by
    intro ch hmem
    have h1 := h.targetsOpen ch hmem
    rw [List.getElem?_append_left (chan_lt_of_open _ _ _ h1)]
    exact h1
  refine { targetsOpen := ?_, targetsDistinct := ?_, oneValue := ?_ }
  · intro ch hmem
    rw [htc] at hmem
    simp only [SubscribeToRuntimeDependency]
    simp only [List.mem_append, List.mem_singleton] at hmem
    rcases hmem with (hmem | hmem) | hmem
    · exact hold ch (mem_targetChannels_of_subscriptionsOf _ _ _ hmem)
    · subst hmem
      simp
    · exact hold ch (mem_targetChannels_of_mapDelete _ _ _ hmem)
  · rw [htc, List.nodup_iff_count_le_one]
    intro x
    have h1 := count_targetChannels_mapDelete b.subscriptions name x
    have h2 := List.nodup_iff_count_le_one.mp h.targetsDistinct x
    simp only [List.count_append]
    by_cases hx : x = b.chans.length
    · subst hx
      have h3 : List.count b.chans.length (targetChannels b.subscriptions) = 0 := by
        rw [List.count_eq_zero]
        intro hmem
        have := chan_lt_of_open _ _ _ (h.targetsOpen _ hmem)
        omega
      simp
      omega
    · have h3 : List.count x [b.chans.length] = 0 := by
        rw [List.count_eq_zero]
        simpa using hx
      omega
  · intro c hc
    simp only [SubscribeToRuntimeDependency, List.mem_append, List.mem_singleton] at hc
    rcases hc with hc | hc
    · exact h.oneValue c hc
    · exact Or.inl hc

theorem OneShot.targets_nodup (b : PublisherState) (name : String) (h : OneShot b) :
    ((subscriptionsOf b.subscriptions name).map fun t => t.channel).Nodup := by
  rw [List.nodup_iff_count_le_one]
  intro x
  have h1 := count_targetChannels_mapDelete b.subscriptions name x
  have h2 := List.nodup_iff_count_le_one.mp h.targetsDistinct x
  omega

theorem OneShot.targets_open (b : PublisherState) (name : String) (h : OneShot b) :
    ∀ t ∈ subscriptionsOf b.subscriptions name,
      b.chans[t.channel]? = some { buf := [], closed := false } := by
  intro t ht
  exact h.targetsOpen _ (mem_targetChannels_of_subscriptionsOf _ _ _
    (List.mem_map_of_mem (fun t => t.channel) ht))

/-- A call of `PublishRuntimeDependencyValue` that returns keeps the one-shot invariant. -/
theorem OneShot.publish (b b2 : PublisherState) (name : String)
    (v : ResolvedRuntimeDependencyValue) (h : OneShot b)
    (hp : PublishRuntimeDependencyValue b name v = GoExec.done b2) : OneShot b2 := by
  unfold PublishRuntimeDependencyValue at hp
  split at hp
  · next chans2 hloop =>
    cases hp
    have hret := publishLoop_done_returns v _ _ _ hloop
    obtain ⟨chans3, hloop3, hdone, hframe⟩ := publishLoop_spec v
      (subscriptionsOf b.subscriptions name) b.chans (h.targets_nodup b name)
      (h.targets_open b name) hret
    rw [hloop] at hloop3
    cases hloop3
    refine { targetsOpen := ?_, targetsDistinct := ?_, oneValue := ?_ }
    · intro ch hmem
      have h1 := count_targetChannels_mapDelete b.subscriptions name ch
      have h2 := List.nodup_iff_count_le_one.mp h.targetsDistinct ch
      have h3 : 0 < List.count ch (targetChannels (mapDelete b.subscriptions name)) :=
        List.count_pos_iff.mpr hmem
      have h4 : ch ∉ (subscriptionsOf b.subscriptions name).map fun t => t.channel := by
        intro hin
        have := List.count_pos_iff.mpr hin
        omega
      show chans2[ch]? = _
      rw [hframe ch h4]
      exact h.targetsOpen ch (mem_targetChannels_of_mapDelete _ _ _ hmem)
    · rw [List.nodup_iff_count_le_one]
      intro x
      have h1 := count_targetChannels_mapDelete b.subscriptions name x
      have h2 := List.nodup_iff_count_le_one.mp h.targetsDistinct x
      show List.count x (targetChannels (mapDelete b.subscriptions name)) ≤ 1
      omega
    · intro c hc
      obtain ⟨i, hi⟩ := List.mem_iff_getElem?.mp hc
      by_cases hin : i ∈ (subscriptionsOf b.subscriptions name).map fun t => t.channel
      · obtain ⟨t, ht, rfl⟩ := List.mem_map.mp hin
        obtain ⟨r, hr⟩ := hret t ht
        have := hdone t ht r hr
        rw [hi] at this
        exact Or.inr ⟨r, Option.some.inj this⟩
      · rw [hframe i hin] at hi
        exact h.oneValue c (List.mem_iff_getElem?.mpr ⟨i, hi⟩)
  · cases hp
  · cases hp

/-- In a state with the one-shot invariant a publish completes when the transforms of
the targets return. -/
theorem OneShot.completes (b : PublisherState) (name : String)
    (v : ResolvedRuntimeDependencyValue) (h : OneShot b)
    (hret : ∀ t ∈ subscriptionsOf b.subscriptions name, ∃ r, t.valueFor v = GoExec.done r) :
    ∃ b2, PublishRuntimeDependencyValue b name v = GoExec.done b2 := by
  obtain ⟨chans2, hloop, _, _⟩ := publishLoop_spec v
    (subscriptionsOf b.subscriptions name) b.chans (h.targets_nodup b name)
    (h.targets_open b name) hret
  exact ⟨{ subscriptions := mapDelete b.subscriptions name, chans := chans2 },
    by simp [PublishRuntimeDependencyValue, hloop]⟩

theorem OneShot.of_reachable (b : PublisherState) (h : Reachable b) : OneShot b := by
  induction h with
  | new => exact OneShot.of_new
  | subscribe b name transforms _ ih => exact OneShot.subscribe b name transforms ih
  | publish b b2 name v _ hp ih => exact OneShot.publish b b2 name v ih hp

/-- On targets with pairwise distinct, empty, open channels the publish loop completes,
or stops on the first transform that does not return, with the outcome of that
transform: no send and no close fails. -/
theorem publishLoop_outcome (result : ResolvedRuntimeDependencyValue) :
    ∀ (ts : List RuntimeDependencyPublishTarget) (chans : List Chan),
      (ts.map fun t => t.channel).Nodup →
      (∀ t ∈ ts, chans[t.channel]? = some { buf := [], closed := false }) →
      (∃ chans2, publishLoop result ts chans = GoExec.done chans2)
      ∨ ∃ t ∈ ts,
          (∃ msg, t.valueFor result = GoExec.panic msg
            ∧ publishLoop result ts chans = GoExec.panic msg)
          ∨ (t.valueFor result = GoExec.blocked
            ∧ publishLoop result ts chans = GoExec.blocked) := by
  intro ts
  induction ts with
  | nil => intro chans _ _; exact Or.inl ⟨chans, rfl⟩
  | cons t rest ih =>
    intro chans hnd hopen
    have ht := hopen t (List.mem_cons_self _ _)
    have hlt := chan_lt_of_open _ _ _ ht
    simp only [List.map_cons, List.nodup_cons] at hnd
    obtain ⟨hnotin, hnd⟩ := hnd
    cases hv : t.valueFor result with
    | panic msg =>
      exact Or.inr ⟨t, List.mem_cons_self _ _, Or.inl ⟨msg, hv, by simp [publishLoop, hv]⟩⟩
    | blocked =>
      exact Or.inr ⟨t, List.mem_cons_self _ _, Or.inr ⟨hv, by simp [publishLoop, hv]⟩⟩
    | done r =>
      have hrest : ∀ u ∈ rest,
          (chans.set t.channel { buf := [r], closed := true })[u.channel]?
            = some { buf := [], closed := false } := by
        intro u hu
        have hne : t.channel ≠ u.channel := by
          intro heq
          exact hnotin (heq ▸ List.mem_map_of_mem (fun t => t.channel) hu)
        rw [List.getElem?_set_ne hne]
        exact hopen u (List.mem_cons_of_mem _ hu)
      have hstep : publishLoop result (t :: rest) chans
          = publishLoop result rest (chans.set t.channel { buf := [r], closed := true }) := by
        simp [publishLoop, hv, chanSend, chanClose, ht, hlt, List.set_set]
      rw [hstep]
      rcases ih _ hnd hrest with hdone | ⟨u, hu, hout⟩
      · exact Or.inl hdone
      · exact Or.inr ⟨u, List.mem_cons_of_mem _ hu, hout⟩

/-! ## Claim on one-shot delivery -/

/-- C26: in every state reached from a new publisher by calls of subscribe and calls of
publish that return, every channel made by subscribe is either open and empty or closed
with exactly one value received (so it has received at most one value); every target
still in the subscription table has an open and empty channel, and no two targets share a
channel; and a further publish either completes or stops with the outcome of a transform
that does not return: it never sends to or closes a closed channel, and the send on the
channel of capacity 1 never blocks. -/
theorem C26_one_shot_delivery (b : PublisherState) (h : Reachable b) :
    (∀ c ∈ b.chans,
      c.buf.length ≤ 1
        ∧ (c = { buf := [], closed := false } ∨ ∃ v, c = { buf := [v], closed := true }))
    ∧ (∀ name, ∀ t ∈ subscriptionsOf b.subscriptions name,
        b.chans[t.channel]? = some { buf := [], closed := false })
    ∧ (targetChannels b.subscriptions).Nodup
    ∧ (∀ name v,
        (∃ b2, PublishRuntimeDependencyValue b name v = GoExec.done b2 ∧ Reachable b2)
        ∨ ∃ t ∈ subscriptionsOf b.subscriptions name,
            (∃ msg, t.valueFor v = GoExec.panic msg
              ∧ PublishRuntimeDependencyValue b name v = GoExec.panic msg)
            ∨ (t.valueFor v = GoExec.blocked
              ∧ PublishRuntimeDependencyValue b name v = GoExec.blocked)) := by
  have hinv := OneShot.of_reachable b h
  refine ⟨?_, ?_, hinv.targetsDistinct, ?_⟩
  · intro c hc
    rcases hinv.oneValue c hc with hopen | ⟨v, hv⟩
    · exact ⟨by simp [hopen], Or.inl hopen⟩
    · exact ⟨by simp [hv], Or.inr ⟨v, hv⟩⟩
  · intro name
    exact hinv.targets_open b name
  · intro name v
    rcases publishLoop_outcome v (subscriptionsOf b.subscriptions name) b.chans
        (hinv.targets_nodup b name) (hinv.targets_open b name) with
      ⟨chans2, hloop⟩ | ⟨t, ht, hout⟩
    · have hp : PublishRuntimeDependencyValue b name v
          = GoExec.done { subscriptions := mapDelete b.subscriptions name, chans := chans2 } := by
        simp [PublishRuntimeDependencyValue, hloop]
      exact Or.inl ⟨_, hp, Reachable.publish b _ name v h hp⟩
    · refine Or.inr ⟨t, ht, ?_⟩
      rcases hout with ⟨msg, hv, hloop⟩ | ⟨hv, hloop⟩
      · exact Or.inl ⟨msg, hv, by simp [PublishRuntimeDependencyValue, hloop]⟩
      · exact Or.inr ⟨hv, by simp [PublishRuntimeDependencyValue, hloop]⟩

/-- C26 on the publisher subscribed twice to `stuff1`. -/
theorem C26_one_shot_delivery_witness :
    (∀ c ∈ exampleSubscribedTwice.chans,
      c.buf.length ≤ 1
        ∧ (c = { buf := [], closed := false } ∨ ∃ v, c = { buf := [v], closed := true }))
    ∧ (∀ name, ∀ t ∈ subscriptionsOf exampleSubscribedTwice.subscriptions name,
        exampleSubscribedTwice.chans[t.channel]? = some { buf := [], closed := false })
    ∧ (targetChannels exampleSubscribedTwice.subscriptions).Nodup
    ∧ (∀ name v,
        (∃ b2, PublishRuntimeDependencyValue exampleSubscribedTwice name v = GoExec.done b2
          ∧ Reachable b2)
        ∨ ∃ t ∈ subscriptionsOf exampleSubscribedTwice.subscriptions name,
            (∃ msg, t.valueFor v = GoExec.panic msg
              ∧ PublishRuntimeDependencyValue exampleSubscribedTwice name v = GoExec.panic msg)
            ∨ (t.valueFor v = GoExec.blocked
              ∧ PublishRuntimeDependencyValue exampleSubscribedTwice name v
                  = GoExec.blocked)) :=
  C26_one_shot_delivery exampleSubscribedTwice
    (Reachable.subscribe _ "stuff1" []
      (Reachable.subscribe _ "stuff1" [exampleTransform] Reachable.new))

end Steampipe
